import Mathlib

/-!
# TinyLink frame codec: a shallow embedding and its verified properties

The development embeds `src/src/Crc.cpp` and `src/src/TinyLink.cpp`.

Conventions of the embedding.

* Machine integers are natural numbers. The conversions the C++ code performs
  (a store into a `uint8_t`, a `static_cast`, the 16-bit field holding the buffer
  length, the `size_t` cursor) appear as explicit remainders.
* The target is the one the unit tests run on: `int` has 32 bits or more (so that
  `uint16_t` operands are promoted to a signed `int`), `size_t` has 64 bits, and
  the byte order is little-endian (the preamble and the frame CRC are written from
  the memory representation of a `uint32_t`).
* A `uint8_t*` is the memory seen through the pointer: a function from offsets to
  cell contents. `p + k` is `shift p k`.
* The transport is an external collaborator. The bytes written to it are a list
  (the `written` vector of the test double); the value returned by
  `stream.read()` is an argument of the decoder step.
-/

namespace TinyLink

/-! ## Constants (`include/TinyLink.h`, `include/Crc.h`) -/

/-- The constant `PREAMBLE`. -/
def PREAMBLE : Nat := 0xAA55AA55

/-- The constant `FLAG`. -/
def FLAG : Nat := 0xAA

/-- The constant `ESCAPE`. -/
def ESCAPE : Nat := 0x1B

/-- The constant `LEN_PREAMBLE`. -/
def LEN_PREAMBLE : Nat := 4

/-- The constant `LEN_FLAGS`. -/
def LEN_FLAGS : Nat := 2

/-- The constant `LEN_LENGTH`. -/
def LEN_LENGTH : Nat := 2

/-- The constant `LEN_XOR`. -/
def LEN_XOR : Nat := 1

/-- The constant `LEN_HEADER`. -/
def LEN_HEADER : Nat := LEN_FLAGS + LEN_LENGTH + LEN_XOR

/-- The constant `LEN_CRC`. -/
def LEN_CRC : Nat := 4

/-- The constant `LEN_BODY`. -/
def LEN_BODY : Nat := LEN_CRC

/-- The constant `CRC32_POLYNOMIAL`. -/
def CRC32_POLYNOMIAL : Nat := 0xEDB88320

/-- Number of values of a `size_t` (64 bits). -/
def SIZE_T_MOD : Nat := 18446744073709551616

/-- Number of values of a `uint32_t`. -/
def UINT32_MOD : Nat := 4294967296

/-- Number of values of a `uint16_t`. -/
def UINT16_MOD : Nat := 65536

/-- Number of values of a `uint8_t`. -/
def UINT8_MOD : Nat := 256

/-! ## Memory -/

/-- Pointer arithmetic: the memory seen through `p + k`. -/
def shift (p : Nat → Nat) (k : Nat) : Nat → Nat := fun i => p (k + i)

/-- The memory seen through a pointer to the first element of a byte sequence. -/
def ptr (l : List Nat) : Nat → Nat := fun i => l.getD i 0

/-- The first `n` cells seen through a pointer, as a list. -/
def cells (p : Nat → Nat) (n : Nat) : List Nat := (List.range n).map p

/-- Memory representation of a `uint32_t` object (little-endian), as seen through
`reinterpret_cast<uint8_t*>(&value)`. -/
def bytes_uint32_t (value : Nat) : Nat → Nat :=
  ptr [value % 256, value / 256 % 256, value / 65536 % 256, value / 16777216 % 256]

/-- The library call `memcpy(dst + 0, src + from, n)` inside one buffer, the source
being read before the destination is written. -/
def memcpy_front (buffer : Nat → Nat) (src : Nat) (n : Nat) : Nat → Nat :=
  fun i => if i < n then buffer (src + i) else buffer i

/-- The library call `memcpy(dst, src, n)` between two disjoint buffers. -/
def memcpy (dst src : Nat → Nat) (n : Nat) : Nat → Nat :=
  fun i => if i < n then src i else dst i

/-! ## `Crc.cpp` -/

/-- The `while (length--)` loop of `CRC32Value`, `length` rounds on `crc`. -/
def CRC32Value_loop : Nat → Nat → Nat
  | 0, crc => crc
  | length + 1, crc =>
    if crc &&& 1 ≠ 0 then
      CRC32Value_loop length ((crc >>> 1) ^^^ CRC32_POLYNOMIAL)
    else
      CRC32Value_loop length (crc >>> 1)

/-- The function `CRC32Value`: the new value of the register `CRC` after byte `c`. -/
def CRC32Value (CRC : Nat) (c : Nat) : Nat :=
  let temp := (CRC >>> 8) &&& 0x00FFFFFF
  let crc := (CRC ^^^ c) &&& 0xFF
  let crc := CRC32Value_loop 8 crc
  temp ^^^ crc

/-- The function `CRC32(uint32_t initial, const uint8_t* buffer, size_t length)`. -/
def CRC32 (initial : Nat) (buffer : Nat → Nat) : Nat → Nat
  | 0 => initial
  | length + 1 => CRC32 (CRC32Value initial (buffer 0)) (shift buffer 1) length

/-- The overload `CRC32(const uint8_t* buffer, size_t length)`. -/
def CRC32_buffer (buffer : Nat → Nat) (length : Nat) : Nat :=
  CRC32 0 buffer length

/-- The overload `CRC32(uint32_t initial, uint8_t value)`. -/
def CRC32_initial_value (initial : Nat) (value : Nat) : Nat :=
  CRC32 initial (ptr [value]) 1

/-- The overload `CRC32(uint8_t value)`. -/
def CRC32_value (value : Nat) : Nat :=
  CRC32 0 (ptr [value]) 1

/-! ## `TinyLink.cpp`: data -/

/-- The enumeration `tinylink_state_e`. -/
inductive tinylink_state_e where
  | WAITING_FOR_PREAMBLE
  | WAITING_FOR_HEADER
  | WAITING_FOR_BODY
  deriving DecidableEq, Repr

/-- The record `frame_t`. The payload pointer is the memory seen through it. -/
structure frame_t where
  length : Nat
  flags : Nat
  payload : Nat → Nat

end TinyLink

/-- The data members of class `TinyLink` (the stream reference apart). -/
structure TinyLink where
  length : Nat
  buffer : Nat → Nat
  index : Nat
  unescaping : Bool
  state : TinyLink.tinylink_state_e

namespace TinyLink

open tinylink_state_e

/-! ## `TinyLink.cpp`: helpers -/

/-- The helper `_read_uint32_t`. -/
def _read_uint32_t (buffer : Nat → Nat) : Nat :=
  let value := 0
  let value := (value ||| ((buffer 0 % UINT32_MOD) <<< 0)) % UINT32_MOD
  let value := (value ||| ((buffer 1 % UINT32_MOD) <<< 8)) % UINT32_MOD
  let value := (value ||| ((buffer 2 % UINT32_MOD) <<< 16)) % UINT32_MOD
  let value := (value ||| ((buffer 3 % UINT32_MOD) <<< 24)) % UINT32_MOD
  value

/-- The helper `_read_uint16_t`. -/
def _read_uint16_t (buffer : Nat → Nat) : Nat :=
  let value := 0
  let value := (value ||| ((buffer 0 % UINT16_MOD) <<< 0)) % UINT16_MOD
  let value := (value ||| ((buffer 1 % UINT16_MOD) <<< 8)) % UINT16_MOD
  value

/-- The helper `_write_uint16_t`, writing through `buffer + off`. -/
def _write_uint16_t (buffer : Nat → Nat) (off : Nat) (value : Nat) : Nat → Nat :=
  let buffer := Function.update buffer off (((value &&& 0x00FF) >>> 0) % UINT8_MOD)
  let buffer := Function.update buffer (off + 1) (((value &&& 0xFF00) >>> 8) % UINT8_MOD)
  buffer

/-- The helper `_read_uint8_t`. -/
def _read_uint8_t (buffer : Nat → Nat) : Nat :=
  let value := 0
  let value := (value ||| ((buffer 0 % UINT8_MOD) <<< 0)) % UINT8_MOD
  value

/-- The helper `_write_uint8_t`, writing through `buffer + off`. -/
def _write_uint8_t (buffer : Nat → Nat) (off : Nat) (value : Nat) : Nat → Nat :=
  Function.update buffer off (((value &&& 0xFF) >>> 0) % UINT8_MOD)

/-- The constructor `TinyLink::TinyLink(Stream&, uint8_t* _buffer, size_t _length)`.
The member `length` is a `uint16_t`, so the `size_t` argument is reduced
modulo 65536 by the assignment. -/
def ctor (_buffer : Nat → Nat) (_length : Nat) : TinyLink :=
  { length := _length % UINT16_MOD
    buffer := _buffer
    state := WAITING_FOR_PREAMBLE
    index := 0
    unescaping := false }

/-- The method `TinyLink::checksumHeader`. -/
def checksumHeader (flags : Nat) (length : Nat) : Nat :=
  let a := ((flags &&& 0x00FF) >>> 0) % UINT8_MOD
  let b := ((flags &&& 0xFF00) >>> 8) % UINT8_MOD
  let c := ((length &&& 0x00FF) >>> 0) % UINT8_MOD
  let d := ((length &&& 0xFF00) >>> 8) % UINT8_MOD
  (a ^^^ b ^^^ c ^^^ d) % UINT8_MOD

/-- The method `TinyLink::checksumFrame`. -/
def checksumFrame (header : Nat → Nat) (payload : Nat → Nat) (length : Nat) : Nat :=
  CRC32 (CRC32_buffer header 5) payload length

/-! ## `TinyLink.cpp`: the encode path -/

/-- The transport call `stream.write(uint8_t)`: one byte is appended. -/
def Stream_write (stream : List Nat) (b : Nat) : List Nat :=
  stream ++ [b]

/-- The transport call `stream.write(const uint8_t*, size_t)` (`test/Stream.h`):
the bytes are written one by one, in order. -/
def Stream_write_buffer (stream : List Nat) (buffer : Nat → Nat) (size : Nat) : List Nat :=
  (List.range size).foldl (fun s i => Stream_write s (buffer i)) stream

/-- The method `TinyLink::writeStream`; the result is the transport after the call. -/
def writeStream (preamble : Bool) (buffer : Nat → Nat) (length : Nat)
    (stream : List Nat) : List Nat :=
  if preamble then
    Stream_write_buffer stream buffer length
  else
    (List.range length).foldl
      (fun s i =>
        if buffer i = FLAG then
          Stream_write (Stream_write s ESCAPE) FLAG
        else if buffer i = ESCAPE then
          Stream_write (Stream_write s ESCAPE) ESCAPE
        else
          Stream_write s (buffer i))
      stream

/-- The method `TinyLink::writeFrame`: the returned value and the transport after
the call. -/
def writeFrame (self : TinyLink) (frame : frame_t) (stream : List Nat) : Bool × List Nat :=
  if frame.length > self.length then
    (false, stream)
  else
    let preamble := PREAMBLE
    let stream := writeStream true (bytes_uint32_t preamble) 4 stream
    let header : Nat → Nat := fun _ => 0
    let checksumHeader := checksumHeader frame.flags frame.length
    let header := _write_uint16_t header 0 frame.flags
    let header := _write_uint16_t header 2 frame.length
    let header := _write_uint8_t header 4 checksumHeader
    let stream := writeStream false header 5 stream
    let checksumFrame := checksumFrame header frame.payload frame.length
    let stream := writeStream false frame.payload frame.length stream
    let stream := writeStream false (bytes_uint32_t checksumFrame) 4 stream
    (true, stream)

/-- The method `TinyLink::write`. -/
def write (self : TinyLink) (flags : Nat) (payload : Nat → Nat) (length : Nat)
    (stream : List Nat) : Bool × List Nat :=
  let frame : frame_t := { length := length, flags := flags, payload := payload }
  writeFrame self frame stream

/-! ## `TinyLink.cpp`: the decode path -/

/-- Outcome of one `readFrame` call: the object, the caller's frame record and the
returned value. -/
structure ReadFrameResult where
  self : TinyLink
  frame : frame_t
  ret : Bool

/-- The `switch (this->state)` statement of `TinyLink::readFrame` and the final
`return false`, entered once the incoming byte is stored. -/
def readFrame_switch (self : TinyLink) (frame : frame_t) : ReadFrameResult :=
  match self.state with
  | WAITING_FOR_PREAMBLE =>
    if self.index ≥ LEN_PREAMBLE then
      let preamble := _read_uint32_t (shift self.buffer (self.index - LEN_PREAMBLE))
      if preamble = PREAMBLE then
        { self := { self with state := WAITING_FOR_HEADER, index := 0 }
          frame := frame, ret := false }
      else if self.index = self.length then
        { self := { self with
                    buffer := memcpy_front self.buffer (self.index - 4) LEN_PREAMBLE
                    index := LEN_PREAMBLE }
          frame := frame, ret := false }
      else
        { self := self, frame := frame, ret := false }
    else
      { self := self, frame := frame, ret := false }
  | WAITING_FOR_HEADER =>
    if self.index = LEN_HEADER then
      let flags := _read_uint16_t (shift self.buffer 0)
      let length := _read_uint16_t (shift self.buffer 2)
      let checksumHeader := _read_uint8_t (shift self.buffer 4)
      if checksumHeader = TinyLink.checksumHeader flags length ∧
          (length : Int) ≤ (self.length : Int) - (LEN_HEADER : Int) - (LEN_BODY : Int) - 1 then
        { self := { self with state := WAITING_FOR_BODY }, frame := frame, ret := false }
      else
        { self := { self with state := WAITING_FOR_PREAMBLE, index := 0 }
          frame := frame, ret := false }
    else
      { self := self, frame := frame, ret := false }
  | WAITING_FOR_BODY =>
    let flags := _read_uint16_t (shift self.buffer 0)
    let length := _read_uint16_t (shift self.buffer 2)
    if self.index = LEN_HEADER + length + LEN_CRC then
      let checksumFrame := _read_uint32_t (shift self.buffer (self.index - LEN_CRC))
      let self := { self with state := WAITING_FOR_PREAMBLE, index := 0 }
      if checksumFrame =
          TinyLink.checksumFrame (shift self.buffer 0) (shift self.buffer 5) length then
        { self := self
          frame := { flags := flags, length := length
                     payload := shift self.buffer LEN_HEADER }
          ret := true }
      else
        { self := self, frame := frame, ret := false }
    else
      { self := self, frame := frame, ret := false }

/-- The statement `this->buffer[this->index++] = byte`. -/
def readFrame_store (self : TinyLink) (byte : Nat) : TinyLink :=
  { self with
    buffer := Function.update self.buffer self.index byte
    index := (self.index + 1) % SIZE_T_MOD }

/-- The unescaping block at the top of `TinyLink::readFrame`. -/
def readFrame_unescape (self : TinyLink) (byte : Nat) : TinyLink :=
  if self.state = WAITING_FOR_HEADER ∨ self.state = WAITING_FOR_BODY then
    if self.unescaping then
      { self with
        index := (self.index + SIZE_T_MOD - 1) % SIZE_T_MOD
        unescaping := false }
    else if byte = ESCAPE then
      { self with unescaping := true }
    else
      self
  else
    self

/-- The method `TinyLink::readFrame`. The argument `r` is the `int` returned by
`this->stream.read()`; its conversion to `uint8_t` is the remainder modulo 256. -/
def readFrame (self : TinyLink) (r : Int) (frame : frame_t) : ReadFrameResult :=
  let byte := (r % 256).toNat
  let self := readFrame_unescape self byte
  let self := readFrame_store self byte
  if self.unescaping then
    { self := self, frame := frame, ret := false }
  else
    readFrame_switch self frame

/-- The method `TinyLink::read`. The argument `frame` is the indeterminate initial
content of the local variable `frame`; `buffer` is the caller's destination. The
result is the object, the destination and the returned value. -/
def read (self : TinyLink) (r : Int) (frame : frame_t) (buffer : Nat → Nat) (length : Nat) :
    TinyLink × (Nat → Nat) × Bool :=
  let o := readFrame self r frame
  if ¬ o.ret then
    (o.self, buffer, false)
  else if o.frame.length > length then
    (o.self, buffer, false)
  else
    (o.self, memcpy buffer o.frame.payload o.frame.length, true)

/-! ## Driving the decoder -/

/-- The value of a frame record: flags, length and the `length` payload bytes. -/
def frame_t.value (f : frame_t) : Nat × Nat × List Nat :=
  (f.flags, f.length, cells f.payload f.length)

/-- The object and frame record after polling `readFrame` once per incoming byte. -/
def feedState (self : TinyLink) (frame : frame_t) : List Nat → TinyLink × frame_t
  | [] => (self, frame)
  | b :: bs =>
    feedState (readFrame self (b : Int) frame).self (readFrame self (b : Int) frame).frame bs

/-- What the calls of that polling loop produce: for each byte, in order, the frame
value when `readFrame` returned true and nothing when it returned false. -/
def feedOut (self : TinyLink) (frame : frame_t) : List Nat → List (Option (Nat × Nat × List Nat))
  | [] => []
  | b :: bs =>
    (if (readFrame self (b : Int) frame).ret then
        some (readFrame self (b : Int) frame).frame.value
      else none) ::
      feedOut (readFrame self (b : Int) frame).self (readFrame self (b : Int) frame).frame bs

/-! ## The wire format in the words of the specification -/

/-- The escaping rule: FLAG becomes ESCAPE FLAG, ESCAPE becomes ESCAPE ESCAPE, any
other byte is sent as it is. -/
def stuffByte (b : Nat) : List Nat :=
  if b = 0xAA then [0x1B, 0xAA] else if b = 0x1B then [0x1B, 0x1B] else [b]

/-- The escaping rule applied to a byte sequence. -/
def stuff (bs : List Nat) : List Nat :=
  bs.flatMap stuffByte

/-- The five logical header bytes of the wire format. -/
def headerBytes (flags length : Nat) : List Nat :=
  [flags % 256, flags / 256 % 256, length % 256, length / 256 % 256,
    (flags % 256) ^^^ (flags / 256 % 256) ^^^ (length % 256) ^^^ (length / 256 % 256)]

/-- Little-endian bytes of a 32-bit value. -/
def LE32 (v : Nat) : List Nat :=
  [v % 256, v / 256 % 256, v / 65536 % 256, v / 16777216 % 256]

/-- The checksum in the words of the specification: the fold of the per-byte update
over the bytes. -/
def crc32 (seed : Nat) (data : List Nat) : Nat :=
  data.foldl CRC32Value seed

/-- The wire image of a frame: raw preamble, then header, payload and CRC, stuffed. -/
def wire (flags : Nat) (payload : List Nat) : List Nat :=
  [0x55, 0xAA, 0x55, 0xAA] ++
    stuff (headerBytes flags payload.length ++ payload ++
      LE32 (crc32 (crc32 0 (headerBytes flags payload.length)) payload))

/-! ## Notions used in the statements and proofs -/

/-- The memory `buf` after the bytes `bs` have been stored from offset `off` on. -/
def blit (buf : Nat → Nat) (off : Nat) (bs : List Nat) : Nat → Nat :=
  fun i => if off ≤ i ∧ i < off + bs.length then bs.getD (i - off) 0 else buf i

/-- The length field of the header held at the front of a scratch buffer. -/
def headerLength (buf : Nat → Nat) : Nat := _read_uint16_t (shift buf 2)

/-- The decoder is reading a header or a body, is not in the middle of an escape
sequence, and storing `n` more unstuffed bytes completes neither the header nor the
body. -/
def Quiet (self : TinyLink) (n : Nat) : Prop :=
  self.unescaping = false ∧
    ((self.state = WAITING_FOR_HEADER ∧ self.index + n < 5) ∨
      (self.state = WAITING_FOR_BODY ∧ 4 ≤ self.index ∧
        self.index + n < 9 + headerLength self.buffer))

/-- The four preamble bytes in transmission order. -/
def preambleBytes : List Nat := [0x55, 0xAA, 0x55, 0xAA]

/-- The most recent bytes first: the last four bytes received are the preamble. -/
def synced (recent : List Nat) : Prop := recent.take 4 = [0xAA, 0x55, 0xAA, 0x55]

instance (recent : List Nat) : Decidable (synced recent) := by
  unfold synced
  infer_instance

/-- While the bytes `bs` arrive after the history `recent` (most recent first), the
last four bytes received never are the preamble. -/
def noSync : List Nat → List Nat → Prop
  | _, [] => True
  | recent, b :: bs => ¬ synced (b :: recent) ∧ noSync (b :: recent) bs

/-- The decoder is seeking the preamble, its cursor is inside the buffer, and the
scratch buffer ends (at the cursor) with the bytes last received, `recent` listing
them most recent first. -/
def Seeking (self : TinyLink) (recent : List Nat) : Prop :=
  self.state = WAITING_FOR_PREAMBLE ∧ self.unescaping = false ∧
    self.index < self.length ∧ self.index ≤ recent.length ∧
    min 3 recent.length ≤ self.index ∧
    ∀ j, j < self.index → self.buffer (self.index - 1 - j) = recent.getD j 0

/-- The wire image of a frame up to its fifth logical header byte, that byte (the
header checksum) being replaced by `c`. -/
def wireHeadWith (flags : Nat) (payload : List Nat) (c : Nat) : List Nat :=
  preambleBytes ++ stuff ((headerBytes flags payload.length).take 4 ++ [c])

/-- The wire image of a frame after its header: the stuffed payload and CRC. -/
def wireBody (flags : Nat) (payload : List Nat) : List Nat :=
  stuff (payload ++ LE32 (crc32 (crc32 0 (headerBytes flags payload.length)) payload))

/-- The value of a little-endian byte sequence. -/
def leValue : List Nat → Nat
  | [] => 0
  | b :: bs => b + 256 * leValue bs

/-- The flags field of the header held at the front of a scratch buffer. -/
def headerFlags (buf : Nat → Nat) : Nat := _read_uint16_t (shift buf 0)

/-- The number of unstuffed bytes a decoder holds: its cursor, less the escape marker
when one is pending. -/
def stored (self : TinyLink) : Nat :=
  if self.unescaping then self.index - 1 else self.index

/-- What holds of a decoder in every state it reaches from its initial state: a
pending escape marker occupies a cell; while seeking no escape is pending; a header
under construction has at most four bytes; a body is read behind a header that was
accepted and is still in place, short of its last CRC byte. -/
def Consistent (self : TinyLink) : Prop :=
  (self.unescaping = true → 1 ≤ self.index) ∧
    match self.state with
    | WAITING_FOR_PREAMBLE => self.unescaping = false
    | WAITING_FOR_HEADER => stored self ≤ 4 ∧ ∀ i, i < stored self → self.buffer i < 256
    | WAITING_FOR_BODY =>
      5 ≤ stored self ∧ stored self < 9 + headerLength self.buffer ∧
        (∀ i, i < stored self → self.buffer i < 256) ∧
        self.buffer 4 = checksumHeader (headerFlags self.buffer) (headerLength self.buffer) ∧
        headerLength self.buffer + 10 ≤ self.length

/-- What the specification promises of a frame handed to the caller by a decoder of
capacity `C` whose scratch buffer is `buf`: the length bound, the payload view, the
header in place and the CRC behind the payload. -/
def ValidFrame (C : Nat) (buf : Nat → Nat) (frame : frame_t) : Prop :=
  (frame.length : Int) ≤ (C : Int) - 10 ∧
    frame.payload = shift buf 5 ∧
    cells buf 5 = [frame.flags % 256, frame.flags / 256 % 256, frame.length % 256,
      frame.length / 256 % 256, checksumHeader frame.flags frame.length] ∧
    leValue (cells (shift buf (5 + frame.length)) 4)
      = crc32 (crc32 0 (cells buf 5)) (cells frame.payload frame.length)

/-! ## The checksum in the words of the specification -/

/-- One round of the bit-serial update on the full register: the register is shifted
right by one, and the polynomial is XORed in when the register was odd. -/
def bitSerialRound (r : Nat) : Nat :=
  if r % 2 = 1 then (r >>> 1) ^^^ 0xEDB88320 else r >>> 1

/-- The full-register update `u(r, b)`: `r := r XOR b`, then eight rounds. -/
def bitSerialUpdate (r b : Nat) : Nat :=
  bitSerialRound^[8] (r ^^^ b)

/-- The bit-serial CRC with no initial and no final XOR: the left fold of the
full-register update over the data. -/
def crcBitSerial (seed : Nat) (data : List Nat) : Nat :=
  data.foldl bitSerialUpdate seed

/-- One data bit of the non-reflected CRC: the 32-bit register is shifted left by
one, and the polynomial is XORed in when the bit shifted out of the register differs
from the data bit. -/
def msbFirstBit (r bit : Nat) : Nat :=
  if (r >>> 31) % 2 ≠ bit then ((r <<< 1) % 4294967296) ^^^ 0xEDB88320
  else (r <<< 1) % 4294967296

/-- One byte of the non-reflected CRC: its bits are taken from bit 7 down to bit 0. -/
def msbFirstByte (r b : Nat) : Nat :=
  [7, 6, 5, 4, 3, 2, 1, 0].foldl (fun r i => msbFirstBit r ((b >>> i) % 2)) r

/-- The non-reflected, most-significant-bit-first CRC with no initial and no final
XOR. -/
def crcMsbFirst (seed : Nat) (data : List Nat) : Nat :=
  data.foldl msbFirstByte seed

/-- One data bit of the reflected CRC: the register is shifted right by one, and the
polynomial is XORed in when the bit shifted out of the register differs from the data
bit. -/
def lsbFirstBit (r bit : Nat) : Nat :=
  if r % 2 ≠ bit then (r >>> 1) ^^^ 0xEDB88320 else r >>> 1

/-- One byte of the reflected CRC: its bits are taken from bit 0 up to bit 7. -/
def lsbFirstByte (r b : Nat) : Nat :=
  [0, 1, 2, 3, 4, 5, 6, 7].foldl (fun r i => lsbFirstBit r ((b >>> i) % 2)) r

/-- The reflected, least-significant-bit-first CRC with no initial and no final
XOR. -/
def crcLsbFirst (seed : Nat) (data : List Nat) : Nat :=
  data.foldl lsbFirstByte seed

/-! ## A client session -/

/-- A call a client makes on the codec: `readFrame(&frame)`, the transport delivering
`r`, or `writeFrame(&frame)`. -/
inductive Call where
  | readFrame (r : Int)
  | writeFrame (frame : frame_t)

/-- The call is a `readFrame`. -/
def Call.isRead : Call → Bool
  | Call.readFrame _ => true
  | Call.writeFrame _ => false

/-- The codec with its surroundings: the object, the caller's frame record for
`readFrame`, and the bytes written to the transport so far. -/
structure Session where
  self : TinyLink
  frame : frame_t
  written : List Nat

/-- One call: the session after it and the returned value. No statement of
`writeFrame`, nor of `writeStream`, `checksumHeader` and `checksumFrame`, which it
calls, assigns to a data member or stores through `this->buffer`; the frame it is
given is `const`. So the object after `writeFrame` is the object before it, and
only the transport changes. -/
def Session.call (s : Session) : Call → Session × Bool
  | Call.readFrame r =>
    ({ s with self := (readFrame s.self r s.frame).self
              frame := (readFrame s.self r s.frame).frame },
      (readFrame s.self r s.frame).ret)
  | Call.writeFrame frame =>
    ({ s with written := (writeFrame s.self frame s.written).2 },
      (writeFrame s.self frame s.written).1)

/-- The session after a sequence of calls. -/
def Session.run (s : Session) : List Call → Session
  | [] => s
  | c :: cs => Session.run (s.call c).1 cs

/-- The results of the `readFrame` calls of a sequence of calls, in order: the
returned value and the value of the caller's frame record after the call. -/
def Session.readResults (s : Session) : List Call → List (Bool × (Nat × Nat × List Nat))
  | [] => []
  | Call.readFrame r :: cs =>
    ((s.call (Call.readFrame r)).2, (s.call (Call.readFrame r)).1.frame.value) ::
      Session.readResults (s.call (Call.readFrame r)).1 cs
  | Call.writeFrame frame :: cs => Session.readResults (s.call (Call.writeFrame frame)).1 cs

/-! ## The cells of the scratch buffer a call of `readFrame` touches -/

/-- The cursor values to which the statement `this->index -= 1` is applied in a call
of `readFrame`: the cursor at the call, when an escape is pending in the header or
body state. -/
def readFrame_decrements (self : TinyLink) : List Nat :=
  if self.state = WAITING_FOR_HEADER ∨ self.state = WAITING_FOR_BODY then
    if self.unescaping then [self.index] else []
  else
    []

/-- The indices of `this->buffer` written by the `switch` statement of `readFrame`:
the destination of `memcpy` when the buffer is full without a preamble. -/
def readFrame_switch_writes (self : TinyLink) : List Nat :=
  match self.state with
  | WAITING_FOR_PREAMBLE =>
    if self.index ≥ LEN_PREAMBLE then
      if _read_uint32_t (shift self.buffer (self.index - LEN_PREAMBLE)) = PREAMBLE then
        []
      else if self.index = self.length then
        List.range LEN_PREAMBLE
      else
        []
    else
      []
  | WAITING_FOR_HEADER => []
  | WAITING_FOR_BODY => []

/-- The indices of `this->buffer` read by the `switch` statement of `readFrame`: the
preamble window and the source of `memcpy`; the flags, the length and the checksum of
the header; the flags and the length at every call in the body state, then the CRC
window and the cells `CRC32` runs over in `checksumFrame`. -/
def readFrame_switch_reads (self : TinyLink) : List Nat :=
  match self.state with
  | WAITING_FOR_PREAMBLE =>
    if self.index ≥ LEN_PREAMBLE then
      (List.range 4).map (fun i => self.index - LEN_PREAMBLE + i) ++
        (if _read_uint32_t (shift self.buffer (self.index - LEN_PREAMBLE)) = PREAMBLE then
          []
        else if self.index = self.length then
          (List.range LEN_PREAMBLE).map (fun i => self.index - 4 + i)
        else
          [])
    else
      []
  | WAITING_FOR_HEADER =>
    if self.index = LEN_HEADER then
      (List.range 2).map (fun i => 0 + i) ++ (List.range 2).map (fun i => 2 + i) ++ [4]
    else
      []
  | WAITING_FOR_BODY =>
    (List.range 2).map (fun i => 0 + i) ++ (List.range 2).map (fun i => 2 + i) ++
      (if self.index = LEN_HEADER + _read_uint16_t (shift self.buffer 2) + LEN_CRC then
        (List.range 4).map (fun i => self.index - LEN_CRC + i) ++
          (List.range 5).map (fun i => 0 + i) ++
          (List.range (_read_uint16_t (shift self.buffer 2))).map (fun i => 5 + i)
      else
        [])

/-- The indices of `this->buffer` written by a call of `readFrame`: the cell of
`this->buffer[this->index++] = byte`, then the cells written by the `switch` statement
when it is reached. -/
def readFrame_writes (self : TinyLink) (r : Int) : List Nat :=
  let byte := (r % 256).toNat
  let self := readFrame_unescape self byte
  self.index ::
    (if (readFrame_store self byte).unescaping then []
     else readFrame_switch_writes (readFrame_store self byte))

/-- The indices of `this->buffer` read by a call of `readFrame`. -/
def readFrame_reads (self : TinyLink) (r : Int) : List Nat :=
  let byte := (r % 256).toNat
  let self := readFrame_store (readFrame_unescape self byte) byte
  if self.unescaping then [] else readFrame_switch_reads self

/-- What holds in addition of a decoder of capacity at least 5 in every state it
reaches from its initial state: while it seeks the preamble, its cursor is inside the
buffer. -/
def InBounds (self : TinyLink) : Prop :=
  Consistent self ∧ (self.state = WAITING_FOR_PREAMBLE → self.index < self.length)

/-- The decoder is seeking the preamble and the scratch buffer ends (at the cursor)
with the bytes last received, `recent` listing them most recent first; the cursor may
be anywhere. -/
def Scanning (self : TinyLink) (recent : List Nat) : Prop :=
  self.state = WAITING_FOR_PREAMBLE ∧ self.unescaping = false ∧
    self.index ≤ recent.length ∧ min 3 recent.length ≤ self.index ∧
    ∀ j, j < self.index → self.buffer (self.index - 1 - j) = recent.getD j 0

/-! ## Removal of byte stuffing in the words of the specification -/

/-- Removal of byte stuffing: an ESCAPE byte that is not itself escaped is deleted and
the byte following it is kept verbatim. The flag tells that the byte before the
sequence was such an ESCAPE. -/
def unstuffFrom : Bool → List Nat → List Nat
  | _, [] => []
  | true, b :: bs => b :: unstuffFrom false bs
  | false, b :: bs => if b = 0x1B then unstuffFrom true bs else b :: unstuffFrom false bs

/-- Removal of byte stuffing from a sequence of wire bytes. -/
def unstuff (w : List Nat) : List Nat := unstuffFrom false w

/-- The sequence ends in an ESCAPE byte that is not itself escaped. -/
def escapePending : Bool → List Nat → Bool
  | pending, [] => pending
  | true, _ :: bs => escapePending false bs
  | false, b :: bs => if b = 0x1B then escapePending true bs else escapePending false bs

/-- The decoder, in the header or body state, holds the unstuffed bytes `u` at the
front of its scratch buffer, followed by the escape marker when `pending`; a header
under construction has at most four bytes, a body is short of its last CRC byte. -/
def Holds (self : TinyLink) (u : List Nat) (pending : Bool) : Prop :=
  self.unescaping = pending ∧
    self.index = u.length + (if pending then 1 else 0) ∧
    cells self.buffer u.length = u ∧
    (pending = true → self.buffer u.length = 0x1B) ∧
    ((self.state = WAITING_FOR_HEADER ∧ u.length ≤ 4) ∨
      (self.state = WAITING_FOR_BODY ∧ 5 ≤ u.length ∧
        u.length < 9 + headerLength self.buffer))

/-! # Theorems -/

/-! ## Memory views -/

theorem cells_length (p : Nat → Nat) (n : Nat) : (cells p n).length = n := by
  simp [cells]

theorem cells_zero (p : Nat → Nat) : cells p 0 = [] := rfl

theorem cells_succ (p : Nat → Nat) (n : Nat) :
    cells p (n + 1) = p 0 :: cells (shift p 1) n := by
  simp only [cells, List.range_succ_eq_map, List.map_cons, List.map_map]
  congr 1
  apply List.map_congr_left
  intro i _
  simp [shift, Nat.add_comm]

theorem cells_succ_last (p : Nat → Nat) (n : Nat) :
    cells p (n + 1) = cells p n ++ [p n] := by
  simp [cells, List.range_succ]

theorem shift_ptr_cons (a : Nat) (l : List Nat) : shift (ptr (a :: l)) 1 = ptr l := by
  funext i
  simp [shift, ptr, Nat.add_comm 1 i]

theorem cells_ptr (l : List Nat) : cells (ptr l) l.length = l := by
  induction l with
  | nil => rfl
  | cons a l ih =>
    rw [List.length_cons, cells_succ, shift_ptr_cons, ih]
    simp [ptr]

theorem cells_congr {p q : Nat → Nat} {n : Nat} (h : ∀ i, i < n → p i = q i) :
    cells p n = cells q n := by
  apply List.map_congr_left
  intro i hi
  exact h i (List.mem_range.mp hi)

theorem cells_add (p : Nat → Nat) (m n : Nat) :
    cells p (m + n) = cells p m ++ cells (shift p m) n := by
  induction n with
  | zero => simp [cells_zero]
  | succ n ih =>
    rw [← Nat.add_assoc, cells_succ_last, ih, cells_succ_last, List.append_assoc]
    simp [shift]

/-! ## The checksum -/

theorem CRC32_eq_crc32 (initial : Nat) (buffer : Nat → Nat) (length : Nat) :
    CRC32 initial buffer length = crc32 initial (cells buffer length) := by
  induction length generalizing initial buffer with
  | zero => rfl
  | succ n ih =>
    rw [CRC32, ih, cells_succ]
    rfl

theorem crc32_append (seed : Nat) (A B : List Nat) :
    crc32 (crc32 seed A) B = crc32 seed (A ++ B) := by
  simp [crc32, List.foldl_append]

theorem CRC32_congr {p q : Nat → Nat} {n : Nat} (initial : Nat)
    (h : ∀ i, i < n → p i = q i) : CRC32 initial p n = CRC32 initial q n := by
  rw [CRC32_eq_crc32, CRC32_eq_crc32, cells_congr h]

theorem lo_byte (v : Nat) : ((v &&& 0x00FF) >>> 0) % UINT8_MOD = v % 256 := by
  have h : v &&& 255 = v % 256 := Nat.and_pow_two_sub_one_eq_mod v 8
  simp [UINT8_MOD, h]

theorem hi_byte (v : Nat) : ((v &&& 0xFF00) >>> 8) % UINT8_MOD = v / 256 % 256 := by
  have h : (v >>> 8) &&& 255 = (v >>> 8) % 256 := Nat.and_pow_two_sub_one_eq_mod (v >>> 8) 8
  have h2 : (v &&& 0xFF00) >>> 8 = (v >>> 8) &&& 255 := by
    apply Nat.eq_of_testBit_eq
    intro i
    have e : Nat.testBit (255 <<< 8) (8 + i) = Nat.testBit 255 i := by
      rw [Nat.testBit_shiftLeft]
      simp
    have e2 : (255 <<< 8 : Nat) = 65280 := by decide
    rw [e2] at e
    simp only [Nat.testBit_shiftRight, Nat.testBit_and, e]
  rw [h2, h, Nat.shiftRight_eq_div_pow]
  simp [UINT8_MOD]

theorem xor_lt_256 {a b : Nat} (ha : a < 256) (hb : b < 256) : a ^^^ b < 256 :=
  Nat.xor_lt_two_pow (n := 8) ha hb

theorem checksumHeader_eq (flags length : Nat) :
    checksumHeader flags length =
      (flags % 256) ^^^ (flags / 256 % 256) ^^^ (length % 256) ^^^ (length / 256 % 256) := by
  simp only [checksumHeader, lo_byte, hi_byte]
  apply Nat.mod_eq_of_lt
  have h1 : flags % 256 < 256 := Nat.mod_lt _ (by decide)
  have h2 : flags / 256 % 256 < 256 := Nat.mod_lt _ (by decide)
  have h3 : length % 256 < 256 := Nat.mod_lt _ (by decide)
  have h4 : length / 256 % 256 < 256 := Nat.mod_lt _ (by decide)
  exact xor_lt_256 (xor_lt_256 (xor_lt_256 h1 h2) h3) h4

theorem checksumHeader_lt (flags length : Nat) : checksumHeader flags length < 256 := by
  unfold checksumHeader
  exact Nat.mod_lt _ (by decide)

theorem Stream_write_buffer_eq (stream : List Nat) (buffer : Nat → Nat) (size : Nat) :
    Stream_write_buffer stream buffer size = stream ++ cells buffer size := by
  induction size with
  | zero => simp [Stream_write_buffer, cells]
  | succ n ih =>
    rw [cells_succ_last, ← List.append_assoc, ← ih]
    simp [Stream_write_buffer, List.range_succ, List.foldl_append, Stream_write]

theorem stuff_nil : stuff [] = [] := rfl

theorem stuff_append (xs ys : List Nat) : stuff (xs ++ ys) = stuff xs ++ stuff ys := by
  simp [stuff]

theorem stuff_cons (x : Nat) (xs : List Nat) : stuff (x :: xs) = stuffByte x ++ stuff xs := by
  simp [stuff]

theorem stuff_singleton (x : Nat) : stuff [x] = stuffByte x := by
  simp [stuff]

theorem writeStream_true (buffer : Nat → Nat) (length : Nat) (stream : List Nat) :
    writeStream true buffer length stream = stream ++ cells buffer length := by
  simp [writeStream, Stream_write_buffer_eq]

theorem writeStream_false (buffer : Nat → Nat) (length : Nat) (stream : List Nat) :
    writeStream false buffer length stream = stream ++ stuff (cells buffer length) := by
  induction length with
  | zero => simp [writeStream, cells, stuff]
  | succ n ih =>
    rw [cells_succ_last, stuff_append, ← List.append_assoc, ← ih, stuff_singleton]
    simp only [writeStream, Bool.false_eq_true, if_false, List.range_succ, List.foldl_append,
      List.foldl_cons, List.foldl_nil, Stream_write, stuffByte, FLAG, ESCAPE]
    split_ifs <;> simp

theorem cells_bytes_uint32_t (v : Nat) : cells (bytes_uint32_t v) 4 = LE32 v := by
  simp [cells, bytes_uint32_t, ptr, LE32, List.range_succ]

theorem cells_header (flags length : Nat) :
    cells (_write_uint8_t (_write_uint16_t (_write_uint16_t (fun _ => 0) 0 flags) 2 length) 4
      (checksumHeader flags length)) 5 = headerBytes flags length := by
  have hc : checksumHeader flags length % 256 = checksumHeader flags length :=
    Nat.mod_eq_of_lt (checksumHeader_lt _ _)
  have e : ((checksumHeader flags length &&& 0xFF) >>> 0) % UINT8_MOD
      = checksumHeader flags length := by rw [lo_byte, hc]
  simp only [_write_uint8_t, _write_uint16_t, e, lo_byte, hi_byte]
  simp [cells, List.range_succ, headerBytes, Function.update, checksumHeader_eq]

theorem checksumFrame_eq (header payload : Nat → Nat) (length : Nat) :
    checksumFrame header payload length
      = crc32 (crc32 0 (cells header 5)) (cells payload length) := by
  simp [checksumFrame, CRC32_buffer, CRC32_eq_crc32]

theorem writeFrame_eq_wire (self : TinyLink) (frame : frame_t) (stream : List Nat)
    (h : frame.length ≤ self.length) :
    writeFrame self frame stream
      = (true, stream ++ wire frame.flags (cells frame.payload frame.length)) := by
  have hn : ¬ frame.length > self.length := by omega
  simp only [writeFrame, hn, if_false, writeStream_true, writeStream_false, checksumFrame_eq,
    cells_header, cells_bytes_uint32_t, wire, cells_length, stuff_append, List.append_assoc,
    PREAMBLE]
  simp [LE32, stuff_append]

theorem writeFrame_reject (self : TinyLink) (frame : frame_t) (stream : List Nat)
    (h : frame.length > self.length) :
    writeFrame self frame stream = (false, stream) := by
  simp [writeFrame, h]

theorem byte_conv (b : Nat) : ((b : Int) % 256).toNat = b % 256 := by
  omega

theorem _read_uint8_t_eq (p : Nat → Nat) (h0 : p 0 < 256) : _read_uint8_t p = p 0 := by
  simp only [_read_uint8_t, UINT8_MOD, Nat.shiftLeft_zero, Nat.zero_or]
  omega

theorem or_shiftLeft_eq (x y i : Nat) (hx : x < 2 ^ i) : x ||| (y <<< i) = 2 ^ i * y + x := by
  rw [Nat.shiftLeft_eq, Nat.or_comm, Nat.mul_comm]
  exact (Nat.mul_add_lt_is_or hx y).symm

theorem _read_uint16_t_eq (p : Nat → Nat) (h0 : p 0 < 256) (h1 : p 1 < 256) :
    _read_uint16_t p = p 0 + 256 * p 1 := by
  have e0 : p 0 % 65536 = p 0 := Nat.mod_eq_of_lt (by omega)
  have e1 : p 1 % 65536 = p 1 := Nat.mod_eq_of_lt (by omega)
  have a : p 0 ||| (p 1 <<< 8) = 2 ^ 8 * p 1 + p 0 := or_shiftLeft_eq _ _ _ (by omega)
  simp only [_read_uint16_t, UINT16_MOD, Nat.shiftLeft_zero, Nat.zero_or, e0, e1, a]
  omega

theorem _read_uint32_t_eq (p : Nat → Nat) (h0 : p 0 < 256) (h1 : p 1 < 256) (h2 : p 2 < 256)
    (h3 : p 3 < 256) :
    _read_uint32_t p = p 0 + 256 * p 1 + 65536 * p 2 + 16777216 * p 3 := by
  have e0 : p 0 % 4294967296 = p 0 := Nat.mod_eq_of_lt (by omega)
  have e1 : p 1 % 4294967296 = p 1 := Nat.mod_eq_of_lt (by omega)
  have e2 : p 2 % 4294967296 = p 2 := Nat.mod_eq_of_lt (by omega)
  have e3 : p 3 % 4294967296 = p 3 := Nat.mod_eq_of_lt (by omega)
  have a : p 0 ||| (p 1 <<< 8) = 2 ^ 8 * p 1 + p 0 := or_shiftLeft_eq _ _ _ (by omega)
  have b : (2 ^ 8 * p 1 + p 0) ||| (p 2 <<< 16) = 2 ^ 16 * p 2 + (2 ^ 8 * p 1 + p 0) :=
    or_shiftLeft_eq _ _ _ (by omega)
  have c : (2 ^ 16 * p 2 + (2 ^ 8 * p 1 + p 0)) ||| (p 3 <<< 24)
      = 2 ^ 24 * p 3 + (2 ^ 16 * p 2 + (2 ^ 8 * p 1 + p 0)) :=
    or_shiftLeft_eq _ _ _ (by omega)
  have m1 : (2 ^ 8 * p 1 + p 0) % 4294967296 = 2 ^ 8 * p 1 + p 0 := Nat.mod_eq_of_lt (by omega)
  have m2 : (2 ^ 16 * p 2 + (2 ^ 8 * p 1 + p 0)) % 4294967296
      = 2 ^ 16 * p 2 + (2 ^ 8 * p 1 + p 0) := Nat.mod_eq_of_lt (by omega)
  simp only [_read_uint32_t, UINT32_MOD, Nat.shiftLeft_zero, Nat.zero_or, e0, e1, e2, e3, a, m1,
    b, m2, c]
  omega

/-! ## Driving the decoder: composition -/

theorem feedState_append (self : TinyLink) (frame : frame_t) (xs ys : List Nat) :
    feedState self frame (xs ++ ys)
      = feedState (feedState self frame xs).1 (feedState self frame xs).2 ys := by
  induction xs generalizing self frame with
  | nil => rfl
  | cons x xs ih =>
    rw [List.cons_append]
    simp only [feedState]
    exact ih _ _

theorem feedOut_append (self : TinyLink) (frame : frame_t) (xs ys : List Nat) :
    feedOut self frame (xs ++ ys)
      = feedOut self frame xs
          ++ feedOut (feedState self frame xs).1 (feedState self frame xs).2 ys := by
  induction xs generalizing self frame with
  | nil => rfl
  | cons x xs ih =>
    rw [List.cons_append]
    simp only [feedOut, feedState]
    rw [ih]
    rfl

theorem feedOut_length (self : TinyLink) (frame : frame_t) (xs : List Nat) :
    (feedOut self frame xs).length = xs.length := by
  induction xs generalizing self frame with
  | nil => rfl
  | cons x xs ih => simp only [feedOut, List.length_cons, ih]

/-! ## Stored bytes -/

theorem blit_nil (buf : Nat → Nat) (off : Nat) : blit buf off [] = buf := by
  funext i
  simp [blit]

theorem blit_cons (buf : Nat → Nat) (off : Nat) (b : Nat) (bs : List Nat) :
    blit (Function.update buf off b) (off + 1) bs = blit buf off (b :: bs) := by
  funext i
  simp only [blit, Function.update, List.length_cons, eq_rec_constant, dite_eq_ite]
  by_cases h1 : off + 1 ≤ i ∧ i < off + 1 + bs.length
  · have h2 : off ≤ i ∧ i < off + (bs.length + 1) := by omega
    have h3 : i - off = (i - (off + 1)) + 1 := by omega
    simp [h1, h2, h3]
  · by_cases h4 : i = off
    · subst h4
      simp
    · have h2 : ¬ (off ≤ i ∧ i < off + (bs.length + 1)) := by omega
      simp [h1, h2, h4]

theorem blit_append (buf : Nat → Nat) (off : Nat) (xs ys : List Nat) :
    blit (blit buf off xs) (off + xs.length) ys = blit buf off (xs ++ ys) := by
  induction xs generalizing buf off with
  | nil => simp [blit_nil]
  | cons x xs ih =>
    rw [← blit_cons, List.cons_append, ← blit_cons, ← ih]
    simp [Nat.add_assoc, Nat.add_comm 1]

theorem blit_snoc (buf : Nat → Nat) (off : Nat) (xs : List Nat) (b : Nat) :
    Function.update (blit buf off xs) (off + xs.length) b = blit buf off (xs ++ [b]) := by
  rw [← blit_append, ← blit_cons, blit_nil]

theorem blit_inside (buf : Nat → Nat) (off : Nat) (bs : List Nat) (i : Nat)
    (h : i < bs.length) : blit buf off bs (off + i) = bs.getD i 0 := by
  simp [blit, h]

theorem blit_outside (buf : Nat → Nat) (off : Nat) (bs : List Nat) (i : Nat)
    (h : i < off ∨ off + bs.length ≤ i) : blit buf off bs i = buf i := by
  have h2 : ¬ (off ≤ i ∧ i < off + bs.length) := by omega
  simp [blit, h2]

theorem cells_blit (buf : Nat → Nat) (off : Nat) (xs ys zs : List Nat) :
    cells (shift (blit buf off (xs ++ ys ++ zs)) (off + xs.length)) ys.length = ys := by
  apply List.ext_getElem
  · simp [cells]
  · intro i h1 h2
    simp only [cells, List.length_map, List.length_range] at h1
    simp only [cells, List.getElem_map, List.getElem_range, shift]
    rw [Nat.add_assoc, blit_inside _ _ _ _ (by simp; omega)]
    simp [List.getD_eq_getElem?_getD, List.getElem?_append_left, h1,
      List.getElem?_append_right]

/-! ## One wire byte in the header and body states -/

theorem readFrame_plain (self : TinyLink) (frame : frame_t) (b : Nat)
    (hs : self.state = WAITING_FOR_HEADER ∨ self.state = WAITING_FOR_BODY)
    (hu : self.unescaping = false) (hb : b < 256) (hne : b ≠ 0x1B) :
    readFrame self (b : Int) frame = readFrame_switch (readFrame_store self b) frame := by
  simp [readFrame, byte_conv, Nat.mod_eq_of_lt hb, readFrame_unescape, hs, hu, ESCAPE, hne,
    readFrame_store]

theorem readFrame_escape (self : TinyLink) (frame : frame_t)
    (hs : self.state = WAITING_FOR_HEADER ∨ self.state = WAITING_FOR_BODY)
    (hu : self.unescaping = false) :
    readFrame self ((0x1B : Nat) : Int) frame
      = { self := readFrame_store { self with unescaping := true } 0x1B
          frame := frame, ret := false } := by
  simp [readFrame, byte_conv, readFrame_unescape, hs, hu, ESCAPE, readFrame_store]

theorem readFrame_escaped (self : TinyLink) (frame : frame_t) (b : Nat)
    (hs : self.state = WAITING_FOR_HEADER ∨ self.state = WAITING_FOR_BODY)
    (hu : self.unescaping = true) (hb : b < 256) :
    readFrame self (b : Int) frame
      = readFrame_switch
          (readFrame_store
            { self with index := (self.index + SIZE_T_MOD - 1) % SIZE_T_MOD
                        unescaping := false } b) frame := by
  simp [readFrame, byte_conv, Nat.mod_eq_of_lt hb, readFrame_unescape, hs, hu, readFrame_store]

theorem escaped_store (self : TinyLink) (b : Nat) (hu : self.unescaping = false)
    (hi : self.index + 1 < SIZE_T_MOD) :
    readFrame_store
        { readFrame_store { self with unescaping := true } 0x1B with
          index := ((readFrame_store { self with unescaping := true } 0x1B).index
                      + SIZE_T_MOD - 1) % SIZE_T_MOD
          unescaping := false } b
      = readFrame_store self b := by
  have e1 : (self.index + 1) % SIZE_T_MOD = self.index + 1 := Nat.mod_eq_of_lt hi
  have e2 : (self.index + 1 + SIZE_T_MOD - 1) % SIZE_T_MOD = self.index := by
    unfold SIZE_T_MOD at *
    omega
  cases self
  simp only [readFrame_store, e1, e2] at *
  simp [hu]

/-- The outcome of a call, as the polling loop records it. -/
theorem feedOut_singleton (self : TinyLink) (frame : frame_t) (b : Nat) :
    feedOut self frame [b]
      = [if (readFrame self (b : Int) frame).ret then
            some (readFrame self (b : Int) frame).frame.value else none] := rfl

theorem stuffByte_lt (b : Nat) (hb : b < 256) : ∀ x ∈ stuffByte b, x < 256 := by
  intro x hx
  unfold stuffByte at hx
  split_ifs at hx <;> simp at hx <;> omega

theorem feedState_stuffByte (self : TinyLink) (frame : frame_t) (b : Nat)
    (hs : self.state = WAITING_FOR_HEADER ∨ self.state = WAITING_FOR_BODY)
    (hu : self.unescaping = false) (hb : b < 256) (hi : self.index + 1 < SIZE_T_MOD) :
    feedState self frame (stuffByte b)
      = ((readFrame_switch (readFrame_store self b) frame).self,
         (readFrame_switch (readFrame_store self b) frame).frame) := by
  have hs2 : ∀ c, (readFrame_store { self with unescaping := true } c).state
      = WAITING_FOR_HEADER ∨ (readFrame_store { self with unescaping := true } c).state
      = WAITING_FOR_BODY := fun c => hs
  unfold stuffByte
  split_ifs with h1 h2
  · subst h1
    simp only [feedState]
    rw [readFrame_escape self frame hs hu]
    simp only
    rw [readFrame_escaped _ frame 0xAA (hs2 _) rfl (by omega), escaped_store self _ hu hi]
  · subst h2
    simp only [feedState]
    rw [readFrame_escape self frame hs hu]
    simp only
    rw [readFrame_escaped _ frame 0x1B (hs2 _) rfl (by omega), escaped_store self _ hu hi]
  · simp only [feedState]
    rw [readFrame_plain self frame b hs hu hb h2]

theorem feedOut_stuffByte (self : TinyLink) (frame : frame_t) (b : Nat)
    (hs : self.state = WAITING_FOR_HEADER ∨ self.state = WAITING_FOR_BODY)
    (hu : self.unescaping = false) (hb : b < 256) (hi : self.index + 1 < SIZE_T_MOD) :
    feedOut self frame (stuffByte b)
      = List.replicate ((stuffByte b).length - 1) none
          ++ [if (readFrame_switch (readFrame_store self b) frame).ret then
                some (readFrame_switch (readFrame_store self b) frame).frame.value
              else none] := by
  have hs2 : ∀ c, (readFrame_store { self with unescaping := true } c).state
      = WAITING_FOR_HEADER ∨ (readFrame_store { self with unescaping := true } c).state
      = WAITING_FOR_BODY := fun c => hs
  by_cases h1 : b = 0xAA
  · subst h1
    have e : stuffByte 0xAA = [0x1B, 0xAA] := by decide
    rw [e]
    simp only [feedOut]
    rw [readFrame_escape self frame hs hu]
    simp only
    rw [readFrame_escaped _ frame 0xAA (hs2 _) rfl (by omega), escaped_store self _ hu hi]
    simp
  · by_cases h2 : b = 0x1B
    · subst h2
      have e : stuffByte 0x1B = [0x1B, 0x1B] := by decide
      rw [e]
      simp only [feedOut]
      rw [readFrame_escape self frame hs hu]
      simp only
      rw [readFrame_escaped _ frame 0x1B (hs2 _) rfl (by omega), escaped_store self _ hu hi]
      simp
    · have e : stuffByte b = [b] := by simp [stuffByte, h1, h2]
      rw [e]
      simp only [feedOut]
      rw [readFrame_plain self frame b hs hu hb h2]
      simp

/-! ## Unstuffed bytes that complete nothing -/

theorem headerLength_lt (buf : Nat → Nat) : headerLength buf < 65536 := by
  unfold headerLength _read_uint16_t UINT16_MOD
  exact Nat.mod_lt _ (by decide)

theorem headerLength_update (buf : Nat → Nat) (i b : Nat) (h : 4 ≤ i) :
    headerLength (Function.update buf i b) = headerLength buf := by
  have h2 : (2 : Nat) ≠ i := by omega
  have h3 : (3 : Nat) ≠ i := by omega
  simp [headerLength, _read_uint16_t, shift, Function.update, h2, h3]

theorem Quiet.no_wrap {self : TinyLink} {n : Nat} (h : Quiet self n) :
    self.index + n + 1 < SIZE_T_MOD := by
  have := headerLength_lt self.buffer
  unfold Quiet at h
  unfold SIZE_T_MOD
  omega

theorem Quiet.state {self : TinyLink} {n : Nat} (h : Quiet self n) :
    self.state = WAITING_FOR_HEADER ∨ self.state = WAITING_FOR_BODY := by
  unfold Quiet at h
  tauto

theorem store_quiet (self : TinyLink) (frame : frame_t) (b n : Nat) (h : Quiet self (n + 1)) :
    readFrame_switch (readFrame_store self b) frame
        = { self := readFrame_store self b, frame := frame, ret := false }
      ∧ Quiet (readFrame_store self b) n
      ∧ readFrame_store self b
          = { self with buffer := Function.update self.buffer self.index b
                        index := self.index + 1 } := by
  have hw := h.no_wrap
  have e1 : (self.index + 1) % SIZE_T_MOD = self.index + 1 := Nat.mod_eq_of_lt (by omega)
  obtain ⟨hu, h | h⟩ := h
  · obtain ⟨hs, hi⟩ := h
    refine ⟨?_, ?_, ?_⟩
    · have hne : ¬ self.index + 1 = 5 := by omega
      simp [readFrame_switch, readFrame_store, hs, e1, LEN_HEADER, LEN_FLAGS, LEN_LENGTH,
        LEN_XOR, hne]
    · refine ⟨hu, Or.inl ⟨hs, ?_⟩⟩
      simp only [readFrame_store, e1]
      omega
    · simp [readFrame_store, e1]
  · obtain ⟨hs, h4, hi⟩ := h
    have hl := headerLength_update self.buffer self.index b h4
    refine ⟨?_, ?_, ?_⟩
    · have hne : ¬ self.index + 1 = 5 + headerLength self.buffer + 4 := by omega
      unfold headerLength at hl hne
      simp [readFrame_switch, readFrame_store, hs, e1, LEN_HEADER, LEN_FLAGS, LEN_LENGTH,
        LEN_XOR, LEN_CRC, hne, hl]
    · refine ⟨hu, Or.inr ⟨hs, ?_, ?_⟩⟩
      · simp only [readFrame_store, e1]
        omega
      · simp only [readFrame_store, e1, hl]
        omega
    · simp [readFrame_store, e1]

theorem feed_quiet (bs : List Nat) :
    ∀ (self : TinyLink) (frame : frame_t), Quiet self bs.length → (∀ b ∈ bs, b < 256) →
      feedState self frame (stuff bs)
          = ({ self with buffer := blit self.buffer self.index bs
                         index := self.index + bs.length }, frame)
        ∧ feedOut self frame (stuff bs) = List.replicate (stuff bs).length none := by
  induction bs with
  | nil =>
    intro self frame _ _
    simp [stuff, feedState, feedOut, blit_nil]
  | cons b bs ih =>
    intro self frame hq hb
    have hb0 : b < 256 := hb b (List.mem_cons_self _ _)
    have hbs : ∀ x ∈ bs, x < 256 := fun x hx => hb x (List.mem_cons_of_mem _ hx)
    have hw := hq.no_wrap
    have hi : self.index + 1 < SIZE_T_MOD := by
      simp only [List.length_cons] at hw
      omega
    obtain ⟨e1, q1, e2⟩ := store_quiet self frame b bs.length hq
    obtain ⟨i1, i2⟩ := ih (readFrame_store self b) frame q1 hbs
    have len1 : 1 ≤ (stuffByte b).length := by
      unfold stuffByte
      split_ifs <;> simp
    rw [stuff_cons, feedState_append, feedOut_append,
      feedState_stuffByte self frame b hq.state hq.1 hb0 hi,
      feedOut_stuffByte self frame b hq.state hq.1 hb0 hi, e1]
    simp only [Bool.false_eq_true, if_false]
    rw [i1, i2]
    constructor
    · rw [e2]
      simp only [blit_cons, List.length_cons]
      congr 2
      omega
    · rw [show [(none : Option (Nat × Nat × List Nat))] = List.replicate 1 none from rfl,
        ← List.replicate_add, ← List.replicate_add, List.length_append]
      congr 1
      omega

/-! ## The byte that completes a header or a body -/

theorem stuffByte_length_pos (b : Nat) : 1 ≤ (stuffByte b).length := by
  unfold stuffByte
  split_ifs <;> simp

theorem feed_last (bs : List Nat) (b : Nat) (self : TinyLink) (frame : frame_t)
    (hq : Quiet self bs.length) (hbs : ∀ x ∈ bs, x < 256) (hb : b < 256) :
    feedState self frame (stuff (bs ++ [b]))
        = ((readFrame_switch
              { self with buffer := blit self.buffer self.index (bs ++ [b])
                          index := self.index + bs.length + 1 } frame).self,
           (readFrame_switch
              { self with buffer := blit self.buffer self.index (bs ++ [b])
                          index := self.index + bs.length + 1 } frame).frame)
      ∧ feedOut self frame (stuff (bs ++ [b]))
        = List.replicate ((stuff (bs ++ [b])).length - 1) none
            ++ [if (readFrame_switch
                    { self with buffer := blit self.buffer self.index (bs ++ [b])
                                index := self.index + bs.length + 1 } frame).ret then
                  some (readFrame_switch
                    { self with buffer := blit self.buffer self.index (bs ++ [b])
                                index := self.index + bs.length + 1 } frame).frame.value
                else none] := by
  obtain ⟨e1, e2⟩ := feed_quiet bs self frame hq hbs
  have hw := hq.no_wrap
  have hs := hq.state
  have hu := hq.1
  have e3 : (self.index + bs.length + 1) % SIZE_T_MOD = self.index + bs.length + 1 :=
    Nat.mod_eq_of_lt hw
  have st : readFrame_store
      { self with buffer := blit self.buffer self.index bs
                  index := self.index + bs.length } b
      = { self with buffer := blit self.buffer self.index (bs ++ [b])
                    index := self.index + bs.length + 1 } := by
    simp only [readFrame_store, e3, blit_snoc]
  rw [stuff_append, stuff_singleton, feedState_append, feedOut_append, e1, e2]
  simp only
  rw [feedState_stuffByte
      { self with buffer := blit self.buffer self.index bs
                  index := self.index + bs.length } frame b hs hu hb (by simp only; omega),
    feedOut_stuffByte
      { self with buffer := blit self.buffer self.index bs
                  index := self.index + bs.length } frame b hs hu hb (by simp only; omega), st]
  refine ⟨rfl, ?_⟩
  rw [← List.append_assoc, ← List.replicate_add, List.length_append]
  congr 2
  have := stuffByte_length_pos b
  omega

theorem cells_five (p : Nat → Nat) : cells p 5 = [p 0, p 1, p 2, p 3, p 4] := by
  simp [cells, List.range_succ]

theorem cells_four (p : Nat → Nat) : cells p 4 = [p 0, p 1, p 2, p 3] := by
  simp [cells, List.range_succ]

/-- The header decision on the five stored bytes. -/
theorem header_switch (self : TinyLink) (frame : frame_t)
    (hs : self.state = WAITING_FOR_HEADER) (hi : self.index = 5)
    (hb : ∀ i, i < 5 → self.buffer i < 256) :
    readFrame_switch self frame =
      if self.buffer 4 = checksumHeader (self.buffer 0 + 256 * self.buffer 1)
            (self.buffer 2 + 256 * self.buffer 3)
          ∧ self.buffer 2 + 256 * self.buffer 3 + 10 ≤ self.length then
        { self := { self with state := WAITING_FOR_BODY }, frame := frame, ret := false }
      else
        { self := { self with state := WAITING_FOR_PREAMBLE, index := 0 }
          frame := frame, ret := false } := by
  have r1 : _read_uint16_t (shift self.buffer 0) = self.buffer 0 + 256 * self.buffer 1 :=
    _read_uint16_t_eq _ (hb 0 (by omega)) (hb 1 (by omega))
  have r2 : _read_uint16_t (shift self.buffer 2) = self.buffer 2 + 256 * self.buffer 3 :=
    _read_uint16_t_eq _ (hb 2 (by omega)) (hb 3 (by omega))
  have r3 : _read_uint8_t (shift self.buffer 4) = self.buffer 4 :=
    _read_uint8_t_eq _ (hb 4 (by omega))
  have c : ((self.buffer 2 + 256 * self.buffer 3 : Nat) : Int)
      ≤ (self.length : Int) - ((5 : Nat) : Int) - ((4 : Nat) : Int) - 1
      ↔ self.buffer 2 + 256 * self.buffer 3 + 10 ≤ self.length := by omega
  simp only [readFrame_switch, hs, hi, LEN_HEADER, LEN_FLAGS, LEN_LENGTH, LEN_XOR, LEN_BODY,
    LEN_CRC, r1, r2, r3, if_true, c]

theorem header_fields (flags length : Nat) (hf : flags < 65536) (hl : length < 65536) :
    flags % 256 + 256 * (flags / 256 % 256) = flags
      ∧ length % 256 + 256 * (length / 256 % 256) = length := by
  omega

/-! ## Range of the checksum -/

theorem CRC32Value_loop_lt (n : Nat) : ∀ crc, crc < 2 ^ 32 → CRC32Value_loop n crc < 2 ^ 32 := by
  induction n with
  | zero => intro crc h; exact h
  | succ n ih =>
    intro crc h
    have h1 : crc >>> 1 < 2 ^ 32 := by
      rw [Nat.shiftRight_eq_div_pow]
      exact lt_of_le_of_lt (Nat.div_le_self _ _) h
    unfold CRC32Value_loop
    split_ifs
    · exact ih _ (Nat.xor_lt_two_pow h1 (by decide))
    · exact ih _ h1

theorem CRC32Value_lt (CRC c : Nat) : CRC32Value CRC c < 2 ^ 32 := by
  unfold CRC32Value
  have h1 : (CRC >>> 8) &&& 0x00FFFFFF < 2 ^ 32 :=
    lt_of_le_of_lt Nat.and_le_right (by decide)
  have h2 : (CRC ^^^ c) &&& 0xFF < 2 ^ 32 :=
    lt_of_le_of_lt Nat.and_le_right (by decide)
  exact Nat.xor_lt_two_pow h1 (CRC32Value_loop_lt 8 _ h2)

theorem crc32_lt (seed : Nat) (data : List Nat) (h : seed < 2 ^ 32) :
    crc32 seed data < 2 ^ 32 := by
  induction data generalizing seed with
  | nil => exact h
  | cons b bs ih => exact ih _ (CRC32Value_lt seed b)

theorem read_LE32 (p : Nat → Nat) (v : Nat) (hv : v < 2 ^ 32) (h : cells p 4 = LE32 v) :
    _read_uint32_t p = v := by
  rw [cells_four] at h
  simp only [LE32, List.cons.injEq, and_true] at h
  obtain ⟨h0, h1, h2, h3⟩ := h
  rw [_read_uint32_t_eq p (by omega) (by omega) (by omega) (by omega)]
  omega

/-- The body decision once the cursor has reached the end of the CRC. -/
theorem body_switch (self : TinyLink) (frame : frame_t) (L : Nat)
    (hs : self.state = WAITING_FOR_BODY) (hL : headerLength self.buffer = L)
    (hi : self.index = 9 + L) :
    readFrame_switch self frame =
      if _read_uint32_t (shift self.buffer (5 + L))
          = checksumFrame (shift self.buffer 0) (shift self.buffer 5) L then
        { self := { self with state := WAITING_FOR_PREAMBLE, index := 0 }
          frame := { length := L, flags := _read_uint16_t (shift self.buffer 0)
                     payload := shift self.buffer 5 }
          ret := true }
      else
        { self := { self with state := WAITING_FOR_PREAMBLE, index := 0 }
          frame := frame, ret := false } := by
  unfold headerLength at hL
  have e1 : 9 + L = 5 + L + 4 := by omega
  have e2 : 9 + L - 4 = 5 + L := by omega
  simp only [readFrame_switch, hs, hi, hL, LEN_HEADER, LEN_FLAGS, LEN_LENGTH, LEN_XOR, LEN_CRC,
    e1, if_true]
  simp

/-! ## Decoding the stuffed part of a frame -/

theorem headerBytes_lt (flags length : Nat) : ∀ b ∈ headerBytes flags length, b < 256 := by
  intro b hb
  have h1 : flags % 256 < 256 := Nat.mod_lt _ (by decide)
  have h2 : flags / 256 % 256 < 256 := Nat.mod_lt _ (by decide)
  have h3 : length % 256 < 256 := Nat.mod_lt _ (by decide)
  have h4 : length / 256 % 256 < 256 := Nat.mod_lt _ (by decide)
  have h5 := xor_lt_256 (xor_lt_256 (xor_lt_256 h1 h2) h3) h4
  simp only [headerBytes, List.mem_cons, List.mem_singleton, List.not_mem_nil, or_false] at hb
  rcases hb with h | h | h | h | h <;> omega

theorem LE32_lt (v : Nat) : ∀ b ∈ LE32 v, b < 256 := by
  intro b hb
  simp only [LE32, List.mem_cons, List.mem_singleton, List.not_mem_nil, or_false] at hb
  rcases hb with h | h | h | h <;> omega

theorem replicate_glue {α : Type} (a b : Nat) (x : α) (l : List α) :
    (List.replicate a x ++ [x]) ++ (List.replicate b x ++ l)
      = List.replicate (a + 1 + b) x ++ l := by
  rw [show [x] = List.replicate 1 x from rfl, ← List.replicate_add, ← List.append_assoc,
    ← List.replicate_add]

/-- The frame body of the wire image: header, payload and CRC, before stuffing. -/
theorem decode_stuffed (C : Nat) (buf : Nat → Nat) (frame : frame_t) (flags : Nat)
    (P : List Nat) (hf : flags < 65536) (hP : ∀ b ∈ P, b < 256) (hl : P.length < 65536)
    (hC : P.length + 10 ≤ C) :
    ∃ buf2 : Nat → Nat, ∃ frame2 : frame_t,
      feedState
          { length := C, buffer := buf, index := 0, unescaping := false
            state := WAITING_FOR_HEADER } frame
          (stuff (headerBytes flags P.length ++ P
            ++ LE32 (crc32 (crc32 0 (headerBytes flags P.length)) P)))
        = ({ length := C, buffer := buf2, index := 0, unescaping := false
             state := WAITING_FOR_PREAMBLE }, frame2)
      ∧ feedOut
          { length := C, buffer := buf, index := 0, unescaping := false
            state := WAITING_FOR_HEADER } frame
          (stuff (headerBytes flags P.length ++ P
            ++ LE32 (crc32 (crc32 0 (headerBytes flags P.length)) P)))
        = List.replicate ((stuff (headerBytes flags P.length ++ P
            ++ LE32 (crc32 (crc32 0 (headerBytes flags P.length)) P))).length - 1) none
            ++ [some (flags, P.length, P)] := by
  -- names for the pieces
  obtain ⟨hflags, hlen⟩ := header_fields flags P.length hf hl
  set L := P.length with hLdef
  set crc := crc32 (crc32 0 (headerBytes flags L)) P with hcrc
  have hcrc_lt : crc < 2 ^ 32 := crc32_lt _ _ (crc32_lt _ _ (by decide))
  set f0 := flags % 256 with hf0
  set f1 := flags / 256 % 256 with hf1
  set l0 := L % 256 with hl0
  set l1 := L / 256 % 256 with hl1
  have hH : headerBytes flags L = [f0, f1, l0, l1] ++ [f0 ^^^ f1 ^^^ l0 ^^^ l1] := rfl
  have hK : LE32 crc = [crc % 256, crc / 256 % 256, crc / 65536 % 256]
      ++ [crc / 16777216 % 256] := rfl
  have hHlt := headerBytes_lt flags L
  have hKlt := LE32_lt crc
  -- first phase: the header
  have q1 : Quiet { length := C, buffer := buf, index := 0, unescaping := false
                    state := WAITING_FOR_HEADER } [f0, f1, l0, l1].length := by
    unfold Quiet
    simp
  obtain ⟨s1, o1⟩ := feed_last [f0, f1, l0, l1] (f0 ^^^ f1 ^^^ l0 ^^^ l1) _ frame q1
    (fun x hx => hHlt x (by rw [hH]; exact List.mem_append_left _ hx))
    (hHlt _ (by rw [hH]; simp))
  simp only [← hH] at s1 o1
  have hb5 : ∀ i, i < 5 → blit buf 0 (headerBytes flags L) i < 256 := by
    intro i hi
    have := blit_inside buf 0 (headerBytes flags L) i (by simpa [headerBytes] using hi)
    rw [Nat.zero_add] at this
    rw [this]
    have hi2 : i < (headerBytes flags L).length := by simpa [headerBytes] using hi
    rw [List.getD_eq_getElem _ _ hi2]
    exact hHlt _ (List.getElem_mem _)
  have b0 : blit buf 0 (headerBytes flags L) 0 = f0 := by simp [blit, headerBytes]
  have b1 : blit buf 0 (headerBytes flags L) 1 = f1 := by simp [blit, headerBytes]
  have b2 : blit buf 0 (headerBytes flags L) 2 = l0 := by simp [blit, headerBytes]
  have b3 : blit buf 0 (headerBytes flags L) 3 = l1 := by simp [blit, headerBytes]
  have b4 : blit buf 0 (headerBytes flags L) 4 = f0 ^^^ f1 ^^^ l0 ^^^ l1 := by
    simp [blit, headerBytes]
  have sw1 := header_switch
    { length := C, buffer := blit buf 0 (headerBytes flags L), index := 0 + 4 + 1
      unescaping := false, state := WAITING_FOR_HEADER } frame rfl rfl hb5
  simp only [b0, b1, b2, b3, b4, hflags, hlen, checksumHeader_eq] at sw1
  rw [if_pos ⟨trivial, hC⟩] at sw1
  simp only [List.length_cons, List.length_nil] at s1 o1
  rw [sw1] at s1 o1
  simp only [Bool.false_eq_true, if_false] at s1 o1
  -- second phase: payload and CRC
  have hlen2 : headerLength (blit buf 0 (headerBytes flags L)) = L := by
    unfold headerLength
    rw [_read_uint16_t_eq _ (by simpa [shift] using hb5 2 (by omega))
      (by simpa [shift] using hb5 3 (by omega))]
    simp only [shift, b2, b3]
    exact hlen
  have q2 : Quiet { length := C, buffer := blit buf 0 (headerBytes flags L), index := 0 + 4 + 1
                    unescaping := false, state := WAITING_FOR_BODY }
      (P ++ [crc % 256, crc / 256 % 256, crc / 65536 % 256]).length := by
    unfold Quiet
    simp only [hlen2, List.length_append, List.length_cons, List.length_nil]
    refine ⟨trivial, Or.inr ⟨trivial, ?_, ?_⟩⟩ <;> omega
  obtain ⟨s2, o2⟩ := feed_last (P ++ [crc % 256, crc / 256 % 256, crc / 65536 % 256])
    (crc / 16777216 % 256) _ frame q2
    (fun x hx => by
      rcases List.mem_append.mp hx with h | h
      · exact hP x h
      · exact hKlt x (by rw [hK]; exact List.mem_append_left _ h))
    (hKlt _ (by rw [hK]; simp))
  have e5 : (0 : Nat) + 4 + 1 = 0 + (headerBytes flags L).length := by simp [headerBytes]
  simp only [List.append_assoc, ← hK] at s2 o2
  rw [e5, blit_append] at s2 o2
  -- the stored bytes
  have f0lt : f0 < 256 := Nat.mod_lt _ (by decide)
  have f1lt : f1 < 256 := Nat.mod_lt _ (by decide)
  have l0lt : l0 < 256 := Nat.mod_lt _ (by decide)
  have l1lt : l1 < 256 := Nat.mod_lt _ (by decide)
  have cH : cells (shift (blit buf 0 (headerBytes flags L ++ (P ++ LE32 crc))) 0) 5
      = headerBytes flags L := by
    have := cells_blit buf 0 [] (headerBytes flags L) (P ++ LE32 crc)
    simpa [headerBytes] using this
  have cP : cells (shift (blit buf 0 (headerBytes flags L ++ (P ++ LE32 crc))) 5) L = P := by
    have := cells_blit buf 0 (headerBytes flags L) P (LE32 crc)
    simpa [headerBytes] using this
  have cK : cells (shift (blit buf 0 (headerBytes flags L ++ (P ++ LE32 crc))) (5 + L)) 4
      = LE32 crc := by
    have := cells_blit buf 0 (headerBytes flags L ++ P) (LE32 crc) []
    have e : 0 + (headerBytes flags L ++ P).length = 5 + L := by
      simp [headerBytes]
      omega
    have e4 : (LE32 crc).length = 4 := rfl
    rw [e, e4, List.append_nil, List.append_assoc] at this
    exact this
  set B := blit buf 0 (headerBytes flags L ++ (P ++ LE32 crc)) with hB
  have e := cells_five (shift B 0)
  rw [cH, show headerBytes flags L = [f0, f1, l0, l1, f0 ^^^ f1 ^^^ l0 ^^^ l1] from rfl] at e
  simp only [List.cons.injEq, and_true] at e
  obtain ⟨e0, e1, e2, e3, -⟩ := e
  have hlen3 : headerLength B = L := by
    unfold headerLength
    have a2 : shift B 2 0 = l0 := by rw [e2]; simp [shift]
    have a3 : shift B 2 1 = l1 := by rw [e3]; simp [shift]
    rw [_read_uint16_t_eq _ (by omega) (by omega), a2, a3]
    exact hlen
  have hflags3 : _read_uint16_t (shift B 0) = flags := by
    rw [_read_uint16_t_eq _ (by omega) (by omega), ← e0, ← e1]
    exact hflags
  have sw2 := body_switch
    { length := C, buffer := B
      index := 0 + (headerBytes flags L).length
        + (P ++ [crc % 256, crc / 256 % 256, crc / 65536 % 256]).length + 1
      unescaping := false, state := WAITING_FOR_BODY } frame L rfl hlen3
    (by simp [headerBytes]; omega)
  simp only [read_LE32 _ crc hcrc_lt cK, checksumFrame_eq, cH, cP, hflags3, ← hcrc,
    if_true] at sw2
  rw [sw2] at s2 o2
  simp only [if_true, frame_t.value, cP] at s2 o2
  -- assemble
  refine ⟨B, { length := L, flags := flags, payload := shift B 5 }, ?_, ?_⟩
  · rw [hH, List.append_assoc, stuff_append, feedState_append, ← hH, s1]
    simp only
    exact s2
  · rw [hH, List.append_assoc, stuff_append, feedOut_append, ← hH, s1, o1]
    simp only
    rw [e5, o2, replicate_glue, List.length_append]
    congr 2
    have h1 : 1 ≤ (stuff (headerBytes flags L)).length := by
      rw [hH, stuff_append, stuff_singleton, List.length_append]
      have := stuffByte_length_pos (f0 ^^^ f1 ^^^ l0 ^^^ l1)
      omega
    have h2 : 1 ≤ (stuff (P ++ LE32 crc)).length := by
      rw [hK, ← List.append_assoc, stuff_append, stuff_singleton, List.length_append]
      have := stuffByte_length_pos (crc / 16777216 % 256)
      omega
    omega

/-! ## Seeking the preamble -/

theorem readFrame_seeking (self : TinyLink) (frame : frame_t) (b : Nat)
    (hs : self.state = WAITING_FOR_PREAMBLE) (hu : self.unescaping = false) (hb : b < 256) :
    readFrame self (b : Int) frame = readFrame_switch (readFrame_store self b) frame := by
  simp [readFrame, byte_conv, Nat.mod_eq_of_lt hb, readFrame_unescape, hs, hu, readFrame_store]

theorem preamble_value (p0 p1 p2 p3 : Nat) (h0 : p0 < 256) (h1 : p1 < 256) (h2 : p2 < 256) :
    p0 + 256 * p1 + 65536 * p2 + 16777216 * p3 = 0xAA55AA55
      ↔ p0 = 0x55 ∧ p1 = 0xAA ∧ p2 = 0x55 ∧ p3 = 0xAA := by
  omega

theorem seeking_step (self : TinyLink) (frame : frame_t) (recent : List Nat) (b : Nat)
    (hS : Seeking self recent) (hr : ∀ x ∈ recent, x < 256) (hb : b < 256)
    (hC : self.length < 65536) (h5 : 5 ≤ self.length) :
    (readFrame self (b : Int) frame).ret = false
      ∧ (readFrame self (b : Int) frame).frame = frame
      ∧ (readFrame self (b : Int) frame).self.length = self.length
      ∧ (synced (b :: recent) →
          (readFrame self (b : Int) frame).self.state = WAITING_FOR_HEADER
            ∧ (readFrame self (b : Int) frame).self.index = 0
            ∧ (readFrame self (b : Int) frame).self.unescaping = false)
      ∧ (¬ synced (b :: recent) → Seeking (readFrame self (b : Int) frame).self (b :: recent)) := by
  obtain ⟨hs, hu, hlt, hle, hmin, hwin⟩ := hS
  have e1 : (self.index + 1) % SIZE_T_MOD = self.index + 1 :=
    Nat.mod_eq_of_lt (by unfold SIZE_T_MOD; omega)
  rw [readFrame_seeking self frame b hs hu hb]
  obtain ⟨C, buf, idx, un, st⟩ := self
  simp only at hs hu hlt hle hmin hwin e1 hC h5
  subst hs hu
  -- the window after the store
  have hwin2 : ∀ j, j < idx + 1 →
      Function.update buf idx b (idx - j) = (b :: recent).getD j 0 := by
    intro j hj
    rcases j with _ | j
    · simp
    · have hne : idx - (j + 1) ≠ idx := by omega
      have := hwin j (by omega)
      have e : idx - 1 - j = idx - (j + 1) := by omega
      rw [e] at this
      simp [Function.update, hne, this]
  by_cases h4 : idx + 1 < 4
  · -- fewer than four bytes so far
    have hn : ¬ (4 ≤ idx + 1) := by omega
    have hlen : recent.length < 3 := by omega
    have hns : ¬ synced (b :: recent) := by
      intro h
      have := congrArg List.length h
      simp at this
      omega
    have res : readFrame_switch (readFrame_store
          { length := C, buffer := buf, index := idx, unescaping := false
            state := WAITING_FOR_PREAMBLE } b) frame
        = { self := { length := C, buffer := Function.update buf idx b, index := idx + 1
                      unescaping := false, state := WAITING_FOR_PREAMBLE }
            frame := frame, ret := false } := by
      simp [readFrame_switch, readFrame_store, e1, LEN_PREAMBLE, hn]
    rw [res]
    refine ⟨rfl, rfl, rfl, fun h => absurd h hns, fun _ => ⟨rfl, rfl, ?_, ?_, ?_, ?_⟩⟩
    · simp only; omega
    · simp only [List.length_cons]; omega
    · simp only [List.length_cons]; omega
    · intro j hj
      simp only at hj ⊢
      have := hwin2 j hj
      rw [show idx + 1 - 1 - j = idx - j by omega]
      exact this
  · -- the last four bytes are compared with the preamble
    have hy : 4 ≤ idx + 1 := by omega
    have hlen : 3 ≤ recent.length := by omega
    obtain ⟨r0, r1, r2, rest, rfl⟩ : ∃ r0 r1 r2 rest, recent = r0 :: r1 :: r2 :: rest := by
      rcases recent with _ | ⟨r0, _ | ⟨r1, _ | ⟨r2, rest⟩⟩⟩
      · simp at hlen
      · simp at hlen
      · simp at hlen
      · exact ⟨r0, r1, r2, rest, rfl⟩
    have hr0 : r0 < 256 := hr r0 (by simp)
    have hr1 : r1 < 256 := hr r1 (by simp)
    have hr2 : r2 < 256 := hr r2 (by simp)
    have w0 := hwin2 0 (by omega)
    have w1 := hwin2 1 (by omega)
    have w2 := hwin2 2 (by omega)
    have w3 := hwin2 3 (by omega)
    simp only [List.getD_cons_zero, List.getD_cons_succ, Nat.sub_zero] at w0 w1 w2 w3
    have p3 : shift (Function.update buf idx b) (idx + 1 - 4) 3 = b := by
      rw [← w0]; simp only [shift]; congr 1; omega
    have p2 : shift (Function.update buf idx b) (idx + 1 - 4) 2 = r0 := by
      rw [← w1]; simp only [shift]; congr 1; omega
    have p1 : shift (Function.update buf idx b) (idx + 1 - 4) 1 = r1 := by
      rw [← w2]; simp only [shift]; congr 1; omega
    have p0 : shift (Function.update buf idx b) (idx + 1 - 4) 0 = r2 := by
      rw [← w3]; simp only [shift]; congr 1
    have rd : _read_uint32_t (shift (Function.update buf idx b) (idx + 1 - 4))
        = r2 + 256 * r1 + 65536 * r0 + 16777216 * b := by
      rw [_read_uint32_t_eq _ (by omega) (by omega) (by omega) (by omega), p0, p1, p2, p3]
    have hsync : synced (b :: r0 :: r1 :: r2 :: rest)
        ↔ r2 + 256 * r1 + 65536 * r0 + 16777216 * b = PREAMBLE := by
      unfold PREAMBLE
      rw [preamble_value r2 r1 r0 b hr2 hr1 hr0]
      simp [synced]
      tauto
    have res : readFrame_switch (readFrame_store
          { length := C, buffer := buf, index := idx, unescaping := false
            state := WAITING_FOR_PREAMBLE } b) frame
        = if synced (b :: r0 :: r1 :: r2 :: rest) then
            { self := { length := C, buffer := Function.update buf idx b, index := 0
                        unescaping := false, state := WAITING_FOR_HEADER }
              frame := frame, ret := false }
          else if idx + 1 = C then
            { self := { length := C
                        buffer := memcpy_front (Function.update buf idx b) (idx + 1 - 4) 4
                        index := 4, unescaping := false, state := WAITING_FOR_PREAMBLE }
              frame := frame, ret := false }
          else
            { self := { length := C, buffer := Function.update buf idx b, index := idx + 1
                        unescaping := false, state := WAITING_FOR_PREAMBLE }
              frame := frame, ret := false } := by
      simp only [readFrame_switch, readFrame_store, e1, ge_iff_le, LEN_PREAMBLE, hy, if_true, rd,
        ← hsync]
    rw [res]
    by_cases hsy : synced (b :: r0 :: r1 :: r2 :: rest)
    · rw [if_pos hsy]
      exact ⟨rfl, rfl, rfl, fun _ => ⟨rfl, rfl, rfl⟩, fun h => absurd hsy h⟩
    · rw [if_neg hsy]
      by_cases hfull : idx + 1 = C
      · rw [if_pos hfull]
        refine ⟨rfl, rfl, rfl, fun h => absurd h hsy, fun _ => ⟨rfl, rfl, ?_, ?_, ?_, ?_⟩⟩
        · simp only; omega
        · simp only [List.length_cons] at hle hmin ⊢; omega
        · simp only [List.length_cons] at hle hmin ⊢; omega
        · intro j hj
          simp only at hj ⊢
          have := hwin2 j (by omega)
          simp only [memcpy_front]
          rw [if_pos (by omega), ← this]
          congr 1
          omega
      · rw [if_neg hfull]
        refine ⟨rfl, rfl, rfl, fun h => absurd h hsy, fun _ => ⟨rfl, rfl, ?_, ?_, ?_, ?_⟩⟩
        · simp only; omega
        · simp only [List.length_cons] at hle hmin ⊢; omega
        · simp only [List.length_cons] at hle hmin ⊢; omega
        · intro j hj
          simp only at hj ⊢
          have := hwin2 j hj
          rw [show idx + 1 - 1 - j = idx - j by omega]
          exact this

/-! ## Seeking the preamble: many bytes -/

theorem seeking_feed (bs : List Nat) :
    ∀ (recent : List Nat) (self : TinyLink) (frame : frame_t), Seeking self recent →
      (∀ x ∈ recent, x < 256) → (∀ x ∈ bs, x < 256) → self.length < 65536 → 5 ≤ self.length →
      noSync recent bs →
      Seeking (feedState self frame bs).1 (bs.reverse ++ recent)
        ∧ (feedState self frame bs).2 = frame
        ∧ (feedState self frame bs).1.length = self.length
        ∧ feedOut self frame bs = List.replicate bs.length none := by
  induction bs with
  | nil =>
    intro recent self frame hS _ _ _ _ _
    exact ⟨hS, rfl, rfl, rfl⟩
  | cons b bs ih =>
    intro recent self frame hS hr hbs hC h5 hn
    obtain ⟨hn1, hn2⟩ := hn
    have hb : b < 256 := hbs b (List.mem_cons_self _ _)
    obtain ⟨s1, s2, s3, -, s5⟩ := seeking_step self frame recent b hS hr hb hC h5
    have hS2 := s5 hn1
    have hr2 : ∀ x ∈ b :: recent, x < 256 := by
      intro x hx
      rcases List.mem_cons.mp hx with h | h
      · omega
      · exact hr x h
    obtain ⟨i1, i2, i3, i4⟩ := ih (b :: recent) _ (readFrame self (b : Int) frame).frame hS2 hr2
      (fun x hx => hbs x (List.mem_cons_of_mem _ hx)) (by rw [s3]; exact hC)
      (by rw [s3]; exact h5) hn2
    refine ⟨?_, ?_, ?_, ?_⟩
    · simp only [feedState, List.reverse_cons, List.append_assoc, List.singleton_append]
      exact i1
    · simp only [feedState]
      rw [i2, s2]
    · simp only [feedState]
      rw [i3, s3]
    · simp only [feedOut, s1, Bool.false_eq_true, if_false, List.length_cons,
        List.replicate_succ]
      rw [i4]

theorem noSync_of_no_preamble (bs : List Nat) :
    ∀ recent : List Nat, ¬ preambleBytes <:+: recent.reverse ++ bs → noSync recent bs := by
  induction bs with
  | nil => intro _ _; trivial
  | cons b bs ih =>
    intro recent h
    refine ⟨?_, ?_⟩
    · intro hs
      apply h
      unfold synced at hs
      have e : b :: recent = [0xAA, 0x55, 0xAA, 0x55] ++ (b :: recent).drop 4 := by
        rw [← hs, List.take_append_drop]
      have e2 : recent.reverse ++ [b] = ((b :: recent).drop 4).reverse ++ preambleBytes := by
        have := congrArg List.reverse e
        simp only [List.reverse_cons, List.reverse_append] at this
        rw [this]
        rfl
      refine ⟨((b :: recent).drop 4).reverse, bs, ?_⟩
      rw [← e2]
      simp
    · apply ih
      simpa using h

theorem replicate_cons_glue {α : Type} (a b : Nat) (x : α) (l : List α) :
    List.replicate a x ++ (x :: (List.replicate b x ++ l))
      = List.replicate (a + 1 + b) x ++ l := by
  rw [← replicate_glue]
  simp

theorem seeking_fresh (self : TinyLink) (hs : self.state = WAITING_FOR_PREAMBLE)
    (hi : self.index = 0) (hu : self.unescaping = false) (hC : 0 < self.length) :
    Seeking self [] := by
  refine ⟨hs, hu, by omega, by omega, by simp [hi], ?_⟩
  intro j hj
  omega

/-! ## Synchronisation -/

/-- Noise that ends with the first preamble leaves the decoder at the start of a
header. -/
theorem sync_after_noise (self : TinyLink) (frame : frame_t) (J0 : List Nat)
    (hS : Seeking self []) (hC : self.length < 65536) (h5 : 5 ≤ self.length)
    (hJ : ∀ x ∈ J0, x < 256) (hno : ¬ preambleBytes <:+: J0 ++ [0x55, 0xAA, 0x55]) :
    ∃ buf1 : Nat → Nat,
      feedState self frame (J0 ++ preambleBytes)
        = ({ length := self.length, buffer := buf1, index := 0, unescaping := false
             state := WAITING_FOR_HEADER }, frame)
      ∧ feedOut self frame (J0 ++ preambleBytes)
        = List.replicate (J0 ++ preambleBytes).length none := by
  have hJ3 : ∀ x ∈ J0 ++ [0x55, 0xAA, 0x55], x < 256 := by
    intro x hx
    rcases List.mem_append.mp hx with h | h
    · exact hJ x h
    · simp at h
      omega
  obtain ⟨a1, a2, a3, a4⟩ := seeking_feed (J0 ++ [0x55, 0xAA, 0x55]) [] self frame hS
    (by simp) hJ3 hC h5 (noSync_of_no_preamble _ [] (by simpa using hno))
  have hsy : synced (0xAA :: ((J0 ++ [0x55, 0xAA, 0x55]).reverse ++ [])) := by
    simp [synced]
  obtain ⟨b1, b2, b3, b4, -⟩ := seeking_step _ (feedState self frame (J0 ++ [0x55, 0xAA, 0x55])).2
    _ 0xAA a1 (by
      intro x hx
      rw [List.append_nil] at hx
      exact hJ3 x (List.mem_reverse.mp hx)) (by omega) (by rw [a3]; exact hC)
    (by rw [a3]; exact h5)
  obtain ⟨c1, c2, c3⟩ := b4 hsy
  rw [a3] at b3
  have em : ∃ buf1, (readFrame (feedState self frame (J0 ++ [0x55, 0xAA, 0x55])).1
        ((0xAA : Nat) : Int) (feedState self frame (J0 ++ [0x55, 0xAA, 0x55])).2).self
      = { length := self.length, buffer := buf1, index := 0, unescaping := false
          state := WAITING_FOR_HEADER } := by
    revert b3 c1 c2 c3
    generalize (readFrame (feedState self frame (J0 ++ [0x55, 0xAA, 0x55])).1
        ((0xAA : Nat) : Int) (feedState self frame (J0 ++ [0x55, 0xAA, 0x55])).2).self = t
    intro b3 c1 c2 c3
    obtain ⟨C, buf, i, u, s⟩ := t
    simp only at b3 c1 c2 c3
    subst b3 c1 c2 c3
    exact ⟨buf, rfl⟩
  obtain ⟨buf1, e1⟩ := em
  have split : J0 ++ preambleBytes = (J0 ++ [0x55, 0xAA, 0x55]) ++ [0xAA] := by
    simp [preambleBytes]
  refine ⟨buf1, ?_, ?_⟩
  · rw [split, feedState_append]
    simp only [feedState]
    rw [e1, b2, a2]
  · rw [split, feedOut_append, a4]
    simp only [feedOut, b1, Bool.false_eq_true, if_false]
    rw [show ([none] : List (Option (Nat × Nat × List Nat))) = List.replicate 1 none from rfl,
      ← List.replicate_add, List.length_append]
    simp


/-- A frame behind line noise that ends with the first preamble. -/
theorem decode_after_noise (self : TinyLink) (frame : frame_t) (J0 : List Nat) (flags : Nat)
    (P : List Nat) (hS : Seeking self []) (hC : self.length < 65536)
    (hJ : ∀ x ∈ J0, x < 256) (hno : ¬ preambleBytes <:+: J0 ++ [0x55, 0xAA, 0x55])
    (hf : flags < 65536) (hP : ∀ b ∈ P, b < 256) (h10 : P.length + 10 ≤ self.length) :
    ∃ buf2 : Nat → Nat, ∃ frame2 : frame_t,
      feedState self frame (J0 ++ wire flags P)
        = ({ length := self.length, buffer := buf2, index := 0, unescaping := false
             state := WAITING_FOR_PREAMBLE }, frame2)
      ∧ feedOut self frame (J0 ++ wire flags P)
        = List.replicate ((J0 ++ wire flags P).length - 1) none
            ++ [some (flags, P.length, P)] := by
  obtain ⟨buf1, s1, o1⟩ := sync_after_noise self frame J0 hS hC (by omega) hJ hno
  obtain ⟨buf2, frame2, d1, d2⟩ := decode_stuffed self.length buf1 frame flags P hf hP
    (by omega) h10
  have split : J0 ++ wire flags P = (J0 ++ preambleBytes)
      ++ stuff (headerBytes flags P.length ++ P
        ++ LE32 (crc32 (crc32 0 (headerBytes flags P.length)) P)) := by
    simp [wire, preambleBytes]
  have h1 : 1 ≤ (stuff (headerBytes flags P.length ++ P
      ++ LE32 (crc32 (crc32 0 (headerBytes flags P.length)) P))).length := by
    have hK : LE32 (crc32 (crc32 0 (headerBytes flags P.length)) P)
        = [crc32 (crc32 0 (headerBytes flags P.length)) P % 256,
            crc32 (crc32 0 (headerBytes flags P.length)) P / 256 % 256,
            crc32 (crc32 0 (headerBytes flags P.length)) P / 65536 % 256]
          ++ [crc32 (crc32 0 (headerBytes flags P.length)) P / 16777216 % 256] := rfl
    rw [hK, ← List.append_assoc, stuff_append, stuff_singleton, List.length_append]
    have := stuffByte_length_pos (crc32 (crc32 0 (headerBytes flags P.length)) P / 16777216 % 256)
    omega
  refine ⟨buf2, frame2, ?_, ?_⟩
  · rw [split, feedState_append, s1]
    exact d1
  · rw [split, feedOut_append, o1, s1]
    simp only
    rw [d2, ← List.append_assoc, ← List.replicate_add]
    congr 2
    simp only [List.length_append]
    omega

/-! ## Encoder output and constructed codecs -/

theorem emitted_eq_wire (enc : TinyLink) (flags : Nat) (payload : List Nat)
    (h : payload.length ≤ enc.length) :
    (writeFrame enc { length := payload.length, flags := flags, payload := ptr payload } []).2
      = wire flags payload := by
  rw [writeFrame_eq_wire enc _ [] h]
  simp [cells_ptr]

theorem ctor_length_lt (_buffer : Nat → Nat) (_length : Nat) :
    (ctor _buffer _length).length < 65536 := by
  unfold ctor UINT16_MOD
  exact Nat.mod_lt _ (by decide)

theorem ctor_seeking (_buffer : Nat → Nat) (_length : Nat)
    (h : 0 < (ctor _buffer _length).length) : Seeking (ctor _buffer _length) [] :=
  seeking_fresh _ rfl rfl rfl h

theorem no_preamble_in_three : ¬ preambleBytes <:+: [] ++ [0x55, 0xAA, 0x55] := by
  decide

/-- Frames one after the other, from any decoder that is seeking with cursor 0. -/
theorem decode_frames (enc : TinyLink) (frames : List (Nat × List Nat)) :
    ∀ (self : TinyLink) (frame : frame_t), Seeking self [] → self.length < 65536 →
      (∀ f ∈ frames, f.1 < 65536 ∧ (∀ b ∈ f.2, b < 256) ∧ f.2.length + 10 ≤ self.length
        ∧ f.2.length ≤ enc.length) →
      feedOut self frame (frames.flatMap fun f =>
          (writeFrame enc { length := f.2.length, flags := f.1, payload := ptr f.2 } []).2)
        = frames.flatMap fun f =>
            List.replicate ((writeFrame enc
                { length := f.2.length, flags := f.1, payload := ptr f.2 } []).2.length - 1) none
              ++ [some (f.1, f.2.length, f.2)] := by
  induction frames with
  | nil => intro _ _ _ _ _; rfl
  | cons f fs ih =>
    intro self frame hS hC hall
    obtain ⟨h1, h2, h3, h4⟩ := hall f (List.mem_cons_self _ _)
    obtain ⟨buf2, frame2, d1, d2⟩ := decode_after_noise self frame [] f.1 f.2 hS hC
      (by simp) no_preamble_in_three h1 h2 h3
    simp only [List.nil_append] at d1 d2
    have hS2 : Seeking { length := self.length, buffer := buf2, index := 0, unescaping := false
                         state := WAITING_FOR_PREAMBLE } [] :=
      seeking_fresh _ rfl rfl rfl (by simp only; omega)
    have := ih _ frame2 hS2 hC (fun g hg => hall g (List.mem_cons_of_mem _ hg))
    simp only [List.flatMap_cons, emitted_eq_wire enc f.1 f.2 h4]
    rw [feedOut_append, d1, d2]
    simp only
    rw [this]

/-! ## Stuffed bytes never complete a preamble -/

theorem noSync_append (xs : List Nat) :
    ∀ (recent ys : List Nat), noSync recent xs → noSync (xs.reverse ++ recent) ys →
      noSync recent (xs ++ ys) := by
  induction xs with
  | nil => intro recent ys _ h; simpa using h
  | cons x xs ih =>
    intro recent ys h1 h2
    obtain ⟨a, b⟩ := h1
    refine ⟨a, ih (x :: recent) ys b ?_⟩
    simpa using h2

theorem noSync_stuffByte (b : Nat) (recent : List Nat) : noSync recent (stuffByte b) := by
  unfold stuffByte
  split_ifs with h1 h2
  · simp [noSync, synced]
  · simp [noSync, synced]
  · simp [noSync, synced, h1]

theorem noSync_stuff (xs : List Nat) : ∀ recent : List Nat, noSync recent (stuff xs) := by
  induction xs with
  | nil => intro _; trivial
  | cons x xs ih =>
    intro recent
    rw [stuff_cons]
    exact noSync_append _ _ _ (noSync_stuffByte x recent) (ih _)

theorem stuff_lt (xs : List Nat) (h : ∀ x ∈ xs, x < 256) : ∀ y ∈ stuff xs, y < 256 := by
  induction xs with
  | nil => intro y hy; simp [stuff] at hy
  | cons x xs ih =>
    intro y hy
    rw [stuff_cons] at hy
    rcases List.mem_append.mp hy with h1 | h1
    · exact stuffByte_lt x (h x (List.mem_cons_self _ _)) y h1
    · exact ih (fun z hz => h z (List.mem_cons_of_mem _ hz)) y h1

/-- A header whose checksum byte is wrong sends the decoder back to the search. -/
theorem reject_stuffed_header (C : Nat) (buf : Nat → Nat) (frame : frame_t) (flags L c : Nat)
    (hf : flags < 65536) (hl : L < 65536) (hc : c < 256) (hne : c ≠ checksumHeader flags L) :
    ∃ buf2 : Nat → Nat,
      feedState
          { length := C, buffer := buf, index := 0, unescaping := false
            state := WAITING_FOR_HEADER } frame
          (stuff ((headerBytes flags L).take 4 ++ [c]))
        = ({ length := C, buffer := buf2, index := 0, unescaping := false
             state := WAITING_FOR_PREAMBLE }, frame)
      ∧ feedOut
          { length := C, buffer := buf, index := 0, unescaping := false
            state := WAITING_FOR_HEADER } frame
          (stuff ((headerBytes flags L).take 4 ++ [c]))
        = List.replicate (stuff ((headerBytes flags L).take 4 ++ [c])).length none := by
  obtain ⟨hflags, hlen⟩ := header_fields flags L hf hl
  have hHlt := headerBytes_lt flags L
  have q1 : Quiet { length := C, buffer := buf, index := 0, unescaping := false
                    state := WAITING_FOR_HEADER } ((headerBytes flags L).take 4).length := by
    unfold Quiet
    simp [headerBytes]
  obtain ⟨s1, o1⟩ := feed_last ((headerBytes flags L).take 4) c _ frame q1
    (fun x hx => hHlt x (List.mem_of_mem_take hx)) hc
  set B := blit buf 0 ((headerBytes flags L).take 4 ++ [c]) with hB
  have b0 : B 0 = flags % 256 := by simp [hB, blit, headerBytes]
  have b1 : B 1 = flags / 256 % 256 := by simp [hB, blit, headerBytes]
  have b2 : B 2 = L % 256 := by simp [hB, blit, headerBytes]
  have b3 : B 3 = L / 256 % 256 := by simp [hB, blit, headerBytes]
  have b4 : B 4 = c := by simp [hB, blit, headerBytes]
  have hb5 : ∀ i, i < 5 → B i < 256 := by
    intro i hi
    have : i = 0 ∨ i = 1 ∨ i = 2 ∨ i = 3 ∨ i = 4 := by omega
    rcases this with h | h | h | h | h <;> subst h
    · rw [b0]; omega
    · rw [b1]; omega
    · rw [b2]; omega
    · rw [b3]; omega
    · rw [b4]; omega
  have sw := header_switch
    { length := C, buffer := B, index := 0 + ((headerBytes flags L).take 4).length + 1
      unescaping := false, state := WAITING_FOR_HEADER } frame rfl (by simp [headerBytes]) hb5
  simp only [b0, b1, b2, b3, b4, hflags, hlen] at sw
  rw [if_neg (fun h => hne h.1)] at sw
  rw [sw] at s1 o1
  simp only [Bool.false_eq_true, if_false] at s1 o1
  refine ⟨B, s1, ?_⟩
  rw [o1, show ([none] : List (Option (Nat × Nat × List Nat))) = List.replicate 1 none from rfl,
    ← List.replicate_add]
  congr 1
  have : 1 ≤ (stuff ((headerBytes flags L).take 4 ++ [c])).length := by
    rw [stuff_append, stuff_singleton, List.length_append]
    have := stuffByte_length_pos c
    omega
  omega

/-! ## The states a decoder reaches -/

theorem readFrame_byte (self : TinyLink) (b : Nat) (frame : frame_t) :
    readFrame self (b : Int) frame = readFrame self ((b % 256 : Nat) : Int) frame := by
  have e : (((b % 256 : Nat) : Int) % 256).toNat = ((b : Int) % 256).toNat := by omega
  unfold readFrame
  rw [e]

theorem headerFlags_update (buf : Nat → Nat) (i b : Nat) (h : 2 ≤ i) :
    headerFlags (Function.update buf i b) = headerFlags buf := by
  have h0 : (0 : Nat) ≠ i := by omega
  have h1 : (1 : Nat) ≠ i := by omega
  simp [headerFlags, _read_uint16_t, shift, Function.update, h0, h1]

theorem headerFlags_eq (buf : Nat → Nat) (h0 : buf 0 < 256) (h1 : buf 1 < 256) :
    headerFlags buf = buf 0 + 256 * buf 1 := by
  unfold headerFlags
  rw [_read_uint16_t_eq _ (by simpa [shift] using h0) (by simpa [shift] using h1)]
  simp [shift]

theorem headerLength_eq (buf : Nat → Nat) (h2 : buf 2 < 256) (h3 : buf 3 < 256) :
    headerLength buf = buf 2 + 256 * buf 3 := by
  unfold headerLength
  rw [_read_uint16_t_eq _ (by simpa [shift] using h2) (by simpa [shift] using h3)]
  simp [shift]

theorem consistent_ctor (_buffer : Nat → Nat) (_length : Nat) :
    Consistent (ctor _buffer _length) := by
  unfold Consistent ctor
  simp

theorem update_lt (buf : Nat → Nat) (k x : Nat) (hx : x < 256)
    (h : ∀ i, i < k → buf i < 256) : ∀ i, i < k + 1 → Function.update buf k x i < 256 := by
  intro i hi
  by_cases e : i = k
  · subst e
    simpa using hx
  · simpa [Function.update, e] using h i (by omega)

theorem leValue_four (p : Nat → Nat) :
    leValue (cells p 4) = p 0 + 256 * p 1 + 65536 * p 2 + 16777216 * p 3 := by
  rw [cells_four]
  simp only [leValue]
  omega

/-- One unstuffed byte stored by a decoder that holds no pending escape. -/
theorem accept_consistent (t : TinyLink) (frame : frame_t) (x : Nat) (hx : x < 256)
    (hu : t.unescaping = false)
    (hs : t.state = WAITING_FOR_HEADER ∨ t.state = WAITING_FOR_BODY) (hc : Consistent t) :
    Consistent (readFrame_switch (readFrame_store t x) frame).self
      ∧ (readFrame_switch (readFrame_store t x) frame).self.length = t.length
      ∧ ((readFrame_switch (readFrame_store t x) frame).ret = true →
          ValidFrame t.length (readFrame_switch (readFrame_store t x) frame).self.buffer
            (readFrame_switch (readFrame_store t x) frame).frame) := by
  obtain ⟨C, buf, k, un, st⟩ := t
  simp only at hu hs
  subst hu
  obtain ⟨-, hc⟩ := hc
  rcases hs with hs | hs
  · -- a header byte
    subst hs
    simp only [stored, Bool.false_eq_true, if_false] at hc
    obtain ⟨hk, hb⟩ := hc
    have hb' := update_lt buf k x hx hb
    by_cases h5 : k + 1 < 5
    · have q : Quiet { length := C, buffer := buf, index := k, unescaping := false
                       state := WAITING_FOR_HEADER } (0 + 1) := by
        unfold Quiet
        simp
        omega
      obtain ⟨e1, -, e2⟩ := store_quiet _ frame x 0 q
      rw [e1, e2]
      refine ⟨⟨by simp, ?_⟩, rfl, by simp⟩
      simp only [stored, Bool.false_eq_true, if_false]
      exact ⟨by omega, hb'⟩
    · have hk4 : k = 4 := by omega
      subst hk4
      have est : readFrame_store { length := C, buffer := buf, index := 4, unescaping := false
                                   state := WAITING_FOR_HEADER } x
          = { length := C, buffer := Function.update buf 4 x, index := 5, unescaping := false
              state := WAITING_FOR_HEADER } := by
        simp [readFrame_store, SIZE_T_MOD]
      rw [est, header_switch
        { length := C, buffer := Function.update buf 4 x, index := 5, unescaping := false
          state := WAITING_FOR_HEADER } frame rfl rfl hb']
      split_ifs with hcond
      · refine ⟨⟨by simp, ?_⟩, rfl, by simp⟩
        simp only [stored, Bool.false_eq_true, if_false]
        rw [headerFlags_eq _ (hb' 0 (by omega)) (hb' 1 (by omega)),
          headerLength_eq _ (hb' 2 (by omega)) (hb' 3 (by omega))]
        exact ⟨by omega, by omega, hb', hcond.1, hcond.2⟩
      · refine ⟨⟨by simp, ?_⟩, rfl, by simp⟩
        simp
  · -- a body byte
    subst hs
    simp only [stored, Bool.false_eq_true, if_false] at hc
    obtain ⟨hk5, hk9, hb, hsum, hcap⟩ := hc
    have hb' := update_lt buf k x hx hb
    have hl := headerLength_update buf k x (by omega)
    have hf := headerFlags_update buf k x (by omega)
    have h4 : Function.update buf k x 4 = buf 4 := by
      have : (4 : Nat) ≠ k := by omega
      simp [Function.update, this]
    have hlt := headerLength_lt buf
    by_cases hend : k + 1 < 9 + headerLength buf
    · have q : Quiet { length := C, buffer := buf, index := k, unescaping := false
                       state := WAITING_FOR_BODY } (0 + 1) := by
        unfold Quiet
        simp
        omega
      obtain ⟨e1, -, e2⟩ := store_quiet _ frame x 0 q
      rw [e1, e2]
      refine ⟨⟨by simp, ?_⟩, rfl, by simp⟩
      simp only [stored, Bool.false_eq_true, if_false, hl, hf, h4]
      exact ⟨by omega, by omega, hb', hsum, hcap⟩
    · have hk' : k + 1 = 9 + headerLength buf := by omega
      have est : readFrame_store { length := C, buffer := buf, index := k, unescaping := false
                                   state := WAITING_FOR_BODY } x
          = { length := C, buffer := Function.update buf k x, index := 9 + headerLength buf
              unescaping := false, state := WAITING_FOR_BODY } := by
        have : (k + 1) % SIZE_T_MOD = k + 1 := Nat.mod_eq_of_lt (by unfold SIZE_T_MOD; omega)
        simp only [readFrame_store]
        rw [this, hk']
      rw [est, body_switch
        { length := C, buffer := Function.update buf k x, index := 9 + headerLength buf
          unescaping := false, state := WAITING_FOR_BODY } frame (headerLength buf) rfl hl rfl]
      split_ifs with hcrc
      · refine ⟨⟨by simp, by simp⟩, rfl, fun _ => ?_⟩
        unfold ValidFrame
        simp only at hcrc ⊢
        set B := Function.update buf k x with hB
        have f0 := hb' 0 (by omega)
        have f1 := hb' 1 (by omega)
        have f2 := hb' 2 (by omega)
        have f3 := hb' 3 (by omega)
        have eF : _read_uint16_t (shift B 0) = B 0 + 256 * B 1 := headerFlags_eq B f0 f1
        have eL : headerLength B = B 2 + 256 * B 3 := headerLength_eq B f2 f3
        have sh0 : shift B 0 = B := by
          funext i
          simp [shift]
        refine ⟨by omega, trivial, ?_, ?_⟩
        · have eF' : headerFlags B = B 0 + 256 * B 1 := eF
          rw [cells_five, eF, h4, hsum, ← hf, ← hl, eF', eL]
          congr 1
          · omega
          congr 1
          · omega
          congr 1
          · omega
          congr 1
          omega
        · rw [leValue_four, ← _read_uint32_t_eq _
            (by simpa [shift] using hb' (5 + headerLength buf + 0) (by omega))
            (by simpa [shift] using hb' (5 + headerLength buf + 1) (by omega))
            (by simpa [shift] using hb' (5 + headerLength buf + 2) (by omega))
            (by simpa [shift] using hb' (5 + headerLength buf + 3) (by omega)),
            hcrc, checksumFrame_eq, sh0]
      · refine ⟨⟨by simp, by simp⟩, rfl, by simp⟩

theorem switch_true_reset (self : TinyLink) (frame : frame_t)
    (h : (readFrame_switch self frame).ret = true) :
    (readFrame_switch self frame).self.state = WAITING_FOR_PREAMBLE
      ∧ (readFrame_switch self frame).self.index = 0 := by
  revert h
  unfold readFrame_switch
  cases self.state <;> simp only [] <;> split_ifs <;> simp

theorem readFrame_true_reset (self : TinyLink) (r : Int) (frame : frame_t)
    (h : (readFrame self r frame).ret = true) :
    (readFrame self r frame).self.state = WAITING_FOR_PREAMBLE
      ∧ (readFrame self r frame).self.index = 0 := by
  revert h
  unfold readFrame
  simp only
  split_ifs with h1
  · simp
  · exact switch_true_reset _ frame


theorem seek_consistent (self : TinyLink) (frame : frame_t) (x : Nat)
    (hs : self.state = WAITING_FOR_PREAMBLE) (hu : self.unescaping = false) :
    Consistent (readFrame_switch (readFrame_store self x) frame).self
      ∧ (readFrame_switch (readFrame_store self x) frame).self.length = self.length
      ∧ (readFrame_switch (readFrame_store self x) frame).ret = false := by
  obtain ⟨C, buf, k, un, st⟩ := self
  simp only at hs hu
  subst hs hu
  simp only [readFrame_switch, readFrame_store]
  split_ifs <;> simp [Consistent, stored]

/-- Every call keeps the decoder consistent, keeps its capacity, and hands out valid
frames only. -/
theorem step_consistent (self : TinyLink) (frame : frame_t) (b : Nat) (hc : Consistent self) :
    Consistent (readFrame self (b : Int) frame).self
      ∧ (readFrame self (b : Int) frame).self.length = self.length
      ∧ ((readFrame self (b : Int) frame).ret = true →
          ValidFrame self.length (readFrame self (b : Int) frame).self.buffer
            (readFrame self (b : Int) frame).frame) := by
  rw [readFrame_byte]
  have hx : b % 256 < 256 := Nat.mod_lt _ (by decide)
  generalize b % 256 = x at hx
  by_cases hp : self.state = WAITING_FOR_PREAMBLE
  · have hu : self.unescaping = false := by
      have := hc.2
      rw [hp] at this
      exact this
    rw [readFrame_seeking self frame x hp hu hx]
    obtain ⟨a1, a2, a3⟩ := seek_consistent self frame x hp hu
    exact ⟨a1, a2, fun h => by rw [a3] at h; cases h⟩
  · have hs : self.state = WAITING_FOR_HEADER ∨ self.state = WAITING_FOR_BODY := by
      cases h : self.state
      · exact absurd h hp
      · exact Or.inl rfl
      · exact Or.inr rfl
    have hlt := headerLength_lt self.buffer
    by_cases hu : self.unescaping = true
    · -- the byte behind an escape marker
      have h1 := hc.1 hu
      have hidx : self.index < 70000 := by
        have := hc.2
        rcases hs with h | h <;> rw [h] at this <;> simp only [stored, hu, if_true] at this <;>
          omega
      have e : (self.index + SIZE_T_MOD - 1) % SIZE_T_MOD = self.index - 1 := by
        unfold SIZE_T_MOD
        omega
      rw [readFrame_escaped self frame x hs hu hx, e]
      have hc2 : Consistent { self with index := self.index - 1, unescaping := false } := by
        refine ⟨by simp, ?_⟩
        have := hc.2
        rcases hs with h | h <;> rw [h] at this <;> simp only [h] <;>
          simpa [stored, hu] using this
      exact accept_consistent _ frame x hx rfl hs hc2
    · have hu' : self.unescaping = false := by
        cases h : self.unescaping
        · rfl
        · exact absurd h hu
      by_cases he : x = 0x1B
      · -- an escape marker
        subst he
        rw [readFrame_escape self frame hs hu']
        have hidx : self.index < 70000 := by
          have := hc.2
          rcases hs with h | h <;> rw [h] at this <;>
            simp only [stored, hu', Bool.false_eq_true, if_false] at this <;> omega
        have e : (self.index + 1) % SIZE_T_MOD = self.index + 1 :=
          Nat.mod_eq_of_lt (by unfold SIZE_T_MOD; omega)
        refine ⟨?_, rfl, fun h => by cases h⟩
        obtain ⟨C, buf, k, un, st⟩ := self
        simp only at hs hu' hidx e hc
        subst hu'
        have hcells : ∀ i, i < k → Function.update buf k 27 i = buf i := by
          intro i hi
          have : i ≠ k := by omega
          simp [Function.update, this]
        rcases hs with h | h
        · subst h
          obtain ⟨-, h4, hb⟩ := hc
          simp only [stored, Bool.false_eq_true, if_false] at h4 hb
          refine ⟨by simp [readFrame_store, e], ?_⟩
          simp only [readFrame_store, e, stored, if_true, Nat.add_sub_cancel]
          exact ⟨h4, fun i hi => by rw [hcells i hi]; exact hb i hi⟩
        · subst h
          obtain ⟨-, h5, h9, hb, hsum, hcap⟩ := hc
          simp only [stored, Bool.false_eq_true, if_false] at h5 h9 hb
          refine ⟨by simp [readFrame_store, e], ?_⟩
          simp only [readFrame_store, e, stored, if_true, Nat.add_sub_cancel,
            headerLength_update buf k 27 (by omega), headerFlags_update buf k 27 (by omega)]
          refine ⟨h5, h9, fun i hi => by rw [hcells i hi]; exact hb i hi, ?_, hcap⟩
          rw [hcells 4 (by omega)]
          exact hsum
      · rw [readFrame_plain self frame x hs hu' hx he]
        exact accept_consistent self frame x hx hu' hs hc

theorem feed_consistent (bs : List Nat) :
    ∀ (self : TinyLink) (frame : frame_t), Consistent self →
      Consistent (feedState self frame bs).1
        ∧ (feedState self frame bs).1.length = self.length := by
  induction bs with
  | nil => intro self frame h; exact ⟨h, rfl⟩
  | cons b bs ih =>
    intro self frame h
    obtain ⟨a1, a2, -⟩ := step_consistent self frame b h
    obtain ⟨i1, i2⟩ := ih _ (readFrame self (b : Int) frame).frame a1
    exact ⟨i1, by simp only [feedState]; rw [i2, a2]⟩


/-! ## What `writeFrame` decides -/

theorem writeFrame_false_iff (self : TinyLink) (frame : frame_t) (stream : List Nat) :
    (writeFrame self frame stream).1 = false ↔ frame.length > self.length := by
  by_cases h : frame.length > self.length
  · simp [writeFrame, h]
  · simp [writeFrame, h]

theorem writeFrame_false_stream (self : TinyLink) (frame : frame_t) (stream : List Nat)
    (h : (writeFrame self frame stream).1 = false) :
    (writeFrame self frame stream).2 = stream := by
  rw [writeFrame_false_iff] at h
  simp [writeFrame, h]

theorem ctor_length (_buffer : Nat → Nat) (_length : Nat) :
    (ctor _buffer _length).length = _length % 65536 := rfl

/-! ## The bit-serial form of the checksum -/

example : crcMsbFirst 0 [0x01] = 0xEDB88320 := by decide
example : crcBitSerial 0x2215C33D [0x01, 0xFF, 0x80] = CRC32 0x2215C33D (ptr [0x01, 0xFF, 0x80]) 3 := by decide

theorem loop_eq_iterate (n : Nat) : ∀ crc, CRC32Value_loop n crc = bitSerialRound^[n] crc := by
  induction n with
  | zero => intro crc; rfl
  | succ n ih =>
    intro crc
    have h : crc &&& 1 ≠ 0 ↔ crc % 2 = 1 := by
      rw [Nat.and_one_is_mod]
      omega
    rw [Function.iterate_succ_apply, ← ih]
    simp only [CRC32Value_loop, bitSerialRound, CRC32_POLYNOMIAL]
    by_cases h1 : crc % 2 = 1
    · rw [if_pos (h.mpr h1), if_pos h1]
    · rw [if_neg (fun h2 => h1 (h.mp h2)), if_neg h1]

theorem shiftRight_xor (a b n : Nat) : (a ^^^ b) >>> n = (a >>> n) ^^^ (b >>> n) := by
  apply Nat.eq_of_testBit_eq
  intro i
  simp

theorem xor_swap (x y p : Nat) : (x ^^^ p) ^^^ (y ^^^ p) = x ^^^ y := by
  rw [Nat.xor_assoc, Nat.xor_comm y p, ← Nat.xor_assoc p, Nat.xor_self, Nat.zero_xor]

theorem round_xor (a b : Nat) :
    bitSerialRound (a ^^^ b) = bitSerialRound a ^^^ bitSerialRound b := by
  unfold bitSerialRound
  have h : (a ^^^ b) % 2 = (a + b) % 2 := Nat.xor_mod_two_eq
  rw [shiftRight_xor]
  by_cases ha : a % 2 = 1 <;> by_cases hb : b % 2 = 1
  · have hab : ¬ (a ^^^ b) % 2 = 1 := by omega
    rw [if_pos ha, if_pos hb, if_neg hab, xor_swap]
  · have hab : (a ^^^ b) % 2 = 1 := by omega
    rw [if_pos ha, if_neg hb, if_pos hab, Nat.xor_assoc, Nat.xor_assoc,
      Nat.xor_comm (b >>> 1)]
  · have hab : (a ^^^ b) % 2 = 1 := by omega
    rw [if_neg ha, if_pos hb, if_pos hab, Nat.xor_assoc]
  · have hab : ¬ (a ^^^ b) % 2 = 1 := by omega
    rw [if_neg ha, if_neg hb, if_neg hab]

theorem iterate_xor (n : Nat) : ∀ a b,
    bitSerialRound^[n] (a ^^^ b) = bitSerialRound^[n] a ^^^ bitSerialRound^[n] b := by
  induction n with
  | zero => intro a b; rfl
  | succ n ih =>
    intro a b
    rw [Function.iterate_succ_apply, Function.iterate_succ_apply, Function.iterate_succ_apply,
      round_xor, ih]

theorem round_shiftLeft (y n : Nat) : bitSerialRound (y <<< (n + 1)) = y <<< n := by
  unfold bitSerialRound
  have e : y <<< (n + 1) = 2 * (y <<< n) := by
    rw [Nat.shiftLeft_eq, Nat.shiftLeft_eq, Nat.pow_succ]
    ring
  rw [e, Nat.shiftRight_eq_div_pow]
  have h : ¬ (2 * (y <<< n)) % 2 = 1 := by omega
  rw [if_neg h]
  omega

theorem iterate_shiftLeft (n : Nat) : ∀ y, bitSerialRound^[n] (y <<< n) = y := by
  induction n with
  | zero => intro y; rfl
  | succ n ih =>
    intro y
    rw [Function.iterate_succ_apply, round_shiftLeft, ih]

theorem split_low (x n : Nat) : x = ((x >>> n) <<< n) ^^^ (x % 2 ^ n) := by
  apply Nat.eq_of_testBit_eq
  intro i
  simp only [Nat.testBit_xor, Nat.testBit_shiftLeft, Nat.testBit_shiftRight,
    Nat.testBit_mod_two_pow]
  by_cases h : i < n
  · have h2 : ¬ i ≥ n := by omega
    simp [h, h2]
  · have h2 : i ≥ n := by omega
    have e : n + (i - n) = i := by omega
    simp [h, h2, e]

/-- Eight (or `n`) rounds on a register are the rounds on its low bits, XORed with
its high bits. -/
theorem iterate_split (x n : Nat) :
    bitSerialRound^[n] x = (x >>> n) ^^^ bitSerialRound^[n] (x % 2 ^ n) := by
  conv_lhs => rw [split_low x n]
  rw [iterate_xor, iterate_shiftLeft]

theorem CRC32Value_eq_bitSerial (r b : Nat) (hr : r < 2 ^ 32) (hb : b < 256) :
    CRC32Value r b = bitSerialUpdate r b := by
  unfold CRC32Value bitSerialUpdate
  simp only
  rw [loop_eq_iterate, iterate_split (r ^^^ b) 8, shiftRight_xor]
  have e1 : b >>> 8 = 0 := by
    rw [Nat.shiftRight_eq_div_pow]
    omega
  have e2 : (r >>> 8) &&& 0x00FFFFFF = r >>> 8 := by
    have h : (r >>> 8) &&& 0x00FFFFFF = (r >>> 8) % 2 ^ 24 :=
      Nat.and_pow_two_sub_one_eq_mod (r >>> 8) 24
    rw [h, Nat.shiftRight_eq_div_pow]
    omega
  have e3 : (r ^^^ b) &&& 0xFF = (r ^^^ b) % 2 ^ 8 :=
    Nat.and_pow_two_sub_one_eq_mod (r ^^^ b) 8
  rw [e1, e2, e3, Nat.xor_zero]

theorem crc32_eq_bitSerial (data : List Nat) :
    ∀ seed, seed < 2 ^ 32 → (∀ b ∈ data, b < 256) → crc32 seed data = crcBitSerial seed data := by
  induction data with
  | nil => intro _ _ _; rfl
  | cons b bs ih =>
    intro seed hs hb
    have e := CRC32Value_eq_bitSerial seed b hs (hb b (List.mem_cons_self _ _))
    simp only [crc32, crcBitSerial, List.foldl_cons] at ih ⊢
    rw [← e]
    exact ih _ (CRC32Value_lt seed b) (fun x hx => hb x (List.mem_cons_of_mem _ hx))

theorem CRC32_eq_bitSerial (seed : Nat) (data : List Nat) (hs : seed < 2 ^ 32)
    (hb : ∀ b ∈ data, b < 256) :
    CRC32 seed (ptr data) data.length = crcBitSerial seed data := by
  rw [CRC32_eq_crc32, cells_ptr]
  exact crc32_eq_bitSerial data seed hs hb

/-! ## The bit-at-a-time form of the checksum -/

theorem lsbFirstBit_eq (r bit : Nat) (h : bit < 2) :
    lsbFirstBit r bit = bitSerialRound (r ^^^ bit) := by
  unfold lsbFirstBit bitSerialRound
  have e1 : bit >>> 1 = 0 := by
    rw [Nat.shiftRight_eq_div_pow]
    omega
  have e2 : (r ^^^ bit) % 2 = (r + bit) % 2 := Nat.xor_mod_two_eq
  rw [shiftRight_xor, e1, Nat.xor_zero]
  by_cases h1 : r % 2 ≠ bit
  · have h2 : (r ^^^ bit) % 2 = 1 := by omega
    rw [if_pos h1, if_pos h2]
  · have h2 : ¬ (r ^^^ bit) % 2 = 1 := by omega
    rw [if_neg h1, if_neg h2]

theorem low_bits_succ (b n : Nat) :
    b % 2 ^ (n + 1) = (b % 2 ^ n) ^^^ (((b >>> n) % 2) <<< n) := by
  apply Nat.eq_of_testBit_eq
  intro i
  have e : (b >>> n) % 2 = (b >>> n) % 2 ^ 1 := by simp
  rw [e]
  simp only [Nat.testBit_xor, Nat.testBit_shiftLeft, Nat.testBit_shiftRight,
    Nat.testBit_mod_two_pow]
  by_cases h1 : i < n
  · have h2 : i < n + 1 := by omega
    have h3 : ¬ i ≥ n := by omega
    simp [h1, h2, h3]
  · by_cases h4 : i = n
    · subst h4
      simp
    · have h2 : ¬ i < n + 1 := by omega
      have h3 : i ≥ n := by omega
      have h5 : ¬ i - n < 1 := by omega
      simp [h1, h2, h3, h5]

theorem feed_bits (b : Nat) (n : Nat) : ∀ r,
    (List.range n).foldl (fun r i => lsbFirstBit r ((b >>> i) % 2)) r
      = bitSerialRound^[n] (r ^^^ (b % 2 ^ n)) := by
  induction n with
  | zero =>
    intro r
    simp [Nat.mod_one]
  | succ n ih =>
    intro r
    rw [List.range_succ, List.foldl_append, ih]
    simp only [List.foldl_cons, List.foldl_nil]
    rw [lsbFirstBit_eq _ _ (Nat.mod_lt _ (by decide)), Function.iterate_succ_apply',
      low_bits_succ b n, ← Nat.xor_assoc, iterate_xor _ (r ^^^ b % 2 ^ n), iterate_shiftLeft]

theorem lsbFirstByte_eq (r b : Nat) (hb : b < 256) : lsbFirstByte r b = bitSerialUpdate r b := by
  have e : ([0, 1, 2, 3, 4, 5, 6, 7] : List Nat) = List.range 8 := by decide
  unfold lsbFirstByte bitSerialUpdate
  rw [e, feed_bits b 8 r, Nat.mod_eq_of_lt (by omega)]

theorem crcLsbFirst_eq (data : List Nat) :
    ∀ seed, (∀ b ∈ data, b < 256) → crcLsbFirst seed data = crcBitSerial seed data := by
  induction data with
  | nil => intro _ _; rfl
  | cons b bs ih =>
    intro seed hb
    simp only [crcLsbFirst, crcBitSerial, List.foldl_cons] at ih ⊢
    rw [lsbFirstByte_eq seed b (hb b (List.mem_cons_self _ _))]
    exact ih _ (fun x hx => hb x (List.mem_cons_of_mem _ hx))

/-! ## Single-byte corruption of a header -/

theorem header_xor_detects (f0 f1 l0 l1 a b c d e : Nat)
    (h : (a ≠ f0 ∧ b = f1 ∧ c = l0 ∧ d = l1 ∧ e = f0 ^^^ f1 ^^^ l0 ^^^ l1)
      ∨ (a = f0 ∧ b ≠ f1 ∧ c = l0 ∧ d = l1 ∧ e = f0 ^^^ f1 ^^^ l0 ^^^ l1)
      ∨ (a = f0 ∧ b = f1 ∧ c ≠ l0 ∧ d = l1 ∧ e = f0 ^^^ f1 ^^^ l0 ^^^ l1)
      ∨ (a = f0 ∧ b = f1 ∧ c = l0 ∧ d ≠ l1 ∧ e = f0 ^^^ f1 ^^^ l0 ^^^ l1)
      ∨ (a = f0 ∧ b = f1 ∧ c = l0 ∧ d = l1 ∧ e ≠ f0 ^^^ f1 ^^^ l0 ^^^ l1)) :
    a ^^^ b ^^^ c ^^^ d ≠ e := by
  rcases h with ⟨h0, rfl, rfl, rfl, rfl⟩ | ⟨rfl, h1, rfl, rfl, rfl⟩ | ⟨rfl, rfl, h2, rfl, rfl⟩
    | ⟨rfl, rfl, rfl, h3, rfl⟩ | ⟨rfl, rfl, rfl, rfl, h4⟩
  · intro h
    exact h0 (Nat.xor_left_inj.mp (Nat.xor_left_inj.mp (Nat.xor_left_inj.mp h)))
  · intro h
    exact h1 (Nat.xor_right_inj.mp (Nat.xor_left_inj.mp (Nat.xor_left_inj.mp h)))
  · intro h
    exact h2 (Nat.xor_right_inj.mp (Nat.xor_left_inj.mp h))
  · intro h
    exact h3 (Nat.xor_right_inj.mp h)
  · intro h
    exact h4 h.symm

/-- The header checksum the decoder recomputes from five stored bytes. -/
theorem checksumHeader_of_bytes (a b c d : Nat) (ha : a < 256) (hb : b < 256) (hc : c < 256)
    (hd : d < 256) : checksumHeader (a + 256 * b) (c + 256 * d) = a ^^^ b ^^^ c ^^^ d := by
  rw [checksumHeader_eq]
  have e1 : (a + 256 * b) % 256 = a := by omega
  have e2 : (a + 256 * b) / 256 % 256 = b := by omega
  have e3 : (c + 256 * d) % 256 = c := by omega
  have e4 : (c + 256 * d) / 256 % 256 = d := by omega
  rw [e1, e2, e3, e4]

/-! ## Calls that do not touch the decoder -/

theorem call_write_self (s : Session) (frame : frame_t) :
    (s.call (Call.writeFrame frame)).1.self = s.self
      ∧ (s.call (Call.writeFrame frame)).1.frame = s.frame := ⟨rfl, rfl⟩

theorem readResults_skip (calls : List Call) :
    ∀ (s t : Session), s.self = t.self → s.frame = t.frame →
      s.readResults calls = t.readResults (calls.filter Call.isRead)
        ∧ (s.run calls).self = (t.run (calls.filter Call.isRead)).self
        ∧ (s.run calls).frame = (t.run (calls.filter Call.isRead)).frame := by
  induction calls with
  | nil => intro s t h1 h2; exact ⟨rfl, h1, h2⟩
  | cons c cs ih =>
    intro s t h1 h2
    cases c with
    | readFrame r =>
      have e : (Call.readFrame r :: cs).filter Call.isRead
          = Call.readFrame r :: cs.filter Call.isRead := by
        simp [List.filter, Call.isRead]
      rw [e]
      have a1 : (s.call (Call.readFrame r)).1.self = (t.call (Call.readFrame r)).1.self := by
        simp only [Session.call, h1, h2]
      have a2 : (s.call (Call.readFrame r)).1.frame = (t.call (Call.readFrame r)).1.frame := by
        simp only [Session.call, h1, h2]
      have a3 : (s.call (Call.readFrame r)).2 = (t.call (Call.readFrame r)).2 := by
        simp only [Session.call, h1, h2]
      obtain ⟨i1, i2, i3⟩ := ih _ _ a1 a2
      refine ⟨?_, ?_, ?_⟩
      · simp only [Session.readResults]
        rw [i1, a2, a3]
      · simp only [Session.run]
        exact i2
      · simp only [Session.run]
        exact i3
    | writeFrame frame =>
      have e : (Call.writeFrame frame :: cs).filter Call.isRead = cs.filter Call.isRead := by
        simp [List.filter, Call.isRead]
      rw [e]
      obtain ⟨i1, i2, i3⟩ := ih (s.call (Call.writeFrame frame)).1 t h1 h2
      exact ⟨by simp only [Session.readResults]; exact i1,
        by simp only [Session.run]; exact i2, by simp only [Session.run]; exact i3⟩

/-! ## The call that stores a given unescaped byte -/

theorem byte_lt (r : Int) : (r % 256).toNat < 256 := by
  have h1 : 0 ≤ r % 256 := Int.emod_nonneg r (by decide)
  have h2 : r % 256 < 256 := Int.emod_lt_of_pos r (by decide)
  omega

theorem shift_zero (p : Nat → Nat) : shift p 0 = p := by
  funext i
  simp [shift]

/-- In the header and body states, the call that stores an unescaped byte in cell `n`:
either no escape is pending, the cursor is `n` and the byte is not the escape marker,
or an escape is pending and the cursor is `n + 1`. -/
theorem readFrame_stores (self : TinyLink) (r : Int) (frame : frame_t) (n : Nat)
    (hn : n + 1 < SIZE_T_MOD)
    (hs : self.state = WAITING_FOR_HEADER ∨ self.state = WAITING_FOR_BODY)
    (h : (self.unescaping = false ∧ self.index = n ∧ (r % 256).toNat ≠ ESCAPE)
      ∨ (self.unescaping = true ∧ self.index = n + 1)) :
    readFrame self r frame
      = readFrame_switch
          { self with buffer := Function.update self.buffer n (r % 256).toNat
                      index := n + 1
                      unescaping := false } frame := by
  have e1 : (n + 1 + SIZE_T_MOD - 1) % SIZE_T_MOD = n := by
    have : n + 1 + SIZE_T_MOD - 1 = n + SIZE_T_MOD := by omega
    rw [this, Nat.add_mod_right, Nat.mod_eq_of_lt (by omega)]
  have e2 : (n + 1) % SIZE_T_MOD = n + 1 := Nat.mod_eq_of_lt hn
  rcases h with ⟨hu, hi, hb⟩ | ⟨hu, hi⟩
  · cases self with
    | mk length buffer index unescaping state =>
      simp only at hu hi hs
      subst hu hi
      simp only [readFrame, readFrame_unescape, readFrame_store, hs, if_true, hb, if_false]
      simp [e2]
  · cases self with
    | mk length buffer index unescaping state =>
      simp only at hu hi hs
      subst hu hi
      simp only [readFrame, readFrame_unescape, readFrame_store, hs, if_true, e1]
      simp [e2]

/-! ## The cursor stays inside the buffer -/

theorem readFrame_int (self : TinyLink) (r : Int) (frame : frame_t) :
    readFrame self r frame = readFrame self (((r % 256).toNat : Nat) : Int) frame := by
  have h1 : 0 ≤ r % 256 := Int.emod_nonneg r (by decide)
  have e : ((((r % 256).toNat : Nat) : Int) % 256).toNat = (r % 256).toNat := by
    rw [Int.toNat_of_nonneg h1, Int.emod_emod_of_dvd r (dvd_refl 256)]
  simp only [readFrame, e]

/-- The `switch` statement enters WAITING_FOR_PREAMBLE only with cursor 0. -/
theorem switch_reset_index (self : TinyLink) (frame : frame_t)
    (hs : self.state ≠ WAITING_FOR_PREAMBLE)
    (h : (readFrame_switch self frame).self.state = WAITING_FOR_PREAMBLE) :
    (readFrame_switch self frame).self.index = 0 := by
  obtain ⟨C, buf, idx, un, st⟩ := self
  simp only at hs
  revert h
  unfold readFrame_switch
  cases st <;> simp only [] <;> split_ifs <;> simp_all

/-- A call enters WAITING_FOR_PREAMBLE only with cursor 0. -/
theorem readFrame_reset_index (self : TinyLink) (r : Int) (frame : frame_t)
    (hs : self.state ≠ WAITING_FOR_PREAMBLE)
    (h : (readFrame self r frame).self.state = WAITING_FOR_PREAMBLE) :
    (readFrame self r frame).self.index = 0 := by
  have hst : (readFrame_store (readFrame_unescape self (r % 256).toNat) (r % 256).toNat).state
      = self.state := by
    unfold readFrame_store readFrame_unescape
    split_ifs <;> rfl
  revert h
  unfold readFrame
  simp only []
  split_ifs with hu
  · intro h
    simp only at h
    rw [hst] at h
    exact absurd h hs
  · intro h
    exact switch_reset_index _ _ (by rw [hst]; exact hs) h

/-- While seeking with the cursor inside a buffer of at least five cells, the cursor
stays inside. -/
theorem seek_in_bounds (self : TinyLink) (r : Int) (frame : frame_t)
    (hs : self.state = WAITING_FOR_PREAMBLE) (hu : self.unescaping = false)
    (hi : self.index < self.length) (h5 : 5 ≤ self.length) (hC : self.length < 65536)
    (h : (readFrame self r frame).self.state = WAITING_FOR_PREAMBLE) :
    (readFrame self r frame).self.index < (readFrame self r frame).self.length := by
  obtain ⟨C, buf, idx, un, st⟩ := self
  simp only at hs hu hi h5 hC
  subst hs hu
  have e1 : (idx + 1) % SIZE_T_MOD = idx + 1 :=
    Nat.mod_eq_of_lt (by unfold SIZE_T_MOD; omega)
  revert h
  simp only [readFrame, readFrame_unescape, readFrame_store, readFrame_switch, e1, LEN_PREAMBLE]
  simp only [reduceCtorEq, or_self, if_false, Bool.false_eq_true]
  split_ifs <;> simp <;> omega

theorem step_in_bounds (self : TinyLink) (b : Nat) (frame : frame_t) (h : InBounds self)
    (h5 : 5 ≤ self.length) (hC : self.length < 65536) :
    InBounds (readFrame self (b : Int) frame).self := by
  obtain ⟨hc, hp⟩ := h
  obtain ⟨c1, c2, -⟩ := step_consistent self frame b hc
  refine ⟨c1, fun hst => ?_⟩
  by_cases hs : self.state = WAITING_FOR_PREAMBLE
  · have hu : self.unescaping = false := by
      have := hc.2
      rw [hs] at this
      exact this
    exact seek_in_bounds self _ frame hs hu (hp hs) h5 hC hst
  · rw [readFrame_reset_index self _ frame hs hst, c2]
    omega

theorem feed_in_bounds (bs : List Nat) :
    ∀ (self : TinyLink) (frame : frame_t), InBounds self → 5 ≤ self.length →
      self.length < 65536 →
      InBounds (feedState self frame bs).1 ∧ (feedState self frame bs).1.length = self.length := by
  induction bs with
  | nil =>
    intro self frame h _ _
    exact ⟨h, rfl⟩
  | cons b bs ih =>
    intro self frame h h5 hC
    have hl := (step_consistent self frame b h.1).2.1
    obtain ⟨i1, i2⟩ := ih (readFrame self (b : Int) frame).self
      (readFrame self (b : Int) frame).frame (step_in_bounds self b frame h h5 hC)
      (by rw [hl]; exact h5) (by rw [hl]; exact hC)
    simp only [feedState]
    exact ⟨i1, by rw [i2, hl]⟩

theorem in_bounds_ctor (_buffer : Nat → Nat) (_length : Nat)
    (h : 0 < (ctor _buffer _length).length) : InBounds (ctor _buffer _length) :=
  ⟨consistent_ctor _buffer _length, fun _ => h⟩

/-- The cursor of a decoder in a reachable state, capacity at least 5, is at most the
capacity. -/
theorem in_bounds_index (self : TinyLink) (h : InBounds self) (h5 : 5 ≤ self.length) :
    self.index ≤ self.length := by
  obtain ⟨⟨hc1, hc2⟩, hp⟩ := h
  obtain ⟨C, buf, idx, un, st⟩ := self
  simp only at h5 hc1 hc2 hp
  cases st with
  | WAITING_FOR_PREAMBLE =>
    have := hp rfl
    simp only
    omega
  | WAITING_FOR_HEADER =>
    simp only [stored] at hc2
    simp only
    cases un
    · simp at hc2; omega
    · simp at hc2; omega
  | WAITING_FOR_BODY =>
    simp only [stored] at hc2
    simp only
    cases un
    · simp at hc2; omega
    · simp at hc2; omega

/-! ## Every access to the scratch buffer is inside it -/

theorem switch_access (self : TinyLink) (hi1 : 1 ≤ self.index) (hle : self.index ≤ self.length)
    (h5 : 5 ≤ self.length)
    (hb : self.state = WAITING_FOR_BODY → headerLength self.buffer + 10 ≤ self.length) :
    (∀ i ∈ readFrame_switch_writes self, i < self.length)
      ∧ (∀ i ∈ readFrame_switch_reads self, i < self.length) := by
  obtain ⟨C, buf, idx, un, st⟩ := self
  simp only at hi1 hle h5 hb
  cases st with
  | WAITING_FOR_PREAMBLE =>
    constructor
    · intro i hi
      simp only [readFrame_switch_writes, LEN_PREAMBLE] at hi
      split_ifs at hi
      · simp at hi
      · simp only [List.mem_range] at hi
        show i < C
        omega
      · simp at hi
      · simp at hi
    · intro i hi
      simp only [readFrame_switch_reads, LEN_PREAMBLE] at hi
      split_ifs at hi with h4
      · simp only [List.append_nil, List.mem_map, List.mem_range] at hi
        obtain ⟨k, hk, rfl⟩ := hi
        simp only at h4 ⊢
        omega
      · simp only [List.mem_append, List.mem_map, List.mem_range] at hi
        simp only at h4 ⊢
        rcases hi with ⟨k, hk, rfl⟩ | ⟨k, hk, rfl⟩ <;> omega
      · simp only [List.append_nil, List.mem_map, List.mem_range] at hi
        obtain ⟨k, hk, rfl⟩ := hi
        simp only at h4 ⊢
        omega
      · simp at hi
  | WAITING_FOR_HEADER =>
    constructor
    · intro i hi
      simp [readFrame_switch_writes] at hi
    · intro i hi
      simp only [readFrame_switch_reads] at hi
      split_ifs at hi
      · simp only [List.mem_append, List.mem_map, List.mem_range, List.mem_singleton] at hi
        simp only
        rcases hi with (⟨k, hk, rfl⟩ | ⟨k, hk, rfl⟩) | rfl <;> omega
      · simp at hi
  | WAITING_FOR_BODY =>
    have hb2 := hb rfl
    unfold headerLength at hb2
    constructor
    · intro i hi
      simp [readFrame_switch_writes] at hi
    · intro i hi
      simp only [readFrame_switch_reads, LEN_HEADER, LEN_FLAGS, LEN_LENGTH, LEN_XOR, LEN_CRC] at hi
      split_ifs at hi with hfull
      · simp only [List.mem_append, List.mem_map, List.mem_range] at hi
        simp only at hfull ⊢
        rcases hi with (⟨k, hk, rfl⟩ | ⟨k, hk, rfl⟩) | ((⟨k, hk, rfl⟩ | ⟨k, hk, rfl⟩) | ⟨k, hk, rfl⟩)
          <;> omega
      · simp only [List.append_nil, List.mem_append, List.mem_map, List.mem_range] at hi
        simp only
        rcases hi with ⟨k, hk, rfl⟩ | ⟨k, hk, rfl⟩ <;> omega

/-- The cursor after the unescaping block: inside the buffer, and behind the header
in the body state. -/
theorem unescape_cursor (self : TinyLink) (byte : Nat) (h : InBounds self)
    (h5 : 5 ≤ self.length) (hC : self.length < 65536) :
    (readFrame_unescape self byte).index < self.length
      ∧ (readFrame_unescape self byte).length = self.length
      ∧ (readFrame_unescape self byte).state = self.state
      ∧ (readFrame_unescape self byte).buffer = self.buffer
      ∧ (self.state = WAITING_FOR_BODY → 4 ≤ (readFrame_unescape self byte).index) := by
  obtain ⟨⟨hc1, hc2⟩, hp⟩ := h
  obtain ⟨C, buf, idx, un, st⟩ := self
  simp only at h5 hC hc1 hc2 hp
  cases st with
  | WAITING_FOR_PREAMBLE =>
    have := hp rfl
    simp [readFrame_unescape, this]
  | WAITING_FOR_HEADER =>
    cases un with
    | false =>
      simp only [stored, Bool.false_eq_true, if_false] at hc2
      have := hc2.1
      simp only [readFrame_unescape, true_or, if_true, Bool.false_eq_true, if_false]
      split_ifs <;> simp <;> omega
    | true =>
      simp only [stored, if_true] at hc2
      have h1 := hc1 rfl
      have h2 := hc2.1
      have e : (idx + SIZE_T_MOD - 1) % SIZE_T_MOD = idx - 1 := by
        have : idx + SIZE_T_MOD - 1 = idx - 1 + SIZE_T_MOD := by unfold SIZE_T_MOD; omega
        rw [this, Nat.add_mod_right, Nat.mod_eq_of_lt (by unfold SIZE_T_MOD; omega)]
      simp only [readFrame_unescape, true_or, if_true, e]
      simp
      omega
  | WAITING_FOR_BODY =>
    cases un with
    | false =>
      simp only [stored, Bool.false_eq_true, if_false] at hc2
      obtain ⟨a1, a2, -, -, a5⟩ := hc2
      simp only [readFrame_unescape, or_true, if_true, Bool.false_eq_true, if_false]
      split_ifs <;> simp <;> omega
    | true =>
      simp only [stored, if_true] at hc2
      obtain ⟨a1, a2, -, -, a5⟩ := hc2
      have e : (idx + SIZE_T_MOD - 1) % SIZE_T_MOD = idx - 1 := by
        have : idx + SIZE_T_MOD - 1 = idx - 1 + SIZE_T_MOD := by unfold SIZE_T_MOD; omega
        rw [this, Nat.add_mod_right, Nat.mod_eq_of_lt (by unfold SIZE_T_MOD; omega)]
      simp only [readFrame_unescape, or_true, if_true, e]
      simp
      omega

theorem access_in_bounds (self : TinyLink) (r : Int) (h : InBounds self) (h5 : 5 ≤ self.length)
    (hC : self.length < 65536) :
    (∀ i ∈ readFrame_writes self r, i < self.length)
      ∧ (∀ i ∈ readFrame_reads self r, i < self.length)
      ∧ (∀ i ∈ readFrame_decrements self, i ≠ 0) := by
  obtain ⟨u1, u2, u3, u4, u5⟩ := unescape_cursor self (r % 256).toNat h h5 hC
  have e1 : ((readFrame_unescape self (r % 256).toNat).index + 1) % SIZE_T_MOD
      = (readFrame_unescape self (r % 256).toNat).index + 1 :=
    Nat.mod_eq_of_lt (by unfold SIZE_T_MOD; omega)
  have hb : (readFrame_store (readFrame_unescape self (r % 256).toNat) (r % 256).toNat).state
        = WAITING_FOR_BODY →
      headerLength (readFrame_store (readFrame_unescape self (r % 256).toNat)
        (r % 256).toNat).buffer + 10
        ≤ (readFrame_store (readFrame_unescape self (r % 256).toNat) (r % 256).toNat).length := by
    intro hs
    simp only [readFrame_store] at hs ⊢
    rw [u3] at hs
    rw [headerLength_update _ _ _ (u5 hs), u4, u2]
    have := h.1.2
    rw [hs] at this
    exact this.2.2.2.2
  obtain ⟨w, rd⟩ := switch_access
    (readFrame_store (readFrame_unescape self (r % 256).toNat) (r % 256).toNat)
    (by simp only [readFrame_store, e1]; omega)
    (by simp only [readFrame_store, e1, u2]; omega)
    (by simp only [readFrame_store, u2]; exact h5) hb
  have hl : (readFrame_store (readFrame_unescape self (r % 256).toNat) (r % 256).toNat).length
      = self.length := by
    simp only [readFrame_store, u2]
  rw [hl] at w rd
  refine ⟨?_, ?_, ?_⟩
  · intro i hi
    simp only [readFrame_writes, List.mem_cons] at hi
    rcases hi with rfl | hi
    · exact u1
    · split_ifs at hi
      · simp at hi
      · exact w i hi
  · intro i hi
    simp only [readFrame_reads] at hi
    split_ifs at hi
    · simp at hi
    · exact rd i hi
  · intro i hi
    simp only [readFrame_decrements] at hi
    split_ifs at hi with hs hu
    · simp only [List.mem_singleton] at hi
      have := h.1.1 hu
      omega
    · simp at hi
    · simp at hi

/-! ## The stored bytes are the unstuffed bytes -/

theorem switch_unescaping (self : TinyLink) (frame : frame_t) :
    (readFrame_switch self frame).self.unescaping = self.unescaping := by
  unfold readFrame_switch
  cases self.state <;> simp only [] <;> split_ifs <;> rfl

/-- A call that leaves an escape pending returns false. -/
theorem pending_ret_false (self : TinyLink) (r : Int) (frame : frame_t)
    (h : (readFrame self r frame).self.unescaping = true) :
    (readFrame self r frame).ret = false := by
  revert h
  unfold readFrame
  simp only []
  split_ifs with hu
  · intro _
    rfl
  · intro h
    rw [switch_unescaping] at h
    exact absurd h hu

/-- A decoder that leaves WAITING_FOR_PREAMBLE does so with cursor 0 and no escape
pending. -/
theorem enter_header (prev : TinyLink) (r : Int) (frame : frame_t)
    (hprev : prev.state = WAITING_FOR_PREAMBLE)
    (h : (readFrame prev r frame).self.state = WAITING_FOR_HEADER) :
    (readFrame prev r frame).self.index = 0
      ∧ (readFrame prev r frame).self.unescaping = false := by
  obtain ⟨C, buf, idx, un, st⟩ := prev
  simp only at hprev
  subst hprev
  revert h
  simp only [readFrame, readFrame_unescape, readFrame_store, reduceCtorEq, or_self, if_false]
  cases un with
  | true => simp
  | false =>
    simp only [Bool.false_eq_true, if_false, readFrame_switch]
    split_ifs <;> simp

theorem cells_update_snoc (buf : Nat → Nat) (u : List Nat) (b : Nat)
    (h : cells buf u.length = u) :
    cells (Function.update buf u.length b) (u ++ [b]).length = u ++ [b] := by
  rw [List.length_append, List.length_singleton, cells_succ_last]
  have e : cells (Function.update buf u.length b) u.length = cells buf u.length :=
    cells_congr (fun i hi => by simp [Function.update, Nat.ne_of_lt hi])
  rw [e, h]
  simp

theorem cells_update_keep (buf : Nat → Nat) (u : List Nat) (b : Nat)
    (h : cells buf u.length = u) : cells (Function.update buf u.length b) u.length = u := by
  have e : cells (Function.update buf u.length b) u.length = cells buf u.length :=
    cells_congr (fun i hi => by simp [Function.update, Nat.ne_of_lt hi])
  rw [e, h]

/-- The `switch` statement on a decoder that has just stored an unescaped byte behind
the bytes `u` and is not reset. -/
theorem holds_switch (self : TinyLink) (frame : frame_t) (u : List Nat)
    (hu : self.unescaping = false) (hi : self.index = u.length + 1)
    (hst : (self.state = WAITING_FOR_HEADER ∧ u.length ≤ 4) ∨
      (self.state = WAITING_FOR_BODY ∧ 5 ≤ u.length ∧ u.length < 9 + headerLength self.buffer))
    (hns : (readFrame_switch self frame).self.state ≠ WAITING_FOR_PREAMBLE) :
    (readFrame_switch self frame).self.unescaping = false
      ∧ (readFrame_switch self frame).self.index = u.length + 1
      ∧ (readFrame_switch self frame).self.buffer = self.buffer
      ∧ (((readFrame_switch self frame).self.state = WAITING_FOR_HEADER ∧ u.length + 1 ≤ 4) ∨
          ((readFrame_switch self frame).self.state = WAITING_FOR_BODY ∧ 5 ≤ u.length + 1 ∧
            u.length + 1 < 9 + headerLength self.buffer)) := by
  obtain ⟨C, buf, idx, un, st⟩ := self
  simp only at hu hi hst
  subst hu hi
  revert hns
  rcases hst with ⟨rfl, h4⟩ | ⟨rfl, h5, h9⟩
  · simp only [readFrame_switch, LEN_HEADER, LEN_FLAGS, LEN_LENGTH, LEN_XOR]
    split_ifs with h1 h2
    · intro _
      refine ⟨rfl, rfl, rfl, Or.inr ⟨rfl, by omega, by omega⟩⟩
    · intro h
      exact absurd rfl h
    · intro _
      refine ⟨rfl, rfl, rfl, Or.inl ⟨rfl, by omega⟩⟩
  · simp only [readFrame_switch, LEN_HEADER, LEN_FLAGS, LEN_LENGTH, LEN_XOR, LEN_CRC]
    unfold headerLength at h9
    split_ifs with h1 h2
    · intro h
      exact absurd rfl h
    · intro h
      exact absurd rfl h
    · intro _
      refine ⟨rfl, rfl, rfl, Or.inr ⟨rfl, by omega, ?_⟩⟩
      unfold headerLength
      omega

theorem holds_bound (self : TinyLink) (u : List Nat) (p : Bool) (h : Holds self u p) :
    u.length + 2 < SIZE_T_MOD := by
  obtain ⟨-, -, -, -, hst⟩ := h
  have := headerLength_lt self.buffer
  unfold SIZE_T_MOD
  rcases hst with ⟨-, h4⟩ | ⟨-, -, h9⟩ <;> omega

/-- Storing an unescaped byte behind the bytes held, without a reset. -/
theorem holds_store (t : TinyLink) (frame : frame_t) (u : List Nat) (b : Nat)
    (h : Holds t u false)
    (hns : (readFrame_switch (readFrame_store t b) frame).self.state ≠ WAITING_FOR_PREAMBLE) :
    Holds (readFrame_switch (readFrame_store t b) frame).self (u ++ [b]) false := by
  have hbound := holds_bound t u false h
  obtain ⟨hu, hi, hc, -, hst⟩ := h
  simp only [Bool.false_eq_true, if_false, Nat.add_zero] at hi
  have e1 : (u.length + 1) % SIZE_T_MOD = u.length + 1 := Nat.mod_eq_of_lt (by omega)
  have hst2 : ((readFrame_store t b).state = WAITING_FOR_HEADER ∧ u.length ≤ 4) ∨
      ((readFrame_store t b).state = WAITING_FOR_BODY ∧ 5 ≤ u.length
        ∧ u.length < 9 + headerLength (readFrame_store t b).buffer) := by
    simp only [readFrame_store]
    rcases hst with ⟨a, b4⟩ | ⟨a, b5, b9⟩
    · exact Or.inl ⟨a, b4⟩
    · refine Or.inr ⟨a, b5, ?_⟩
      rw [headerLength_update _ _ _ (by omega)]
      exact b9
  obtain ⟨s1, s2, s3, s4⟩ := holds_switch (readFrame_store t b) frame u
    (by simp only [readFrame_store]; exact hu)
    (by simp only [readFrame_store, hi, e1]) hst2 hns
  refine ⟨s1, ?_, ?_, fun h => absurd h (by simp), ?_⟩
  · simp only [Bool.false_eq_true, if_false, Nat.add_zero, List.length_append,
      List.length_singleton]
    exact s2
  · rw [s3]
    simp only [readFrame_store, hi]
    exact cells_update_snoc t.buffer u b hc
  · rw [s3] at *
    simp only [List.length_append, List.length_singleton]
    exact s4

theorem holds_state (self : TinyLink) (u : List Nat) (p : Bool) (h : Holds self u p) :
    self.state = WAITING_FOR_HEADER ∨ self.state = WAITING_FOR_BODY := by
  rcases h.2.2.2.2 with ⟨a, -⟩ | ⟨a, -⟩
  · exact Or.inl a
  · exact Or.inr a

/-- One call on a decoder that holds the bytes `u`, without a reset. -/
theorem holds_step (self : TinyLink) (frame : frame_t) (u : List Nat) (p : Bool) (b : Nat)
    (hb : b < 256) (h : Holds self u p)
    (hns : (readFrame self (b : Int) frame).self.state ≠ WAITING_FOR_PREAMBLE) :
    Holds (readFrame self (b : Int) frame).self (u ++ unstuffFrom p [b])
      (escapePending p [b]) := by
  have hbound := holds_bound self u p h
  have hs := holds_state self u p h
  cases p with
  | false =>
    by_cases hesc : b = 0x1B
    · subst hesc
      obtain ⟨hu, hi, hc, -, hst⟩ := h
      simp only [Bool.false_eq_true, if_false, Nat.add_zero] at hi
      have e1 : (u.length + 1) % SIZE_T_MOD = u.length + 1 := Nat.mod_eq_of_lt (by omega)
      rw [readFrame_escape self frame hs hu]
      simp only [unstuffFrom, escapePending, if_true, List.append_nil]
      refine ⟨rfl, ?_, ?_, fun _ => ?_, ?_⟩
      · simp only [readFrame_store, hi, e1, if_true]
      · simp only [readFrame_store, hi]
        exact cells_update_keep self.buffer u _ hc
      · simp only [readFrame_store, hi]
        simp
      · simp only [readFrame_store, hi]
        rcases hst with ⟨a, b4⟩ | ⟨a, b5, b9⟩
        · exact Or.inl ⟨a, b4⟩
        · refine Or.inr ⟨a, b5, ?_⟩
          rw [headerLength_update _ _ _ (by omega)]
          exact b9
    · rw [readFrame_plain self frame b hs h.1 hb hesc] at hns ⊢
      simp only [unstuffFrom, escapePending, hesc, if_false]
      exact holds_store self frame u b h hns
  | true =>
    rw [readFrame_escaped self frame b hs h.1 hb] at hns ⊢
    simp only [unstuffFrom, escapePending]
    obtain ⟨hu, hi, hc, -, hst⟩ := h
    simp only [if_true] at hi
    have e1 : (self.index + SIZE_T_MOD - 1) % SIZE_T_MOD = u.length := by
      have : self.index + SIZE_T_MOD - 1 = u.length + SIZE_T_MOD := by omega
      rw [this, Nat.add_mod_right, Nat.mod_eq_of_lt (by omega)]
    apply holds_store _ frame u b _ hns
    refine ⟨rfl, ?_, hc, fun h => absurd h (by simp), hst⟩
    simp only [e1, Bool.false_eq_true, if_false, Nat.add_zero]

theorem unstuffFrom_cons (p : Bool) (b : Nat) (w : List Nat) :
    unstuffFrom p (b :: w) = unstuffFrom p [b] ++ unstuffFrom (escapePending p [b]) w := by
  cases p with
  | true => simp [unstuffFrom, escapePending]
  | false =>
    by_cases h : b = 0x1B
    · simp [unstuffFrom, escapePending, h]
    · simp [unstuffFrom, escapePending, h]

theorem escapePending_cons (p : Bool) (b : Nat) (w : List Nat) :
    escapePending p (b :: w) = escapePending (escapePending p [b]) w := by
  cases p with
  | true => simp [escapePending]
  | false =>
    by_cases h : b = 0x1B
    · simp [escapePending, h]
    · simp [escapePending, h]

/-- Feeding wire bytes to a decoder that holds the bytes `u`, no call resetting it. -/
theorem holds_feed (w : List Nat) :
    ∀ (self : TinyLink) (frame : frame_t) (u : List Nat) (p : Bool), Holds self u p →
      (∀ b ∈ w, b < 256) →
      (∀ k, k < w.length →
        (feedState self frame (w.take (k + 1))).1.state ≠ WAITING_FOR_PREAMBLE) →
      Holds (feedState self frame w).1 (u ++ unstuffFrom p w) (escapePending p w) := by
  induction w with
  | nil =>
    intro self frame u p h _ _
    simpa [feedState, unstuffFrom, escapePending] using h
  | cons b w ih =>
    intro self frame u p h hb hns
    have h1 := hns 0 (by simp)
    simp only [Nat.zero_add, List.take_succ_cons, List.take_zero, feedState] at h1
    have hstep := holds_step self frame u p b (hb b (List.mem_cons_self _ _)) h h1
    have := ih (readFrame self (b : Int) frame).self (readFrame self (b : Int) frame).frame
      _ _ hstep (fun x hx => hb x (List.mem_cons_of_mem _ hx)) (by
        intro k hk
        have := hns (k + 1) (by simp only [List.length_cons]; omega)
        simp only [List.take_succ_cons, feedState] at this
        exact this)
    simp only [feedState]
    rw [unstuffFrom_cons p b w, escapePending_cons p b w, ← List.append_assoc]
    exact this

theorem unstuffFrom_dropLast (w : List Nat) :
    ∀ p : Bool, escapePending p w = true → unstuffFrom p w.dropLast = unstuffFrom p w := by
  induction w with
  | nil => intro p _; rfl
  | cons b w ih =>
    intro p h
    cases w with
    | nil =>
      cases p with
      | true => simp [escapePending] at h
      | false =>
        by_cases hb : b = 0x1B
        · simp [unstuffFrom, hb]
        · simp [escapePending, hb] at h
    | cons c w =>
      rw [escapePending_cons p b (c :: w)] at h
      have := ih _ h
      rw [List.dropLast_cons₂, unstuffFrom_cons p b (c :: w).dropLast,
        unstuffFrom_cons p b (c :: w), this]

theorem escapePending_last (w : List Nat) :
    ∀ p : Bool, escapePending p w = true → w ≠ [] → w.getLast? = some 0x1B := by
  induction w with
  | nil => intro p _ h; exact absurd rfl h
  | cons b w ih =>
    intro p h _
    cases w with
    | nil =>
      cases p with
      | true => simp [escapePending] at h
      | false =>
        by_cases hb : b = 0x1B
        · simp [hb]
        · simp [escapePending, hb] at h
    | cons c w =>
      rw [escapePending_cons p b (c :: w)] at h
      have := ih _ h (by simp)
      rw [List.getLast?_cons_cons]
      exact this

/-- The last call of a non-empty feed that leaves an escape pending returned false. -/
theorem feed_pending_last (w : List Nat) (self : TinyLink) (frame : frame_t) (hw : w ≠ [])
    (h : (feedState self frame w).1.unescaping = true) :
    (feedOut self frame w).getLast? = some none := by
  obtain ⟨w1, b, rfl⟩ : ∃ w1 b, w = w1 ++ [b] :=
    ⟨w.dropLast, w.getLast hw, (List.dropLast_append_getLast hw).symm⟩
  rw [feedState_append] at h
  simp only [feedState] at h
  rw [feedOut_append]
  simp only [feedOut, pending_ret_false _ _ _ h, Bool.false_eq_true, if_false]
  simp

/-! ## Seeking the preamble at any capacity -/

theorem scanning_step (self : TinyLink) (frame : frame_t) (recent : List Nat) (b : Nat)
    (hS : Scanning self recent) (hr : ∀ x ∈ recent, x < 256) (hb : b < 256)
    (hbound : recent.length + 1 < SIZE_T_MOD) :
    (readFrame self (b : Int) frame).ret = false
      ∧ (readFrame self (b : Int) frame).frame = frame
      ∧ (readFrame self (b : Int) frame).self.length = self.length
      ∧ (synced (b :: recent) →
          (readFrame self (b : Int) frame).self.state = WAITING_FOR_HEADER
            ∧ (readFrame self (b : Int) frame).self.index = 0
            ∧ (readFrame self (b : Int) frame).self.unescaping = false)
      ∧ (¬ synced (b :: recent) → Scanning (readFrame self (b : Int) frame).self (b :: recent)) := by
  obtain ⟨hs, hu, hle, hmin, hwin⟩ := hS
  have e1 : (self.index + 1) % SIZE_T_MOD = self.index + 1 :=
    Nat.mod_eq_of_lt (by omega)
  rw [readFrame_seeking self frame b hs hu hb]
  obtain ⟨C, buf, idx, un, st⟩ := self
  simp only at hs hu hle hmin hwin e1
  subst hs hu
  -- the window after the store
  have hwin2 : ∀ j, j < idx + 1 →
      Function.update buf idx b (idx - j) = (b :: recent).getD j 0 := by
    intro j hj
    rcases j with _ | j
    · simp
    · have hne : idx - (j + 1) ≠ idx := by omega
      have := hwin j (by omega)
      have e : idx - 1 - j = idx - (j + 1) := by omega
      rw [e] at this
      simp [Function.update, hne, this]
  by_cases h4 : idx + 1 < 4
  · -- fewer than four bytes so far
    have hn : ¬ (4 ≤ idx + 1) := by omega
    have hlen : recent.length < 3 := by omega
    have hns : ¬ synced (b :: recent) := by
      intro h
      have := congrArg List.length h
      simp at this
      omega
    have res : readFrame_switch (readFrame_store
          { length := C, buffer := buf, index := idx, unescaping := false
            state := WAITING_FOR_PREAMBLE } b) frame
        = { self := { length := C, buffer := Function.update buf idx b, index := idx + 1
                      unescaping := false, state := WAITING_FOR_PREAMBLE }
            frame := frame, ret := false } := by
      simp [readFrame_switch, readFrame_store, e1, LEN_PREAMBLE, hn]
    rw [res]
    refine ⟨rfl, rfl, rfl, fun h => absurd h hns, fun _ => ⟨rfl, rfl, ?_, ?_, ?_⟩⟩
    · simp only [List.length_cons]; omega
    · simp only [List.length_cons]; omega
    · intro j hj
      simp only at hj ⊢
      have := hwin2 j hj
      rw [show idx + 1 - 1 - j = idx - j by omega]
      exact this
  · -- the last four bytes are compared with the preamble
    have hy : 4 ≤ idx + 1 := by omega
    have hlen : 3 ≤ recent.length := by omega
    obtain ⟨r0, r1, r2, rest, rfl⟩ : ∃ r0 r1 r2 rest, recent = r0 :: r1 :: r2 :: rest := by
      rcases recent with _ | ⟨r0, _ | ⟨r1, _ | ⟨r2, rest⟩⟩⟩
      · simp at hlen
      · simp at hlen
      · simp at hlen
      · exact ⟨r0, r1, r2, rest, rfl⟩
    have hr0 : r0 < 256 := hr r0 (by simp)
    have hr1 : r1 < 256 := hr r1 (by simp)
    have hr2 : r2 < 256 := hr r2 (by simp)
    have w0 := hwin2 0 (by omega)
    have w1 := hwin2 1 (by omega)
    have w2 := hwin2 2 (by omega)
    have w3 := hwin2 3 (by omega)
    simp only [List.getD_cons_zero, List.getD_cons_succ, Nat.sub_zero] at w0 w1 w2 w3
    have p3 : shift (Function.update buf idx b) (idx + 1 - 4) 3 = b := by
      rw [← w0]; simp only [shift]; congr 1; omega
    have p2 : shift (Function.update buf idx b) (idx + 1 - 4) 2 = r0 := by
      rw [← w1]; simp only [shift]; congr 1; omega
    have p1 : shift (Function.update buf idx b) (idx + 1 - 4) 1 = r1 := by
      rw [← w2]; simp only [shift]; congr 1; omega
    have p0 : shift (Function.update buf idx b) (idx + 1 - 4) 0 = r2 := by
      rw [← w3]; simp only [shift]; congr 1
    have rd : _read_uint32_t (shift (Function.update buf idx b) (idx + 1 - 4))
        = r2 + 256 * r1 + 65536 * r0 + 16777216 * b := by
      rw [_read_uint32_t_eq _ (by omega) (by omega) (by omega) (by omega), p0, p1, p2, p3]
    have hsync : synced (b :: r0 :: r1 :: r2 :: rest)
        ↔ r2 + 256 * r1 + 65536 * r0 + 16777216 * b = PREAMBLE := by
      unfold PREAMBLE
      rw [preamble_value r2 r1 r0 b hr2 hr1 hr0]
      simp [synced]
      tauto
    have res : readFrame_switch (readFrame_store
          { length := C, buffer := buf, index := idx, unescaping := false
            state := WAITING_FOR_PREAMBLE } b) frame
        = if synced (b :: r0 :: r1 :: r2 :: rest) then
            { self := { length := C, buffer := Function.update buf idx b, index := 0
                        unescaping := false, state := WAITING_FOR_HEADER }
              frame := frame, ret := false }
          else if idx + 1 = C then
            { self := { length := C
                        buffer := memcpy_front (Function.update buf idx b) (idx + 1 - 4) 4
                        index := 4, unescaping := false, state := WAITING_FOR_PREAMBLE }
              frame := frame, ret := false }
          else
            { self := { length := C, buffer := Function.update buf idx b, index := idx + 1
                        unescaping := false, state := WAITING_FOR_PREAMBLE }
              frame := frame, ret := false } := by
      simp only [readFrame_switch, readFrame_store, e1, ge_iff_le, LEN_PREAMBLE, hy, if_true, rd,
        ← hsync]
    rw [res]
    by_cases hsy : synced (b :: r0 :: r1 :: r2 :: rest)
    · rw [if_pos hsy]
      exact ⟨rfl, rfl, rfl, fun _ => ⟨rfl, rfl, rfl⟩, fun h => absurd hsy h⟩
    · rw [if_neg hsy]
      by_cases hfull : idx + 1 = C
      · rw [if_pos hfull]
        refine ⟨rfl, rfl, rfl, fun h => absurd h hsy, fun _ => ⟨rfl, rfl, ?_, ?_, ?_⟩⟩
        · simp only [List.length_cons] at hle hmin ⊢; omega
        · simp only [List.length_cons] at hle hmin ⊢; omega
        · intro j hj
          simp only at hj ⊢
          have := hwin2 j (by omega)
          simp only [memcpy_front]
          rw [if_pos (by omega), ← this]
          congr 1
          omega
      · rw [if_neg hfull]
        refine ⟨rfl, rfl, rfl, fun h => absurd h hsy, fun _ => ⟨rfl, rfl, ?_, ?_, ?_⟩⟩
        · simp only [List.length_cons] at hle hmin ⊢; omega
        · simp only [List.length_cons] at hle hmin ⊢; omega
        · intro j hj
          simp only at hj ⊢
          have := hwin2 j hj
          rw [show idx + 1 - 1 - j = idx - j by omega]
          exact this


theorem scanning_feed (bs : List Nat) :
    ∀ (recent : List Nat) (self : TinyLink) (frame : frame_t), Scanning self recent →
      (∀ x ∈ recent, x < 256) → (∀ x ∈ bs, x < 256) →
      recent.length + bs.length < SIZE_T_MOD → noSync recent bs →
      Scanning (feedState self frame bs).1 (bs.reverse ++ recent)
        ∧ feedOut self frame bs = List.replicate bs.length none := by
  induction bs with
  | nil =>
    intro recent self frame hS _ _ _ _
    exact ⟨hS, rfl⟩
  | cons b bs ih =>
    intro recent self frame hS hr hbs hbound hn
    obtain ⟨hn1, hn2⟩ := hn
    simp only [List.length_cons] at hbound
    have hb : b < 256 := hbs b (List.mem_cons_self _ _)
    obtain ⟨s1, -, -, -, s5⟩ := scanning_step self frame recent b hS hr hb (by omega)
    have hS2 := s5 hn1
    have hr2 : ∀ x ∈ b :: recent, x < 256 := by
      intro x hx
      rcases List.mem_cons.mp hx with h | h
      · omega
      · exact hr x h
    obtain ⟨i1, i4⟩ := ih (b :: recent) _ (readFrame self (b : Int) frame).frame hS2 hr2
      (fun x hx => hbs x (List.mem_cons_of_mem _ hx))
      (by simp only [List.length_cons]; omega) hn2
    refine ⟨?_, ?_⟩
    · simp only [feedState, List.reverse_cons, List.append_assoc, List.singleton_append]
      exact i1
    · simp only [feedOut, s1, Bool.false_eq_true, if_false, List.length_cons,
        List.replicate_succ]
      rw [i4]

/-- A decoder seeking the preamble with an escape pending stores bytes and returns. -/
theorem stuck_feed (bs : List Nat) :
    ∀ (self : TinyLink) (frame : frame_t), self.state = WAITING_FOR_PREAMBLE →
      self.unescaping = true →
      (feedState self frame bs).1.state = WAITING_FOR_PREAMBLE
        ∧ feedOut self frame bs = List.replicate bs.length none := by
  induction bs with
  | nil =>
    intro self frame hs _
    exact ⟨hs, rfl⟩
  | cons b bs ih =>
    intro self frame hs hu
    have e : readFrame self (b : Int) frame
        = { self := readFrame_store self ((b : Int) % 256).toNat, frame := frame, ret := false } := by
      simp [readFrame, readFrame_unescape, readFrame_store, hs, hu]
    obtain ⟨i1, i2⟩ := ih (readFrame_store self ((b : Int) % 256).toNat) frame
      (by simp only [readFrame_store]; exact hs) (by simp only [readFrame_store]; exact hu)
    simp only [feedState, feedOut, e, Bool.false_eq_true, if_false, List.length_cons,
      List.replicate_succ]
    exact ⟨i1, by rw [i2]⟩

/-! ## No bare flag byte behind the preamble -/

/-- In a stuffed sequence every byte AA is immediately preceded by a byte 1B. -/
theorem stuff_guarded (xs : List Nat) :
    ∀ j, (stuff xs)[j]? = some 0xAA → 1 ≤ j ∧ (stuff xs)[j - 1]? = some 0x1B := by
  induction xs with
  | nil =>
    intro j h
    simp [stuff] at h
  | cons x xs ih =>
    intro j h
    rw [stuff_cons] at h ⊢
    unfold stuffByte at h ⊢
    by_cases hA : x = 0xAA
    · rw [if_pos hA] at h ⊢
      rcases j with _ | _ | j
      · simp at h
      · simp
      · simp only [List.cons_append, List.nil_append, List.getElem?_cons_succ] at h ⊢
        obtain ⟨a, b⟩ := ih j h
        refine ⟨by omega, ?_⟩
        obtain ⟨j, rfl⟩ : ∃ i, j = i + 1 := ⟨j - 1, by omega⟩
        simpa using b
    · rw [if_neg hA] at h ⊢
      by_cases hE : x = 0x1B
      · rw [if_pos hE] at h ⊢
        rcases j with _ | _ | j
        · simp at h
        · simp at h
        · simp only [List.cons_append, List.nil_append, List.getElem?_cons_succ] at h ⊢
          obtain ⟨a, b⟩ := ih j h
          refine ⟨by omega, ?_⟩
          obtain ⟨j, rfl⟩ : ∃ i, j = i + 1 := ⟨j - 1, by omega⟩
          simpa using b
      · rw [if_neg hE] at h ⊢
        rcases j with _ | j
        · simp at h
          exact absurd h hA
        · simp only [List.cons_append, List.nil_append, List.getElem?_cons_succ] at h ⊢
          obtain ⟨a, b⟩ := ih j h
          refine ⟨by omega, ?_⟩
          obtain ⟨j, rfl⟩ : ∃ i, j = i + 1 := ⟨j - 1, by omega⟩
          simpa using b

/-- Behind a four-byte preamble, every byte AA of a stuffed sequence is immediately
preceded by a byte 1B that is also behind the preamble. -/
theorem wire_guarded (flags : Nat) (payload : List Nat) (i : Nat) (h4 : 4 ≤ i)
    (h : (wire flags payload)[i]? = some 0xAA) :
    5 ≤ i ∧ (wire flags payload)[i - 1]? = some 0x1B := by
  unfold wire at h ⊢
  obtain ⟨j, rfl⟩ : ∃ j, i = j + 4 := ⟨i - 4, by omega⟩
  simp only [List.cons_append, List.nil_append, List.getElem?_cons_succ] at h
  obtain ⟨a, b⟩ := stuff_guarded _ j h
  refine ⟨by omega, ?_⟩
  obtain ⟨j, rfl⟩ : ∃ k, j = k + 1 := ⟨j - 1, by omega⟩
  simpa using b

/-- The preamble occurs in a wire image at offset 0 only. -/
theorem wire_preamble_once (flags : Nat) (payload : List Nat) (s t : List Nat)
    (h : wire flags payload = s ++ preambleBytes ++ t) : s = [] := by
  by_contra hs
  have hpos : 1 ≤ s.length := by
    rcases s with _ | ⟨a, s⟩
    · exact absurd rfl hs
    · simp
  have hA : (wire flags payload)[s.length + 3]? = some 0xAA := by
    rw [h, List.append_assoc, List.getElem?_append_right (by omega)]
    simp [preambleBytes]
  have h5 : (wire flags payload)[s.length + 2]? = some 0x55 := by
    rw [h, List.append_assoc, List.getElem?_append_right (by omega)]
    simp [preambleBytes]
  obtain ⟨-, b⟩ := wire_guarded flags payload (s.length + 3) (by omega) hA
  rw [show s.length + 3 - 1 = s.length + 2 by omega, h5] at b
  simp at b

theorem stuff_length_le (xs : List Nat) : (stuff xs).length ≤ 2 * xs.length := by
  induction xs with
  | nil => simp [stuff]
  | cons x xs ih =>
    rw [stuff_cons, List.length_append, List.length_cons]
    have : (stuffByte x).length ≤ 2 := by
      unfold stuffByte
      split_ifs <;> simp
    omega

theorem wire_lt (flags : Nat) (payload : List Nat) (h : ∀ b ∈ payload, b < 256) :
    ∀ b ∈ wire flags payload, b < 256 := by
  intro b hb
  unfold wire at hb
  rcases List.mem_append.mp hb with h1 | h1
  · simp at h1
    omega
  · refine stuff_lt _ ?_ b h1
    intro x hx
    rcases List.mem_append.mp hx with h2 | h2
    · rcases List.mem_append.mp h2 with h3 | h3
      · exact headerBytes_lt _ _ x h3
      · exact h x h3
    · exact LE32_lt _ x h2

theorem wire_length_le (flags : Nat) (payload : List Nat) :
    (wire flags payload).length ≤ 22 + 2 * payload.length := by
  unfold wire
  have := stuff_length_le (headerBytes flags payload.length ++ payload ++
    LE32 (crc32 (crc32 0 (headerBytes flags payload.length)) payload))
  simp only [List.length_append, List.length_cons, List.length_nil, headerBytes, LE32] at this ⊢
  omega

/-- A decoder seeking the preamble with cursor 0 that receives a part of a wire image
starting behind its first byte stays seeking. -/
theorem scan_inside_wire (self : TinyLink) (frame : frame_t) (flags : Nat) (payload : List Nat)
    (k m : Nat) (hs : self.state = WAITING_FOR_PREAMBLE) (hi : self.index = 0)
    (hbytes : ∀ b ∈ payload, b < 256) (hlen : payload.length < 65536) (hk : 1 ≤ k) :
    (feedState self frame (((wire flags payload).drop k).take m)).1.state
        = WAITING_FOR_PREAMBLE
      ∧ feedOut self frame (((wire flags payload).drop k).take m)
        = List.replicate (((wire flags payload).drop k).take m).length none := by
  cases hu : self.unescaping with
  | true => exact stuck_feed _ self frame hs hu
  | false =>
    have hS : Scanning self [] := ⟨hs, hu, by simp [hi], by simp, fun j hj => by omega⟩
    have hseg : ∀ x ∈ ((wire flags payload).drop k).take m, x < 256 := fun x hx =>
      wire_lt flags payload hbytes x (List.mem_of_mem_drop (List.mem_of_mem_take hx))
    have hl : (((wire flags payload).drop k).take m).length ≤ 22 + 2 * payload.length := by
      have := wire_length_le flags payload
      simp only [List.length_take, List.length_drop]
      omega
    have hno : noSync [] (((wire flags payload).drop k).take m) := by
      apply noSync_of_no_preamble
      rintro ⟨s, t, hst⟩
      simp only [List.reverse_nil, List.nil_append] at hst
      have e : wire flags payload
          = ((wire flags payload).take k ++ s) ++ preambleBytes
              ++ (t ++ (((wire flags payload).drop k).drop m)) := by
        conv_lhs => rw [← List.take_append_drop k (wire flags payload),
          ← List.take_append_drop m ((wire flags payload).drop k), ← hst]
        simp only [List.append_assoc]
      have h0 := wire_preamble_once flags payload _ _ e
      have h1 : (wire flags payload).take k = [] := (List.append_eq_nil.mp h0).1
      have h2 : (wire flags payload).take k ≠ [] := by
        obtain ⟨j, rfl⟩ : ∃ j, k = j + 1 := ⟨k - 1, by omega⟩
        simp [wire]
      exact h2 h1
    obtain ⟨a, b⟩ := scanning_feed _ [] self frame hS (by simp) hseg
      (by simp only [List.length_nil, SIZE_T_MOD]; omega) hno
    exact ⟨a.1, b⟩

/-! ## Five header bytes, whatever they are -/

/-- The decoder that has entered WAITING_FOR_HEADER and receives five bytes, stuffed:
no call returns a frame, and the header decision is taken on these bytes. -/
theorem header_bytes_feed (C : Nat) (buf : Nat → Nat) (frame : frame_t) (a b c d e : Nat)
    (ha : a < 256) (hb : b < 256) (hc : c < 256) (hd : d < 256) (he : e < 256) :
    feedState { length := C, buffer := buf, index := 0, unescaping := false
                state := WAITING_FOR_HEADER } frame (stuff [a, b, c, d, e])
        = (if e = checksumHeader (a + 256 * b) (c + 256 * d) ∧ c + 256 * d + 10 ≤ C then
            { length := C, buffer := blit buf 0 [a, b, c, d, e], index := 5, unescaping := false
              state := WAITING_FOR_BODY }
          else
            { length := C, buffer := blit buf 0 [a, b, c, d, e], index := 0, unescaping := false
              state := WAITING_FOR_PREAMBLE }, frame)
      ∧ feedOut { length := C, buffer := buf, index := 0, unescaping := false
                  state := WAITING_FOR_HEADER } frame (stuff [a, b, c, d, e])
        = List.replicate (stuff [a, b, c, d, e]).length none := by
  have q1 : Quiet { length := C, buffer := buf, index := 0, unescaping := false
                    state := WAITING_FOR_HEADER } [a, b, c, d].length := by
    unfold Quiet
    simp
  obtain ⟨s1, o1⟩ := feed_last [a, b, c, d] e _ frame q1
    (fun x hx => by
      simp only [List.mem_cons, List.mem_singleton, List.not_mem_nil, or_false] at hx
      rcases hx with h | h | h | h <;> omega) he
  have hsplit : [a, b, c, d] ++ [e] = [a, b, c, d, e] := rfl
  rw [hsplit] at s1 o1
  have b0 : blit buf 0 [a, b, c, d, e] 0 = a := by simp [blit]
  have b1 : blit buf 0 [a, b, c, d, e] 1 = b := by simp [blit]
  have b2 : blit buf 0 [a, b, c, d, e] 2 = c := by simp [blit]
  have b3 : blit buf 0 [a, b, c, d, e] 3 = d := by simp [blit]
  have b4 : blit buf 0 [a, b, c, d, e] 4 = e := by simp [blit]
  have hb5 : ∀ i, i < 5 → blit buf 0 [a, b, c, d, e] i < 256 := by
    intro i hi
    have : i = 0 ∨ i = 1 ∨ i = 2 ∨ i = 3 ∨ i = 4 := by omega
    rcases this with h | h | h | h | h <;> subst h
    · rw [b0]; omega
    · rw [b1]; omega
    · rw [b2]; omega
    · rw [b3]; omega
    · rw [b4]; omega
  have sw := header_switch
    { length := C, buffer := blit buf 0 [a, b, c, d, e], index := 0 + [a, b, c, d].length + 1
      unescaping := false, state := WAITING_FOR_HEADER } frame rfl rfl hb5
  simp only [b0, b1, b2, b3, b4] at sw
  have h1 : 1 ≤ (stuff [a, b, c, d, e]).length := by
    rw [← hsplit, stuff_append, stuff_singleton, List.length_append]
    have := stuffByte_length_pos e
    omega
  have hrep : List.replicate ((stuff [a, b, c, d, e]).length - 1) none
        ++ [(none : Option (Nat × Nat × List Nat))]
      = List.replicate (stuff [a, b, c, d, e]).length none := by
    rw [show ([none] : List (Option (Nat × Nat × List Nat))) = List.replicate 1 none from rfl,
      ← List.replicate_add]
    congr 1
    omega
  rw [sw] at s1 o1
  by_cases hacc : e = checksumHeader (a + 256 * b) (c + 256 * d) ∧ c + 256 * d + 10 ≤ C
  · rw [if_pos hacc] at s1 o1 ⊢
    simp only [Bool.false_eq_true, if_false] at s1 o1
    exact ⟨s1, by rw [o1, hrep]⟩
  · rw [if_neg hacc] at s1 o1 ⊢
    simp only [Bool.false_eq_true, if_false] at s1 o1
    exact ⟨s1, by rw [o1, hrep]⟩

/-- A decoder seeking the preamble with cursor 0 that receives stuffed bytes stays
seeking and returns no frame. -/
theorem seek_through_stuffed (self : TinyLink) (frame : frame_t) (xs : List Nat)
    (hs : self.state = WAITING_FOR_PREAMBLE) (hi : self.index = 0)
    (hu : self.unescaping = false) (h5 : 5 ≤ self.length) (hC : self.length < 65536)
    (hx : ∀ x ∈ xs, x < 256) :
    (feedState self frame (stuff xs)).1.state = WAITING_FOR_PREAMBLE
      ∧ feedOut self frame (stuff xs) = List.replicate (stuff xs).length none := by
  obtain ⟨a1, -, -, a4⟩ := seeking_feed (stuff xs) [] self frame
    (seeking_fresh self hs hi hu (by omega)) (by simp) (stuff_lt xs hx) hC h5
    (noSync_stuff xs [])
  exact ⟨a1.1, a4⟩

/-! ## The checksum update is injective -/

theorem round_lt (x : Nat) (hx : x < 2 ^ 32) : bitSerialRound x < 2 ^ 32 := by
  have := CRC32Value_loop_lt 1 x hx
  rw [loop_eq_iterate] at this
  exact this

theorem iterate_lt (n : Nat) : ∀ x, x < 2 ^ 32 → bitSerialRound^[n] x < 2 ^ 32 := by
  intro x hx
  have := CRC32Value_loop_lt n x hx
  rw [loop_eq_iterate] at this
  exact this

theorem xor_eq_zero_imp (a b : Nat) (h : a ^^^ b = 0) : a = b := by
  have := congrArg (fun t => t ^^^ b) h
  simp only [Nat.xor_assoc, Nat.xor_self, Nat.xor_zero, Nat.zero_xor] at this
  exact this

/-- Only the zero register is sent to zero by a round. -/
theorem round_zero (x : Nat) (hx : x < 2 ^ 32) (h : bitSerialRound x = 0) : x = 0 := by
  unfold bitSerialRound at h
  rw [Nat.shiftRight_eq_div_pow] at h
  by_cases hodd : x % 2 = 1
  · rw [if_pos hodd] at h
    have := xor_eq_zero_imp _ _ h
    omega
  · rw [if_neg hodd] at h
    omega

theorem iterate_zero (n : Nat) : ∀ x, x < 2 ^ 32 → bitSerialRound^[n] x = 0 → x = 0 := by
  induction n with
  | zero => intro x _ h; exact h
  | succ n ih =>
    intro x hx h
    rw [Function.iterate_succ_apply] at h
    exact round_zero x hx (ih _ (round_lt x hx) h)

theorem iterate_inj (n x y : Nat) (hx : x < 2 ^ 32) (hy : y < 2 ^ 32)
    (h : bitSerialRound^[n] x = bitSerialRound^[n] y) : x = y := by
  apply xor_eq_zero_imp
  apply iterate_zero n _ (Nat.xor_lt_two_pow hx hy)
  rw [iterate_xor, h, Nat.xor_self]

theorem byte_lt_reg (b : Nat) (hb : b < 256) : b < 2 ^ 32 := by omega

/-- For a fixed byte, the update is injective in the register. -/
theorem CRC32Value_inj_register (r s b : Nat) (hr : r < 2 ^ 32) (hs : s < 2 ^ 32)
    (hb : b < 256) (h : CRC32Value r b = CRC32Value s b) : r = s := by
  rw [CRC32Value_eq_bitSerial r b hr hb, CRC32Value_eq_bitSerial s b hs hb] at h
  unfold bitSerialUpdate at h
  have := iterate_inj 8 _ _ (Nat.xor_lt_two_pow hr (byte_lt_reg b hb))
    (Nat.xor_lt_two_pow hs (byte_lt_reg b hb)) h
  exact Nat.xor_left_inj.mp this

/-- For a fixed register, the update is injective in the byte. -/
theorem CRC32Value_inj_byte (r b c : Nat) (hr : r < 2 ^ 32) (hb : b < 256) (hc : c < 256)
    (h : CRC32Value r b = CRC32Value r c) : b = c := by
  rw [CRC32Value_eq_bitSerial r b hr hb, CRC32Value_eq_bitSerial r c hr hc] at h
  unfold bitSerialUpdate at h
  have := iterate_inj 8 _ _ (Nat.xor_lt_two_pow hr (byte_lt_reg b hb))
    (Nat.xor_lt_two_pow hr (byte_lt_reg c hc)) h
  exact Nat.xor_right_inj.mp this

/-- Over a fixed byte sequence, the checksum is injective in the seed. -/
theorem crc32_inj_seed (S : List Nat) :
    ∀ r s, r < 2 ^ 32 → s < 2 ^ 32 → (∀ b ∈ S, b < 256) → crc32 r S = crc32 s S → r = s := by
  induction S with
  | nil => intro r s _ _ _ h; exact h
  | cons b S ih =>
    intro r s hr hs hS h
    have hb : b < 256 := hS b (List.mem_cons_self _ _)
    have h2 : crc32 (CRC32Value r b) S = crc32 (CRC32Value s b) S := h
    exact CRC32Value_inj_register r s b hr hs hb
      (ih _ _ (CRC32Value_lt r b) (CRC32Value_lt s b)
        (fun x hx => hS x (List.mem_cons_of_mem _ hx)) h2)

theorem eq_of_getD (A : List Nat) :
    ∀ B : List Nat, A.length = B.length → (∀ j, j < A.length → A.getD j 0 = B.getD j 0) →
      A = B := by
  induction A with
  | nil =>
    intro B hl _
    cases B with
    | nil => rfl
    | cons y ys => simp at hl
  | cons x xs ih =>
    intro B hl h
    cases B with
    | nil => simp at hl
    | cons y ys =>
      have h0 := h 0 (by simp)
      simp only [List.getD_cons_zero] at h0
      have := ih ys (by simpa using hl) (fun j hj => by
        have := h (j + 1) (by simp only [List.length_cons]; omega)
        simpa using this)
      rw [h0, this]

/-- Two byte sequences of equal length that differ in exactly one position have
different checksums under every 32-bit seed. -/
theorem crc32_differ (A : List Nat) :
    ∀ (B : List Nat) (seed i : Nat), seed < 2 ^ 32 → A.length = B.length →
      (∀ b ∈ A, b < 256) → (∀ b ∈ B, b < 256) → i < A.length → A.getD i 0 ≠ B.getD i 0 →
      (∀ j, j < A.length → j ≠ i → A.getD j 0 = B.getD j 0) → crc32 seed A ≠ crc32 seed B := by
  induction A with
  | nil => intro B seed i _ _ _ _ hi; simp at hi
  | cons x xs ih =>
    intro B seed i hseed hl hA hB hi hne hrest
    cases B with
    | nil => simp at hl
    | cons y ys =>
      have hx : x < 256 := hA x (List.mem_cons_self _ _)
      have hy : y < 256 := hB y (List.mem_cons_self _ _)
      have hxs : ∀ b ∈ xs, b < 256 := fun b hb => hA b (List.mem_cons_of_mem _ hb)
      have hys : ∀ b ∈ ys, b < 256 := fun b hb => hB b (List.mem_cons_of_mem _ hb)
      have hl2 : xs.length = ys.length := by simpa using hl
      show crc32 (CRC32Value seed x) xs ≠ crc32 (CRC32Value seed y) ys
      cases i with
      | zero =>
        simp only [List.getD_cons_zero] at hne
        have hxy : xs = ys := eq_of_getD xs ys hl2 (fun j hj => by
          have := hrest (j + 1) (by simp only [List.length_cons]; omega) (by omega)
          simpa using this)
        rw [← hxy]
        intro h
        have := crc32_inj_seed xs _ _ (CRC32Value_lt seed x) (CRC32Value_lt seed y) hxs h
        exact hne (CRC32Value_inj_byte seed x y hseed hx hy this)
      | succ i =>
        have h0 := hrest 0 (by simp) (by omega)
        simp only [List.getD_cons_zero] at h0
        rw [← h0]
        apply ih ys (CRC32Value seed x) i (CRC32Value_lt seed x) hl2 hxs hys
          (by simpa using hi) (by simpa using hne)
        intro j hj hji
        have := hrest (j + 1) (by simp only [List.length_cons]; omega) (by omega)
        simpa using this

/-! ## A body whose CRC field does not match -/

/-- The decoder that has accepted the header `a b c d e` and receives, stuffed, the
payload it announces and a CRC field that is not the checksum of header and payload:
no call returns a frame and the decoder is back to seeking. -/
theorem body_bytes_reject (C : Nat) (buf : Nat → Nat) (frame : frame_t) (a b c d e : Nat)
    (P : List Nat) (v : Nat) (hc : c < 256) (hd : d < 256)
    (hP : ∀ x ∈ P, x < 256) (hL : c + 256 * d = P.length) (hv : v < 2 ^ 32)
    (hne : v ≠ crc32 (crc32 0 [a, b, c, d, e]) P) :
    ∃ buf2 : Nat → Nat,
      feedState { length := C, buffer := blit buf 0 [a, b, c, d, e], index := 5
                  unescaping := false, state := WAITING_FOR_BODY } frame (stuff (P ++ LE32 v))
        = ({ length := C, buffer := buf2, index := 0, unescaping := false
             state := WAITING_FOR_PREAMBLE }, frame)
      ∧ feedOut { length := C, buffer := blit buf 0 [a, b, c, d, e], index := 5
                  unescaping := false, state := WAITING_FOR_BODY } frame (stuff (P ++ LE32 v))
        = List.replicate (stuff (P ++ LE32 v)).length none := by
  have hK : LE32 v = [v % 256, v / 256 % 256, v / 65536 % 256] ++ [v / 16777216 % 256] := rfl
  have hKlt := LE32_lt v
  have b2 : blit buf 0 [a, b, c, d, e] 2 = c := by simp [blit]
  have b3 : blit buf 0 [a, b, c, d, e] 3 = d := by simp [blit]
  have hlen2 : headerLength (blit buf 0 [a, b, c, d, e]) = P.length := by
    unfold headerLength
    rw [_read_uint16_t_eq _ (by simp only [shift]; rw [b2]; exact hc)
      (by simp only [shift]; rw [b3]; exact hd)]
    simp only [shift, b2, b3]
    exact hL
  have q2 : Quiet { length := C, buffer := blit buf 0 [a, b, c, d, e], index := 5
                    unescaping := false, state := WAITING_FOR_BODY }
      (P ++ [v % 256, v / 256 % 256, v / 65536 % 256]).length := by
    unfold Quiet
    simp only [hlen2, List.length_append, List.length_cons, List.length_nil]
    refine ⟨trivial, Or.inr ⟨trivial, ?_, ?_⟩⟩ <;> omega
  obtain ⟨s2, o2⟩ := feed_last (P ++ [v % 256, v / 256 % 256, v / 65536 % 256])
    (v / 16777216 % 256) _ frame q2
    (fun x hx => by
      rcases List.mem_append.mp hx with h | h
      · exact hP x h
      · exact hKlt x (by rw [hK]; exact List.mem_append_left _ h))
    (hKlt _ (by rw [hK]; simp))
  simp only [List.append_assoc, ← hK] at s2 o2
  have hB : blit (blit buf 0 [a, b, c, d, e]) 5 (P ++ LE32 v)
      = blit buf 0 ([a, b, c, d, e] ++ (P ++ LE32 v)) := blit_append buf 0 [a, b, c, d, e] _
  rw [hB] at s2 o2
  have cH : cells (blit buf 0 ([a, b, c, d, e] ++ (P ++ LE32 v))) 5 = [a, b, c, d, e] := by
    have := cells_blit buf 0 [] [a, b, c, d, e] (P ++ LE32 v)
    simpa [shift_zero] using this
  have cP : cells (shift (blit buf 0 ([a, b, c, d, e] ++ (P ++ LE32 v))) 5) P.length = P := by
    have := cells_blit buf 0 [a, b, c, d, e] P (LE32 v)
    simpa using this
  have cK : cells (shift (blit buf 0 ([a, b, c, d, e] ++ (P ++ LE32 v))) (5 + P.length)) 4
      = LE32 v := by
    have := cells_blit buf 0 ([a, b, c, d, e] ++ P) (LE32 v) []
    have e1 : 0 + ([a, b, c, d, e] ++ P).length = 5 + P.length := by
      simp only [List.length_append, List.length_cons, List.length_nil]
      omega
    have e4 : (LE32 v).length = 4 := rfl
    rw [e1, e4, List.append_nil, List.append_assoc] at this
    exact this
  have hlen3 : headerLength (blit buf 0 ([a, b, c, d, e] ++ (P ++ LE32 v))) = P.length := by
    have e := cells_five (blit buf 0 ([a, b, c, d, e] ++ (P ++ LE32 v)))
    rw [cH] at e
    simp only [List.cons.injEq, and_true] at e
    obtain ⟨-, -, e2, e3, -⟩ := e
    unfold headerLength
    have a2 : shift (blit buf 0 ([a, b, c, d, e] ++ (P ++ LE32 v))) 2 0 = c := e2.symm
    have a3 : shift (blit buf 0 ([a, b, c, d, e] ++ (P ++ LE32 v))) 2 1 = d := e3.symm
    rw [_read_uint16_t_eq _ (by omega) (by omega), a2, a3]
    exact hL
  have sw2 := body_switch
    { length := C, buffer := blit buf 0 ([a, b, c, d, e] ++ (P ++ LE32 v))
      index := 5 + (P ++ [v % 256, v / 256 % 256, v / 65536 % 256]).length + 1
      unescaping := false, state := WAITING_FOR_BODY } frame P.length rfl hlen3
    (by simp only [List.length_append, List.length_cons, List.length_nil]; omega)
  simp only [read_LE32 _ v hv cK, checksumFrame_eq, shift_zero, cH, cP] at sw2
  rw [if_neg hne] at sw2
  rw [sw2] at s2 o2
  simp only [Bool.false_eq_true, if_false] at s2 o2
  refine ⟨_, s2, ?_⟩
  rw [o2, show ([none] : List (Option (Nat × Nat × List Nat))) = List.replicate 1 none from rfl,
    ← List.replicate_add]
  congr 1
  have : 1 ≤ (stuff (P ++ LE32 v)).length := by
    rw [hK, ← List.append_assoc, stuff_append, stuff_singleton, List.length_append]
    have := stuffByte_length_pos (v / 16777216 % 256)
    omega
  omega

/-- Behind the preamble, a frame whose header and payload are altered in exactly one
byte, its CRC field being that of the unaltered frame, yields no frame. -/
theorem altered_frame_lost (C : Nat) (buf : Nat → Nat) (frame : frame_t) (flags : Nat)
    (P : List Nat) (a b c d e : Nat) (Q : List Nat) (i : Nat) (h5 : 5 ≤ C) (hC : C < 65536)
    (hP : ∀ x ∈ P, x < 256) (hPlen : P.length < 65536)
    (hX : ∀ x ∈ a :: b :: c :: d :: e :: Q, x < 256)
    (hlen : (a :: b :: c :: d :: e :: Q).length = (headerBytes flags P.length ++ P).length)
    (hi : i < (a :: b :: c :: d :: e :: Q).length)
    (hne : (a :: b :: c :: d :: e :: Q).getD i 0 ≠ (headerBytes flags P.length ++ P).getD i 0)
    (hrest : ∀ j, j < (a :: b :: c :: d :: e :: Q).length → j ≠ i →
      (a :: b :: c :: d :: e :: Q).getD j 0 = (headerBytes flags P.length ++ P).getD j 0) :
    feedOut { length := C, buffer := buf, index := 0, unescaping := false
              state := WAITING_FOR_HEADER } frame
        (stuff ((a :: b :: c :: d :: e :: Q)
          ++ LE32 (crc32 0 (headerBytes flags P.length ++ P))))
      = List.replicate (stuff ((a :: b :: c :: d :: e :: Q)
          ++ LE32 (crc32 0 (headerBytes flags P.length ++ P)))).length none := by
  have ha : a < 256 := hX a (by simp)
  have hb : b < 256 := hX b (by simp)
  have hc : c < 256 := hX c (by simp)
  have hd : d < 256 := hX d (by simp)
  have he : e < 256 := hX e (by simp)
  have hQ : ∀ x ∈ Q, x < 256 := fun x hx => hX x (by simp [hx])
  have hH : headerBytes flags P.length ++ P
      = flags % 256 :: (flags / 256 % 256) :: (P.length % 256) :: (P.length / 256 % 256)
          :: ((flags % 256) ^^^ (flags / 256 % 256) ^^^ (P.length % 256)
                ^^^ (P.length / 256 % 256)) :: P := rfl
  have hKlt := LE32_lt (crc32 0 (headerBytes flags P.length ++ P))
  have hsplit : (a :: b :: c :: d :: e :: Q) ++ LE32 (crc32 0 (headerBytes flags P.length ++ P))
      = [a, b, c, d, e] ++ (Q ++ LE32 (crc32 0 (headerBytes flags P.length ++ P))) := rfl
  obtain ⟨s1, o1⟩ := header_bytes_feed C buf frame a b c d e ha hb hc hd he
  have hrestbytes : ∀ x ∈ Q ++ LE32 (crc32 0 (headerBytes flags P.length ++ P)), x < 256 := by
    intro x hx
    rcases List.mem_append.mp hx with h | h
    · exact hQ x h
    · exact hKlt x h
  rw [hsplit, stuff_append, feedOut_append, o1, s1, List.length_append]
  simp only
  by_cases hacc : e = checksumHeader (a + 256 * b) (c + 256 * d) ∧ c + 256 * d + 10 ≤ C
  · rw [if_pos hacc]
    have hxor : e = a ^^^ b ^^^ c ^^^ d := by
      rw [← checksumHeader_of_bytes a b c d ha hb hc hd]
      exact hacc.1
    -- the altered byte is not a header byte
    have hi5 : 5 ≤ i := by
      by_contra hlt
      have h0 := hrest 0 (by simp)
      have h1 := hrest 1 (by simp)
      have h2 := hrest 2 (by simp)
      have h3 := hrest 3 (by simp)
      have h4 := hrest 4 (by simp)
      rw [hH] at h0 h1 h2 h3 h4 hne
      simp only [List.getD_cons_zero, List.getD_cons_succ] at h0 h1 h2 h3 h4
      have hcase : i = 0 ∨ i = 1 ∨ i = 2 ∨ i = 3 ∨ i = 4 := by omega
      apply header_xor_detects (flags % 256) (flags / 256 % 256) (P.length % 256)
        (P.length / 256 % 256) a b c d e _ hxor.symm
      rcases hcase with rfl | rfl | rfl | rfl | rfl
      · simp only [List.getD_cons_zero] at hne
        exact Or.inl ⟨hne, h1 (by omega), h2 (by omega), h3 (by omega), h4 (by omega)⟩
      · simp only [List.getD_cons_zero, List.getD_cons_succ] at hne
        exact Or.inr (Or.inl ⟨h0 (by omega), hne, h2 (by omega), h3 (by omega), h4 (by omega)⟩)
      · simp only [List.getD_cons_zero, List.getD_cons_succ] at hne
        exact Or.inr (Or.inr (Or.inl
          ⟨h0 (by omega), h1 (by omega), hne, h3 (by omega), h4 (by omega)⟩))
      · simp only [List.getD_cons_zero, List.getD_cons_succ] at hne
        exact Or.inr (Or.inr (Or.inr (Or.inl
          ⟨h0 (by omega), h1 (by omega), h2 (by omega), hne, h4 (by omega)⟩)))
      · simp only [List.getD_cons_zero, List.getD_cons_succ] at hne
        exact Or.inr (Or.inr (Or.inr (Or.inr
          ⟨h0 (by omega), h1 (by omega), h2 (by omega), h3 (by omega), hne⟩)))
    have h2 := hrest 2 (by simp) (by omega)
    have h3 := hrest 3 (by simp) (by omega)
    rw [hH] at h2 h3
    simp only [List.getD_cons_zero, List.getD_cons_succ] at h2 h3
    have hL : c + 256 * d = Q.length := by
      have : Q.length = P.length := by
        rw [hH] at hlen
        simpa using hlen
      rw [h2, h3, this]
      omega
    have hcrc : crc32 0 (headerBytes flags P.length ++ P)
        ≠ crc32 (crc32 0 [a, b, c, d, e]) Q := by
      rw [crc32_append]
      intro h
      refine crc32_differ (a :: b :: c :: d :: e :: Q) (headerBytes flags P.length ++ P) 0 i
        (by decide) hlen hX ?_ hi hne hrest h.symm
      intro x hx
      rcases List.mem_append.mp hx with h | h
      · exact headerBytes_lt _ _ x h
      · exact hP x h
    obtain ⟨buf2, -, o2⟩ := body_bytes_reject C buf frame a b c d e Q
      (crc32 0 (headerBytes flags P.length ++ P)) hc hd hQ hL (crc32_lt _ _ (by decide)) hcrc
    rw [o2, ← List.replicate_add]
  · rw [if_neg hacc]
    obtain ⟨-, o2⟩ := seek_through_stuffed
      { length := C, buffer := blit buf 0 [a, b, c, d, e], index := 0, unescaping := false
        state := WAITING_FOR_PREAMBLE } frame
      (Q ++ LE32 (crc32 0 (headerBytes flags P.length ++ P))) rfl rfl rfl h5 hC hrestbytes
    rw [o2, ← List.replicate_add]

/-- Behind the preamble, a frame whose length field exceeds what the decoder accepts:
the header is rejected and what follows, being stuffed, yields no frame. -/
theorem long_frame_lost (C : Nat) (buf : Nat → Nat) (frame : frame_t) (flags L : Nat)
    (xs : List Nat) (h5 : 5 ≤ C) (hC : C < 65536) (hL : L < 65536) (hlong : C < L + 10)
    (hxs : ∀ x ∈ xs, x < 256) :
    (feedState { length := C, buffer := buf, index := 0, unescaping := false
                 state := WAITING_FOR_HEADER } frame (stuff (headerBytes flags L))).1
        = { length := C, buffer := blit buf 0 (headerBytes flags L), index := 0
            unescaping := false, state := WAITING_FOR_PREAMBLE }
      ∧ feedOut { length := C, buffer := buf, index := 0, unescaping := false
                  state := WAITING_FOR_HEADER } frame (stuff (headerBytes flags L ++ xs))
        = List.replicate (stuff (headerBytes flags L ++ xs)).length none := by
  have hH : headerBytes flags L
      = [flags % 256, flags / 256 % 256, L % 256, L / 256 % 256,
          (flags % 256) ^^^ (flags / 256 % 256) ^^^ (L % 256) ^^^ (L / 256 % 256)] := rfl
  have hb := headerBytes_lt flags L
  rw [hH] at hb
  obtain ⟨s1, o1⟩ := header_bytes_feed C buf frame (flags % 256) (flags / 256 % 256) (L % 256)
    (L / 256 % 256) ((flags % 256) ^^^ (flags / 256 % 256) ^^^ (L % 256) ^^^ (L / 256 % 256))
    (hb _ (by simp)) (hb _ (by simp)) (hb _ (by simp)) (hb _ (by simp)) (hb _ (by simp))
  have hrej : ¬ ((flags % 256) ^^^ (flags / 256 % 256) ^^^ (L % 256) ^^^ (L / 256 % 256)
        = checksumHeader (flags % 256 + 256 * (flags / 256 % 256))
            (L % 256 + 256 * (L / 256 % 256))
      ∧ L % 256 + 256 * (L / 256 % 256) + 10 ≤ C) := by
    intro h
    have := h.2
    omega
  rw [if_neg hrej] at s1
  rw [hH]
  refine ⟨by rw [s1], ?_⟩
  obtain ⟨-, o2⟩ := seek_through_stuffed
    { length := C
      buffer := blit buf 0 [flags % 256, flags / 256 % 256, L % 256, L / 256 % 256,
        (flags % 256) ^^^ (flags / 256 % 256) ^^^ (L % 256) ^^^ (L / 256 % 256)]
      index := 0, unescaping := false, state := WAITING_FOR_PREAMBLE } frame xs rfl rfl rfl h5 hC
    hxs
  rw [stuff_append, feedOut_append, o1, s1, List.length_append]
  simp only
  rw [o2, ← List.replicate_add]

/-! ## The claims -/

/-- C1, round trip. Take a freshly constructed decoder and write `C` for the capacity it
holds, the value of its 16-bit member `length` (the constructor argument whenever that
is at most 65535). For every 16-bit `flags` and every payload of bytes (0xAA and 0x1B
included) with `payload.length + 10 ≤ C`, a codec of the same capacity accepts the
frame, and polling `readFrame` once per emitted byte returns false on every call but
the last and returns true on the last with the same flags, length and payload. -/
theorem C1_round_trip (_buffer _buffer2 : Nat → Nat) (_length : Nat) (frame0 : frame_t)
    (flags : Nat) (payload : List Nat) (hflags : flags < 65536)
    (hbytes : ∀ b ∈ payload, b < 256)
    (hlen : payload.length + 10 ≤ (ctor _buffer _length).length) :
    (writeFrame (ctor _buffer2 _length)
        { length := payload.length, flags := flags, payload := ptr payload } []).1 = true
      ∧ feedOut (ctor _buffer _length) frame0
          (writeFrame (ctor _buffer2 _length)
            { length := payload.length, flags := flags, payload := ptr payload } []).2
        = List.replicate ((writeFrame (ctor _buffer2 _length)
            { length := payload.length, flags := flags, payload := ptr payload } []).2.length - 1)
              none
            ++ [some (flags, payload.length, payload)] := by
  have hcap : (ctor _buffer2 _length).length = (ctor _buffer _length).length := rfl
  have hle : payload.length ≤ (ctor _buffer2 _length).length := by omega
  refine ⟨by rw [writeFrame_eq_wire _ _ [] hle], ?_⟩
  rw [emitted_eq_wire _ flags payload hle]
  obtain ⟨buf2, frame2, -, d2⟩ := decode_after_noise (ctor _buffer _length) frame0 [] flags
    payload (ctor_seeking _ _ (by omega)) (ctor_length_lt _ _) (by simp) no_preamble_in_three
    hflags hbytes hlen
  simpa using d2

/-- Witness of C1: the reference frame on a codec of capacity 64. -/
theorem C1_round_trip_witness :
    ((0x1234 : Nat) < 65536 ∧ (∀ b ∈ [0x10, 0xAA, 0x1B], b < 256)
        ∧ [0x10, 0xAA, 0x1B].length + 10 ≤ (ctor (fun _ => 0) 64).length)
      ∧ ((writeFrame (ctor (fun _ => 0) 64)
            { length := [0x10, 0xAA, 0x1B].length, flags := 0x1234
              payload := ptr [0x10, 0xAA, 0x1B] } []).1 = true
        ∧ feedOut (ctor (fun _ => 0) 64) { length := 0, flags := 0, payload := fun _ => 0 }
            (writeFrame (ctor (fun _ => 0) 64)
              { length := [0x10, 0xAA, 0x1B].length, flags := 0x1234
                payload := ptr [0x10, 0xAA, 0x1B] } []).2
          = List.replicate ((writeFrame (ctor (fun _ => 0) 64)
              { length := [0x10, 0xAA, 0x1B].length, flags := 0x1234
                payload := ptr [0x10, 0xAA, 0x1B] } []).2.length - 1) none
              ++ [some (0x1234, [0x10, 0xAA, 0x1B].length, [0x10, 0xAA, 0x1B])]) :=
  ⟨⟨by decide, by decide, by decide⟩,
    C1_round_trip (fun _ => 0) (fun _ => 0) 64 { length := 0, flags := 0, payload := fun _ => 0 }
      0x1234 [0x10, 0xAA, 0x1B] (by decide) (by decide) (by decide)⟩

/-- C2, wire format. For every codec and every frame with `length ≤ capacity`,
`writeFrame` returns true and appends to the transport exactly the raw bytes
55 AA 55 AA followed by the stuffed image of header, payload and little-endian CRC,
the header being flags-lo, flags-hi, length-lo, length-hi and their XOR, and the CRC
being `crc32 (crc32 0 header) payload`; `write` with the same flags, payload and length
does the same. -/
theorem C2_wire_format (self : TinyLink) (frame : frame_t) (stream : List Nat)
    (h : frame.length ≤ self.length) :
    writeFrame self frame stream
        = (true, stream ++ ([0x55, 0xAA, 0x55, 0xAA]
            ++ stuff (headerBytes frame.flags frame.length
              ++ cells frame.payload frame.length
              ++ LE32 (crc32 (crc32 0 (headerBytes frame.flags frame.length))
                  (cells frame.payload frame.length)))))
      ∧ write self frame.flags frame.payload frame.length stream
        = writeFrame self frame stream := by
  refine ⟨?_, rfl⟩
  rw [writeFrame_eq_wire self frame stream h]
  simp [wire, cells_length]

/-- Witness of C2: the reference frame on a codec of capacity 64. -/
theorem C2_wire_format_witness :
    (3 ≤ (ctor (fun _ => 0) 64).length)
      ∧ (writeFrame (ctor (fun _ => 0) 64)
            { length := 3, flags := 0x1234, payload := ptr [0x10, 0xAA, 0x1B] } [0x00]
          = (true, [0x00] ++ ([0x55, 0xAA, 0x55, 0xAA]
              ++ stuff (headerBytes 0x1234 3 ++ cells (ptr [0x10, 0xAA, 0x1B]) 3
                ++ LE32 (crc32 (crc32 0 (headerBytes 0x1234 3))
                    (cells (ptr [0x10, 0xAA, 0x1B]) 3)))))
        ∧ write (ctor (fun _ => 0) 64) 0x1234 (ptr [0x10, 0xAA, 0x1B]) 3 [0x00]
          = writeFrame (ctor (fun _ => 0) 64)
              { length := 3, flags := 0x1234, payload := ptr [0x10, 0xAA, 0x1B] } [0x00]) :=
  ⟨by decide,
    C2_wire_format (ctor (fun _ => 0) 64)
      { length := 3, flags := 0x1234, payload := ptr [0x10, 0xAA, 0x1B] } [0x00] (by decide)⟩

/-- C3, reference vector. On a codec of capacity 64, `writeFrame` with flags 0x1234 and
payload 10 AA 1B returns true and emits exactly the 18 bytes
55 AA 55 AA 34 12 03 00 25 10 1B AA 1B 1B 3D C3 15 22; the header checksum is 0x25 and
the frame CRC is 0x2215C33D. -/
theorem C3_reference_vector (_buffer : Nat → Nat) :
    writeFrame (ctor _buffer 64)
        { length := 3, flags := 0x1234, payload := ptr [0x10, 0xAA, 0x1B] } []
      = (true, [0x55, 0xAA, 0x55, 0xAA, 0x34, 0x12, 0x03, 0x00, 0x25, 0x10, 0x1B, 0xAA, 0x1B,
          0x1B, 0x3D, 0xC3, 0x15, 0x22])
      ∧ checksumHeader 0x1234 3 = 0x25
      ∧ CRC32 (CRC32 0 (ptr [0x34, 0x12, 0x03, 0x00, 0x25]) 5) (ptr [0x10, 0xAA, 0x1B]) 3
          = 0x2215C33D := by
  refine ⟨?_, by decide, by decide⟩
  have h : (3 : Nat) ≤ (ctor _buffer 64).length := by
    show 3 ≤ 64 % UINT16_MOD
    decide
  rw [writeFrame_eq_wire _ _ [] h]
  decide

/-- C4, at the failing input. A codec constructed over a buffer of 65536 bytes holds
capacity 0, and `writeFrame` refuses a frame of length 1 although 1 does not exceed
65536; nothing is written. -/
theorem C4_truncated_capacity :
    (ctor (fun _ => 0) 65536).length = 0
      ∧ ¬ (1 > 65536)
      ∧ writeFrame (ctor (fun _ => 0) 65536)
          { length := 1, flags := 0, payload := ptr [0] } [] = (false, []) := by
  decide

/-- C5, checksum composability. For every seed and all byte sequences `A` and `B`,
`CRC32 (CRC32 seed A) B = CRC32 seed (A ++ B)`, and the checksum of the empty sequence
is the seed. -/
theorem C5_crc_composable (seed : Nat) (A B : List Nat) :
    CRC32 (CRC32 seed (ptr A) A.length) (ptr B) B.length
        = CRC32 seed (ptr (A ++ B)) (A ++ B).length
      ∧ CRC32 seed (ptr []) ([] : List Nat).length = seed := by
  refine ⟨?_, rfl⟩
  simp only [CRC32_eq_crc32, cells_ptr, crc32_append]

/-- C6, only valid frames escape the decoder. Start a decoder of capacity `C ≥ 5` in
its initial state and feed it any bytes `pre`; whenever the next `readFrame` call (on
any byte `b`) returns true with a frame, then `length ≤ C - 10`, the payload is the
buffer from offset 5, the buffer starts with flags-lo, flags-hi, length-lo, length-hi
and the header checksum of these flags and length, and the little-endian value of the
four bytes behind the payload is `crc32 (crc32 0 buffer[0..5)) payload`. -/
theorem C6_only_valid_frames (_buffer : Nat → Nat) (_length : Nat) (frame0 : frame_t)
    (pre : List Nat) (b : Nat) (_hC : 5 ≤ (ctor _buffer _length).length)
    (hret : (readFrame (feedState (ctor _buffer _length) frame0 pre).1 (b : Int)
        (feedState (ctor _buffer _length) frame0 pre).2).ret = true) :
    ValidFrame (ctor _buffer _length).length
      (readFrame (feedState (ctor _buffer _length) frame0 pre).1 (b : Int)
        (feedState (ctor _buffer _length) frame0 pre).2).self.buffer
      (readFrame (feedState (ctor _buffer _length) frame0 pre).1 (b : Int)
        (feedState (ctor _buffer _length) frame0 pre).2).frame := by
  obtain ⟨h1, h2⟩ := feed_consistent pre (ctor _buffer _length) frame0 (consistent_ctor _ _)
  have := (step_consistent _ (feedState (ctor _buffer _length) frame0 pre).2 b h1).2.2 hret
  rw [h2] at this
  exact this

set_option maxRecDepth 100000 in
/-- Witness of C6: the last byte of the reference frame on a codec of capacity 64. -/
theorem C6_only_valid_frames_witness :
    (5 ≤ (ctor (fun _ => 0) 64).length
        ∧ (readFrame (feedState (ctor (fun _ => 0) 64)
              { length := 0, flags := 0, payload := fun _ => 0 }
              [0x55, 0xAA, 0x55, 0xAA, 0x34, 0x12, 0x03, 0x00, 0x25, 0x10, 0x1B, 0xAA, 0x1B,
                0x1B, 0x3D, 0xC3, 0x15]).1 ((0x22 : Nat) : Int)
            (feedState (ctor (fun _ => 0) 64)
              { length := 0, flags := 0, payload := fun _ => 0 }
              [0x55, 0xAA, 0x55, 0xAA, 0x34, 0x12, 0x03, 0x00, 0x25, 0x10, 0x1B, 0xAA, 0x1B,
                0x1B, 0x3D, 0xC3, 0x15]).2).ret = true)
      ∧ ValidFrame (ctor (fun _ => 0) 64).length
          (readFrame (feedState (ctor (fun _ => 0) 64)
              { length := 0, flags := 0, payload := fun _ => 0 }
              [0x55, 0xAA, 0x55, 0xAA, 0x34, 0x12, 0x03, 0x00, 0x25, 0x10, 0x1B, 0xAA, 0x1B,
                0x1B, 0x3D, 0xC3, 0x15]).1 ((0x22 : Nat) : Int)
            (feedState (ctor (fun _ => 0) 64)
              { length := 0, flags := 0, payload := fun _ => 0 }
              [0x55, 0xAA, 0x55, 0xAA, 0x34, 0x12, 0x03, 0x00, 0x25, 0x10, 0x1B, 0xAA, 0x1B,
                0x1B, 0x3D, 0xC3, 0x15]).2).self.buffer
          (readFrame (feedState (ctor (fun _ => 0) 64)
              { length := 0, flags := 0, payload := fun _ => 0 }
              [0x55, 0xAA, 0x55, 0xAA, 0x34, 0x12, 0x03, 0x00, 0x25, 0x10, 0x1B, 0xAA, 0x1B,
                0x1B, 0x3D, 0xC3, 0x15]).1 ((0x22 : Nat) : Int)
            (feedState (ctor (fun _ => 0) 64)
              { length := 0, flags := 0, payload := fun _ => 0 }
              [0x55, 0xAA, 0x55, 0xAA, 0x34, 0x12, 0x03, 0x00, 0x25, 0x10, 0x1B, 0xAA, 0x1B,
                0x1B, 0x3D, 0xC3, 0x15]).2).frame :=
  ⟨⟨by decide, by decide⟩,
    C6_only_valid_frames (fun _ => 0) 64 { length := 0, flags := 0, payload := fun _ => 0 }
      [0x55, 0xAA, 0x55, 0xAA, 0x34, 0x12, 0x03, 0x00, 0x25, 0x10, 0x1B, 0xAA, 0x1B, 0x1B, 0x3D,
        0xC3, 0x15] 0x22 (by decide) (by decide)⟩

/-- C7, header checksum rejection. For every frame with `payload.length + 10 ≤ C` and
every byte `c` other than its header checksum: the encoding `writeFrame` emits is the
wire image whose fifth logical header byte is the header checksum; when that byte is
replaced by `c` (stuffed by the same rule), a fresh decoder returns false on every
call, is in WAITING_FOR_PREAMBLE with cursor 0 right after the fifth logical header
byte, and is in WAITING_FOR_PREAMBLE after the last byte. -/
theorem C7_header_checksum_rejection (_buffer _buffer2 : Nat → Nat) (_length : Nat)
    (frame0 : frame_t) (flags : Nat) (payload : List Nat) (c : Nat) (hflags : flags < 65536)
    (hbytes : ∀ b ∈ payload, b < 256)
    (hlen : payload.length + 10 ≤ (ctor _buffer _length).length)
    (hc : c < 256) (hne : c ≠ checksumHeader flags payload.length) :
    (writeFrame (ctor _buffer2 _length)
        { length := payload.length, flags := flags, payload := ptr payload } []).2
        = wireHeadWith flags payload (checksumHeader flags payload.length)
            ++ wireBody flags payload
      ∧ feedOut (ctor _buffer _length) frame0
          (wireHeadWith flags payload c ++ wireBody flags payload)
        = List.replicate (wireHeadWith flags payload c ++ wireBody flags payload).length none
      ∧ (feedState (ctor _buffer _length) frame0 (wireHeadWith flags payload c)).1.state
        = WAITING_FOR_PREAMBLE
      ∧ (feedState (ctor _buffer _length) frame0 (wireHeadWith flags payload c)).1.index = 0
      ∧ (feedState (ctor _buffer _length) frame0
          (wireHeadWith flags payload c ++ wireBody flags payload)).1.state
        = WAITING_FOR_PREAMBLE := by
  have hcap : (ctor _buffer2 _length).length = (ctor _buffer _length).length := rfl
  have hC := ctor_length_lt _buffer _length
  have hle : payload.length ≤ (ctor _buffer2 _length).length := by omega
  -- the encoding
  have henc : wire flags payload
      = wireHeadWith flags payload (checksumHeader flags payload.length)
          ++ wireBody flags payload := by
    simp [wire, wireHeadWith, wireBody, preambleBytes, headerBytes, checksumHeader_eq, stuff]
  -- preamble, then the corrupted header
  obtain ⟨buf1, s1, o1⟩ := sync_after_noise (ctor _buffer _length) frame0 []
    (ctor_seeking _ _ (by omega)) hC (by omega) (by simp) no_preamble_in_three
  simp only [List.nil_append] at s1 o1
  obtain ⟨buf2, s2, o2⟩ := reject_stuffed_header (ctor _buffer _length).length buf1 frame0 flags
    payload.length c hflags (by omega) hc hne
  have sH : feedState (ctor _buffer _length) frame0 (wireHeadWith flags payload c)
      = ({ length := (ctor _buffer _length).length, buffer := buf2, index := 0
           unescaping := false, state := WAITING_FOR_PREAMBLE }, frame0) := by
    unfold wireHeadWith
    rw [feedState_append, s1]
    exact s2
  have oH : feedOut (ctor _buffer _length) frame0 (wireHeadWith flags payload c)
      = List.replicate (wireHeadWith flags payload c).length none := by
    unfold wireHeadWith
    rw [feedOut_append, s1, o1]
    simp only
    rw [o2, ← List.replicate_add, List.length_append]
  -- the rest of the frame is searched for a preamble
  have hS2 : Seeking { length := (ctor _buffer _length).length, buffer := buf2, index := 0
                       unescaping := false, state := WAITING_FOR_PREAMBLE } [] :=
    seeking_fresh _ rfl rfl rfl (by simp only; omega)
  have hbody : ∀ y ∈ wireBody flags payload, y < 256 := by
    apply stuff_lt
    intro x hx
    rcases List.mem_append.mp hx with h | h
    · exact hbytes x h
    · exact LE32_lt _ x h
  obtain ⟨a1, -, -, a4⟩ := seeking_feed (wireBody flags payload) [] _ frame0 hS2 (by simp)
    hbody hC (by simp only; omega) (noSync_stuff _ _)
  refine ⟨?_, ?_, ?_, ?_, ?_⟩
  · rw [emitted_eq_wire _ flags payload hle, henc]
  · rw [feedOut_append, oH, sH]
    simp only
    rw [a4, ← List.replicate_add, List.length_append]
  · rw [sH]
  · rw [sH]
  · rw [feedState_append, sH]
    exact a1.1

/-- Witness of C7: the unit-test scenario, checksum byte 0xFF instead of 0x25. -/
theorem C7_header_checksum_rejection_witness :
    ((0x1234 : Nat) < 65536 ∧ (∀ b ∈ [0x10, 0xAA, 0x1B], b < 256)
        ∧ [0x10, 0xAA, 0x1B].length + 10 ≤ (ctor (fun _ => 0) 64).length
        ∧ (0xFF : Nat) < 256 ∧ 0xFF ≠ checksumHeader 0x1234 [0x10, 0xAA, 0x1B].length)
      ∧ ((writeFrame (ctor (fun _ => 0) 64)
            { length := [0x10, 0xAA, 0x1B].length, flags := 0x1234
              payload := ptr [0x10, 0xAA, 0x1B] } []).2
          = wireHeadWith 0x1234 [0x10, 0xAA, 0x1B]
              (checksumHeader 0x1234 [0x10, 0xAA, 0x1B].length)
              ++ wireBody 0x1234 [0x10, 0xAA, 0x1B]
        ∧ feedOut (ctor (fun _ => 0) 64) { length := 0, flags := 0, payload := fun _ => 0 }
            (wireHeadWith 0x1234 [0x10, 0xAA, 0x1B] 0xFF ++ wireBody 0x1234 [0x10, 0xAA, 0x1B])
          = List.replicate (wireHeadWith 0x1234 [0x10, 0xAA, 0x1B] 0xFF
              ++ wireBody 0x1234 [0x10, 0xAA, 0x1B]).length none
        ∧ (feedState (ctor (fun _ => 0) 64) { length := 0, flags := 0, payload := fun _ => 0 }
            (wireHeadWith 0x1234 [0x10, 0xAA, 0x1B] 0xFF)).1.state = WAITING_FOR_PREAMBLE
        ∧ (feedState (ctor (fun _ => 0) 64) { length := 0, flags := 0, payload := fun _ => 0 }
            (wireHeadWith 0x1234 [0x10, 0xAA, 0x1B] 0xFF)).1.index = 0
        ∧ (feedState (ctor (fun _ => 0) 64) { length := 0, flags := 0, payload := fun _ => 0 }
            (wireHeadWith 0x1234 [0x10, 0xAA, 0x1B] 0xFF
              ++ wireBody 0x1234 [0x10, 0xAA, 0x1B])).1.state = WAITING_FOR_PREAMBLE) :=
  ⟨⟨by decide, by decide, by decide, by decide, by decide⟩,
    C7_header_checksum_rejection (fun _ => 0) (fun _ => 0) 64
      { length := 0, flags := 0, payload := fun _ => 0 } 0x1234 [0x10, 0xAA, 0x1B] 0xFF
      (by decide) (by decide) (by decide) (by decide) (by decide)⟩

/-- C8, resynchronisation. Let `J` be any sequence of bytes, of any length, that ends
with 55 AA 55 AA and contains no earlier occurrence of these four consecutive bytes.
For every frame with `payload.length + 10 ≤ C`, feeding a fresh decoder `J` followed
by the stuffed header, payload and CRC of the frame yields no frame on any call but
the last and that frame on the last. -/
theorem C8_resync (_buffer _buffer2 : Nat → Nat) (_length : Nat) (frame0 : frame_t)
    (J : List Nat) (flags : Nat) (payload : List Nat) (hflags : flags < 65536)
    (hbytes : ∀ b ∈ payload, b < 256)
    (hlen : payload.length + 10 ≤ (ctor _buffer _length).length)
    (hJ : ∀ x ∈ J, x < 256) (hend : preambleBytes <:+ J)
    (hfirst : ¬ preambleBytes <:+: J.dropLast) :
    feedOut (ctor _buffer _length) frame0
        (J ++ ((writeFrame (ctor _buffer2 _length)
          { length := payload.length, flags := flags, payload := ptr payload } []).2).drop 4)
      = List.replicate ((J ++ ((writeFrame (ctor _buffer2 _length)
          { length := payload.length, flags := flags
            payload := ptr payload } []).2).drop 4).length - 1) none
          ++ [some (flags, payload.length, payload)] := by
  have hcap : (ctor _buffer2 _length).length = (ctor _buffer _length).length := rfl
  have hle : payload.length ≤ (ctor _buffer2 _length).length := by omega
  obtain ⟨J0, rfl⟩ := hend
  have e1 : (J0 ++ preambleBytes).dropLast = J0 ++ [0x55, 0xAA, 0x55] := by
    simp [preambleBytes, List.dropLast_append_cons]
  rw [e1] at hfirst
  have e2 : J0 ++ preambleBytes ++ (wire flags payload).drop 4 = J0 ++ wire flags payload := by
    simp [wire, preambleBytes]
  rw [emitted_eq_wire _ flags payload hle, e2]
  obtain ⟨buf2, frame2, -, d2⟩ := decode_after_noise (ctor _buffer _length) frame0 J0 flags
    payload (ctor_seeking _ _ (by omega)) (ctor_length_lt _ _)
    (fun x hx => hJ x (List.mem_append_left _ hx)) hfirst hflags hbytes hlen
  exact d2

/-- Witness of C8: the wrap-around scenario of the unit tests (capacity 24, 22 junk
bytes and a preamble that straddles the buffer-full boundary). -/
theorem C8_resync_witness :
    ((0x1234 : Nat) < 65536 ∧ (∀ b ∈ [0x10, 0xAA, 0x1B], b < 256)
        ∧ [0x10, 0xAA, 0x1B].length + 10 ≤ (ctor (fun _ => 0) 24).length
        ∧ (∀ x ∈ [0x00, 0x01, 0x02, 0x03, 0x04, 0x05, 0x06, 0x07, 0x08, 0x09, 0x0A, 0x0B, 0x0C,
            0x0D, 0x0E, 0x0F, 0x10, 0x11, 0x12, 0x13, 0x14, 0x15, 0x55, 0xAA, 0x55, 0xAA],
            x < 256)
        ∧ preambleBytes <:+ [0x00, 0x01, 0x02, 0x03, 0x04, 0x05, 0x06, 0x07, 0x08, 0x09, 0x0A,
            0x0B, 0x0C, 0x0D, 0x0E, 0x0F, 0x10, 0x11, 0x12, 0x13, 0x14, 0x15, 0x55, 0xAA, 0x55,
            0xAA]
        ∧ ¬ preambleBytes <:+: [0x00, 0x01, 0x02, 0x03, 0x04, 0x05, 0x06, 0x07, 0x08, 0x09,
            0x0A, 0x0B, 0x0C, 0x0D, 0x0E, 0x0F, 0x10, 0x11, 0x12, 0x13, 0x14, 0x15, 0x55, 0xAA,
            0x55, 0xAA].dropLast)
      ∧ feedOut (ctor (fun _ => 0) 24) { length := 0, flags := 0, payload := fun _ => 0 }
          ([0x00, 0x01, 0x02, 0x03, 0x04, 0x05, 0x06, 0x07, 0x08, 0x09, 0x0A, 0x0B, 0x0C, 0x0D,
              0x0E, 0x0F, 0x10, 0x11, 0x12, 0x13, 0x14, 0x15, 0x55, 0xAA, 0x55, 0xAA]
            ++ ((writeFrame (ctor (fun _ => 0) 24)
              { length := [0x10, 0xAA, 0x1B].length, flags := 0x1234
                payload := ptr [0x10, 0xAA, 0x1B] } []).2).drop 4)
        = List.replicate (([0x00, 0x01, 0x02, 0x03, 0x04, 0x05, 0x06, 0x07, 0x08, 0x09, 0x0A,
              0x0B, 0x0C, 0x0D, 0x0E, 0x0F, 0x10, 0x11, 0x12, 0x13, 0x14, 0x15, 0x55, 0xAA, 0x55,
              0xAA]
            ++ ((writeFrame (ctor (fun _ => 0) 24)
              { length := [0x10, 0xAA, 0x1B].length, flags := 0x1234
                payload := ptr [0x10, 0xAA, 0x1B] } []).2).drop 4).length - 1) none
            ++ [some (0x1234, [0x10, 0xAA, 0x1B].length, [0x10, 0xAA, 0x1B])] :=
  ⟨⟨by decide, by decide, by decide, by decide, by decide, by decide⟩,
    C8_resync (fun _ => 0) (fun _ => 0) 24 { length := 0, flags := 0, payload := fun _ => 0 }
      [0x00, 0x01, 0x02, 0x03, 0x04, 0x05, 0x06, 0x07, 0x08, 0x09, 0x0A, 0x0B, 0x0C, 0x0D, 0x0E,
        0x0F, 0x10, 0x11, 0x12, 0x13, 0x14, 0x15, 0x55, 0xAA, 0x55, 0xAA]
      0x1234 [0x10, 0xAA, 0x1B] (by decide) (by decide) (by decide) (by decide) (by decide)
      (by decide)⟩

/-- C9, convenience read. For every decoder state, value read from the transport and
destination of capacity `n`: `read` advances the decoder exactly as `readFrame`
does; it returns true exactly when that step yields a frame with `length ≤ n`; when
it returns true the first `length` destination bytes are the payload and the rest
is unchanged; when it returns false the destination is unchanged; and when a frame
was yielded with `length > n`, `read` returns false with the decoder already back
in WAITING_FOR_PREAMBLE at cursor 0. -/
theorem C9_read (self : TinyLink) (r : Int) (frame : frame_t) (dest : Nat → Nat) (n : Nat) :
    (read self r frame dest n).1 = (readFrame self r frame).self
      ∧ ((read self r frame dest n).2.2 = true
          ↔ ((readFrame self r frame).ret = true ∧ (readFrame self r frame).frame.length ≤ n))
      ∧ ((read self r frame dest n).2.2 = true →
          (∀ i, i < (readFrame self r frame).frame.length →
              (read self r frame dest n).2.1 i = (readFrame self r frame).frame.payload i)
            ∧ ∀ i, (readFrame self r frame).frame.length ≤ i →
              (read self r frame dest n).2.1 i = dest i)
      ∧ ((read self r frame dest n).2.2 = false → (read self r frame dest n).2.1 = dest)
      ∧ ((readFrame self r frame).ret = true → (readFrame self r frame).frame.length > n →
          (read self r frame dest n).2.2 = false
            ∧ (read self r frame dest n).1.state = WAITING_FOR_PREAMBLE
            ∧ (read self r frame dest n).1.index = 0) := by
  have hreset := readFrame_true_reset self r frame
  unfold read
  simp only
  by_cases h1 : (readFrame self r frame).ret = true
  · by_cases h2 : (readFrame self r frame).frame.length > n
    · have h3 : ¬ (readFrame self r frame).frame.length ≤ n := by omega
      simp [h1, h2, h3, hreset h1]
    · have h3 : (readFrame self r frame).frame.length ≤ n := by omega
      simp only [h1, h2, h3, not_true_eq_false, if_false, true_and, memcpy, true_implies,
        Bool.true_eq_false, false_implies, and_true, gt_iff_lt]
      refine ⟨?_, ?_⟩
      · intro i hi
        simp [hi]
      · intro i hi
        have : ¬ i < (readFrame self r frame).frame.length := by omega
        simp [this]
  · simp [h1]

/-- C10, frames in order. For every finite list of frames, each with
`payload.length + 10 ≤ C`, feeding a fresh decoder of capacity `C` the concatenation
of their encodings makes `readFrame` return true exactly on the last byte of each
encoding, the frames returned being those of the list, in order. -/
theorem C10_in_order (_buffer _buffer2 : Nat → Nat) (_length : Nat) (frame0 : frame_t)
    (frames : List (Nat × List Nat))
    (h : ∀ f ∈ frames, f.1 < 65536 ∧ (∀ b ∈ f.2, b < 256)
      ∧ f.2.length + 10 ≤ (ctor _buffer _length).length) :
    feedOut (ctor _buffer _length) frame0 (frames.flatMap fun f =>
        (writeFrame (ctor _buffer2 _length)
          { length := f.2.length, flags := f.1, payload := ptr f.2 } []).2)
      = frames.flatMap fun f =>
          List.replicate ((writeFrame (ctor _buffer2 _length)
              { length := f.2.length, flags := f.1, payload := ptr f.2 } []).2.length - 1) none
            ++ [some (f.1, f.2.length, f.2)] := by
  have hcap : (ctor _buffer2 _length).length = (ctor _buffer _length).length := rfl
  rcases frames with _ | ⟨f, fs⟩
  · rfl
  · have h0 := (h f (List.mem_cons_self _ _)).2.2
    exact decode_frames (ctor _buffer2 _length) (f :: fs) (ctor _buffer _length) frame0
      (ctor_seeking _ _ (by omega)) (ctor_length_lt _ _)
      (fun g hg => ⟨(h g hg).1, (h g hg).2.1, (h g hg).2.2, by have := (h g hg).2.2; omega⟩)

/-- Witness of C10: two frames, the second with an empty payload, on capacity 64. -/
theorem C10_in_order_witness :
    (∀ f ∈ [((0x1234 : Nat), [0x10, 0xAA, 0x1B]), (7, [])],
        f.1 < 65536 ∧ (∀ b ∈ f.2, b < 256)
          ∧ f.2.length + 10 ≤ (ctor (fun _ => 0) 64).length)
      ∧ feedOut (ctor (fun _ => 0) 64) { length := 0, flags := 0, payload := fun _ => 0 }
          ([((0x1234 : Nat), [0x10, 0xAA, 0x1B]), (7, [])].flatMap fun f =>
            (writeFrame (ctor (fun _ => 0) 64)
              { length := f.2.length, flags := f.1, payload := ptr f.2 } []).2)
        = [((0x1234 : Nat), [0x10, 0xAA, 0x1B]), (7, [])].flatMap fun f =>
            List.replicate ((writeFrame (ctor (fun _ => 0) 64)
                { length := f.2.length, flags := f.1, payload := ptr f.2 } []).2.length - 1) none
              ++ [some (f.1, f.2.length, f.2)] :=
  ⟨by decide,
    C10_in_order (fun _ => 0) (fun _ => 0) 64 { length := 0, flags := 0, payload := fun _ => 0 }
      [((0x1234 : Nat), [0x10, 0xAA, 0x1B]), (7, [])] (by decide)⟩

/-- C11 as stated fails at capacity 4: after five bytes 00 the cursor of a decoder of
capacity 4 is 5. The full buffer is noticed at cursor 4, where the copy of the last
four bytes leaves the cursor at 4, and the cursor then grows past the capacity. -/
theorem C11_capacity_four_counterexample :
    (ctor (fun _ => 0) 4).length = 4
      ∧ (feedState (ctor (fun _ => 0) 4) { length := 0, flags := 0, payload := fun _ => 0 }
          [0, 0, 0, 0, 0]).1.index = 5
      ∧ ¬ (feedState (ctor (fun _ => 0) 4) { length := 0, flags := 0, payload := fun _ => 0 }
          [0, 0, 0, 0, 0]).1.index ≤ (ctor (fun _ => 0) 4).length := by
  decide

/-- C11, amended: for every decoder whose capacity is at least 5, started in its
initial state, and for every sequence of input bytes, after every `readFrame` call the
cursor is at most the capacity, which is unchanged. -/
theorem C11_cursor_bound (_buffer : Nat → Nat) (_length : Nat) (frame : frame_t)
    (bs : List Nat) (h5 : 5 ≤ (ctor _buffer _length).length) :
    (feedState (ctor _buffer _length) frame bs).1.index ≤ (ctor _buffer _length).length
      ∧ (feedState (ctor _buffer _length) frame bs).1.length = (ctor _buffer _length).length := by
  obtain ⟨i1, i2⟩ := feed_in_bounds bs (ctor _buffer _length) frame
    (in_bounds_ctor _buffer _length (by omega)) h5 (ctor_length_lt _buffer _length)
  have := in_bounds_index _ i1 (by rw [i2]; exact h5)
  rw [i2] at this
  exact ⟨this, i2⟩

/-- Witness of C11: capacity 5 and six bytes 00, the cursor having wrapped to 4 and
reached 5 again. -/
theorem C11_cursor_bound_witness :
    5 ≤ (ctor (fun _ => 0) 5).length
      ∧ ((feedState (ctor (fun _ => 0) 5) { length := 0, flags := 0, payload := fun _ => 0 }
            [0, 0, 0, 0, 0, 0]).1.index ≤ (ctor (fun _ => 0) 5).length
        ∧ (feedState (ctor (fun _ => 0) 5) { length := 0, flags := 0, payload := fun _ => 0 }
            [0, 0, 0, 0, 0, 0]).1.length = (ctor (fun _ => 0) 5).length) :=
  ⟨by decide,
    C11_cursor_bound (fun _ => 0) 5 { length := 0, flags := 0, payload := fun _ => 0 }
      [0, 0, 0, 0, 0, 0] (by decide)⟩

/-- C12, single-byte corruption of the header. For all flags and length, with `H` the
four little-endian bytes of flags and length followed by `checksumHeader flags length`,
every sequence `H'` of five bytes that differs from `H` in exactly one position has the
XOR of its first four bytes different from its fifth; a decoder of any capacity that
has entered WAITING_FOR_HEADER and receives `H'` (stuffed) returns false on every call
and is back in WAITING_FOR_PREAMBLE with cursor 0 after the fifth byte. -/
theorem C12_single_byte_corruption (C : Nat) (buf : Nat → Nat) (frame : frame_t)
    (flags length : Nat) (H' : List Nat) (hlen : H'.length = 5) (hbytes : ∀ x ∈ H', x < 256)
    (hdiff : ∃ i, i < 5
      ∧ H'.getD i 0 ≠ [flags % 256, flags / 256 % 256, length % 256, length / 256 % 256,
          checksumHeader flags length].getD i 0
      ∧ ∀ j, j < 5 → j ≠ i →
          H'.getD j 0 = [flags % 256, flags / 256 % 256, length % 256, length / 256 % 256,
            checksumHeader flags length].getD j 0) :
    H'.getD 0 0 ^^^ H'.getD 1 0 ^^^ H'.getD 2 0 ^^^ H'.getD 3 0 ≠ H'.getD 4 0
      ∧ (feedState { length := C, buffer := buf, index := 0, unescaping := false
                     state := WAITING_FOR_HEADER } frame (stuff H')).1.state
          = WAITING_FOR_PREAMBLE
      ∧ (feedState { length := C, buffer := buf, index := 0, unescaping := false
                     state := WAITING_FOR_HEADER } frame (stuff H')).1.index = 0
      ∧ feedOut { length := C, buffer := buf, index := 0, unescaping := false
                  state := WAITING_FOR_HEADER } frame (stuff H')
          = List.replicate (stuff H').length none := by
  match H', hlen with
  | [a, b, c, d, e], _ =>
    have ha : a < 256 := hbytes a (by simp)
    have hb : b < 256 := hbytes b (by simp)
    have hc : c < 256 := hbytes c (by simp)
    have hd : d < 256 := hbytes d (by simp)
    have he : e < 256 := hbytes e (by simp)
    have hx : a ^^^ b ^^^ c ^^^ d ≠ e := by
      obtain ⟨i, hi, hne, hrest⟩ := hdiff
      rw [checksumHeader_eq] at hne hrest
      apply header_xor_detects (flags % 256) (flags / 256 % 256) (length % 256)
        (length / 256 % 256)
      have h0 := hrest 0 (by omega)
      have h1 := hrest 1 (by omega)
      have h2 := hrest 2 (by omega)
      have h3 := hrest 3 (by omega)
      have h4 := hrest 4 (by omega)
      have hi5 : i = 0 ∨ i = 1 ∨ i = 2 ∨ i = 3 ∨ i = 4 := by omega
      rcases hi5 with rfl | rfl | rfl | rfl | rfl
      · exact Or.inl ⟨hne, h1 (by omega), h2 (by omega), h3 (by omega), h4 (by omega)⟩
      · exact Or.inr (Or.inl ⟨h0 (by omega), hne, h2 (by omega), h3 (by omega), h4 (by omega)⟩)
      · exact Or.inr (Or.inr (Or.inl
          ⟨h0 (by omega), h1 (by omega), hne, h3 (by omega), h4 (by omega)⟩))
      · exact Or.inr (Or.inr (Or.inr (Or.inl
          ⟨h0 (by omega), h1 (by omega), h2 (by omega), hne, h4 (by omega)⟩)))
      · exact Or.inr (Or.inr (Or.inr (Or.inr
          ⟨h0 (by omega), h1 (by omega), h2 (by omega), h3 (by omega), hne⟩)))
    have hck : e ≠ checksumHeader (a + 256 * b) (c + 256 * d) := by
      rw [checksumHeader_of_bytes a b c d ha hb hc hd]
      exact fun h => hx h.symm
    have e1 : (a + 256 * b) % 256 = a := by omega
    have e2 : (a + 256 * b) / 256 % 256 = b := by omega
    have e3 : (c + 256 * d) % 256 = c := by omega
    have e4 : (c + 256 * d) / 256 % 256 = d := by omega
    have hH : (headerBytes (a + 256 * b) (c + 256 * d)).take 4 ++ [e] = [a, b, c, d, e] := by
      simp [headerBytes, e1, e2, e3, e4]
    obtain ⟨buf2, s2, o2⟩ := reject_stuffed_header C buf frame (a + 256 * b) (c + 256 * d) e
      (by omega) (by omega) he hck
    rw [hH] at s2 o2
    refine ⟨hx, ?_, ?_, o2⟩
    · rw [s2]
    · rw [s2]

/-- Witness of C12: the header 34 12 03 00 25 with its second byte replaced by 13. -/
theorem C12_single_byte_corruption_witness :
    ([0x34, 0x13, 0x03, 0x00, 0x25].length = 5 ∧ (∀ x ∈ [0x34, 0x13, 0x03, 0x00, 0x25], x < 256))
      ∧ ([0x34, 0x13, 0x03, 0x00, 0x25].getD 0 0 ^^^ [0x34, 0x13, 0x03, 0x00, 0x25].getD 1 0
            ^^^ [0x34, 0x13, 0x03, 0x00, 0x25].getD 2 0
            ^^^ [0x34, 0x13, 0x03, 0x00, 0x25].getD 3 0
          ≠ [0x34, 0x13, 0x03, 0x00, 0x25].getD 4 0
        ∧ (feedState { length := 64, buffer := fun _ => 0, index := 0, unescaping := false
                       state := WAITING_FOR_HEADER } { length := 0, flags := 0, payload := fun _ => 0 }
              (stuff [0x34, 0x13, 0x03, 0x00, 0x25])).1.state = WAITING_FOR_PREAMBLE
        ∧ (feedState { length := 64, buffer := fun _ => 0, index := 0, unescaping := false
                       state := WAITING_FOR_HEADER } { length := 0, flags := 0, payload := fun _ => 0 }
              (stuff [0x34, 0x13, 0x03, 0x00, 0x25])).1.index = 0
        ∧ feedOut { length := 64, buffer := fun _ => 0, index := 0, unescaping := false
                    state := WAITING_FOR_HEADER } { length := 0, flags := 0, payload := fun _ => 0 }
              (stuff [0x34, 0x13, 0x03, 0x00, 0x25])
            = List.replicate (stuff [0x34, 0x13, 0x03, 0x00, 0x25]).length none) :=
  ⟨⟨by decide, by decide⟩,
    C12_single_byte_corruption 64 (fun _ => 0) { length := 0, flags := 0, payload := fun _ => 0 }
      0x1234 3 [0x34, 0x13, 0x03, 0x00, 0x25] (by decide) (by decide)
      ⟨1, by decide, by decide, by decide⟩⟩

/-- C13, encode is stateless. The codec object after a `writeFrame` call, whether it
returns true or false, is the codec object before it: state, cursor, unescaping flag,
capacity and scratch buffer are unchanged, and so is the caller's frame record for
`readFrame`. Hence, the transport delivering the same values to the `readFrame` calls,
the results of the `readFrame` calls of a sequence of calls (returned value and frame
record) and the final codec object are those of the sequence with its `writeFrame`
calls removed. -/
theorem C13_encode_stateless (s : Session) (frame : frame_t) (calls : List Call) :
    (s.call (Call.writeFrame frame)).1.self = s.self
      ∧ (s.call (Call.writeFrame frame)).1.frame = s.frame
      ∧ s.readResults calls = s.readResults (calls.filter Call.isRead)
      ∧ (s.run calls).self = (s.run (calls.filter Call.isRead)).self :=
  ⟨(call_write_self s frame).1, (call_write_self s frame).2,
    (readResults_skip calls s s rfl rfl).1, (readResults_skip calls s s rfl rfl).2.1⟩

/-- C14, header decision. Take a decoder of capacity `self.length` in WAITING_FOR_HEADER
and the call that stores its fifth unescaped byte `x` (either no escape is pending, the
cursor is 4 and the byte is not the escape marker, or an escape is pending behind four
stored bytes). With flags and length read little-endian from cells 0 to 3: the byte is
stored in cell 4, cells 0 to 3 are kept; the decoder is in WAITING_FOR_BODY with cursor
5 if and only if `x = checksumHeader flags length` and `length ≤ capacity - 10` (in the
integers); otherwise it is in WAITING_FOR_PREAMBLE with cursor 0; the call returns
false; for a capacity below 10 the header is never accepted. -/
theorem C14_header_decision (self : TinyLink) (r : Int) (frame : frame_t)
    (hs : self.state = WAITING_FOR_HEADER) (hcells : ∀ i, i < 4 → self.buffer i < 256)
    (hfifth : (self.unescaping = false ∧ self.index = 4 ∧ (r % 256).toNat ≠ ESCAPE)
      ∨ (self.unescaping = true ∧ self.index = 5)) :
    (readFrame self r frame).self.buffer 4 = (r % 256).toNat
      ∧ (∀ i, i < 4 → (readFrame self r frame).self.buffer i = self.buffer i)
      ∧ (((readFrame self r frame).self.state = WAITING_FOR_BODY
            ∧ (readFrame self r frame).self.index = 5)
          ↔ ((r % 256).toNat = checksumHeader (self.buffer 0 + 256 * self.buffer 1)
                (self.buffer 2 + 256 * self.buffer 3)
              ∧ ((self.buffer 2 + 256 * self.buffer 3 : Nat) : Int) ≤ (self.length : Int) - 10))
      ∧ (¬ ((r % 256).toNat = checksumHeader (self.buffer 0 + 256 * self.buffer 1)
                (self.buffer 2 + 256 * self.buffer 3)
              ∧ ((self.buffer 2 + 256 * self.buffer 3 : Nat) : Int) ≤ (self.length : Int) - 10)
          → (readFrame self r frame).self.state = WAITING_FOR_PREAMBLE
            ∧ (readFrame self r frame).self.index = 0)
      ∧ (readFrame self r frame).ret = false
      ∧ (self.length < 10 → (readFrame self r frame).self.state = WAITING_FOR_PREAMBLE
          ∧ (readFrame self r frame).self.index = 0) := by
  have hx := byte_lt r
  have e := readFrame_stores self r frame 4 (by decide) (Or.inl hs) hfifth
  have hb : ∀ i, i < 5 → Function.update self.buffer 4 (r % 256).toNat i < 256 :=
    update_lt self.buffer 4 _ hx hcells
  have u0 : Function.update self.buffer 4 (r % 256).toNat 0 = self.buffer 0 := by simp
  have u1 : Function.update self.buffer 4 (r % 256).toNat 1 = self.buffer 1 := by simp
  have u2 : Function.update self.buffer 4 (r % 256).toNat 2 = self.buffer 2 := by simp
  have u3 : Function.update self.buffer 4 (r % 256).toNat 3 = self.buffer 3 := by simp
  have u4 : Function.update self.buffer 4 (r % 256).toNat 4 = (r % 256).toNat := by simp
  have sw := header_switch
    { self with buffer := Function.update self.buffer 4 (r % 256).toNat
                index := 4 + 1
                unescaping := false } frame hs rfl hb
  simp only [u0, u1, u2, u3, u4] at sw
  rw [e, sw]
  by_cases hc : (r % 256).toNat = checksumHeader (self.buffer 0 + 256 * self.buffer 1)
      (self.buffer 2 + 256 * self.buffer 3)
    ∧ self.buffer 2 + 256 * self.buffer 3 + 10 ≤ self.length
  · rw [if_pos hc]
    refine ⟨u4, fun i hi => by simp [Function.update, Nat.ne_of_lt hi], ?_, ?_, rfl, ?_⟩
    · constructor
      · intro _
        exact ⟨hc.1, by omega⟩
      · intro _
        exact ⟨rfl, rfl⟩
    · intro hn
      exact absurd ⟨hc.1, by omega⟩ hn
    · intro h10
      omega
  · rw [if_neg hc]
    refine ⟨u4, fun i hi => by simp [Function.update, Nat.ne_of_lt hi], ?_, ?_, rfl, ?_⟩
    · constructor
      · intro hn
        have h0 : (0 : Nat) = 5 := hn.2
        omega
      · intro hn
        exact absurd ⟨hn.1, by omega⟩ hc
    · intro _
      exact ⟨rfl, rfl⟩
    · intro _
      exact ⟨rfl, rfl⟩

/-- Witness of C14: the header 34 12 03 00 of the unit tests, followed by its checksum
25, at capacity 64, is accepted. -/
theorem C14_header_decision_witness :
    (({ length := 64, buffer := ptr [0x34, 0x12, 0x03, 0x00], index := 4, unescaping := false
        state := WAITING_FOR_HEADER } : TinyLink).state = WAITING_FOR_HEADER
        ∧ (∀ i, i < 4 → ptr [0x34, 0x12, 0x03, 0x00] i < 256))
      ∧ ((readFrame { length := 64, buffer := ptr [0x34, 0x12, 0x03, 0x00], index := 4
                      unescaping := false, state := WAITING_FOR_HEADER } 0x25
            { length := 0, flags := 0, payload := fun _ => 0 }).self.state = WAITING_FOR_BODY
        ∧ (readFrame { length := 64, buffer := ptr [0x34, 0x12, 0x03, 0x00], index := 4
                       unescaping := false, state := WAITING_FOR_HEADER } 0x25
            { length := 0, flags := 0, payload := fun _ => 0 }).self.index = 5) :=
  ⟨⟨rfl, by decide⟩,
    (C14_header_decision
      { length := 64, buffer := ptr [0x34, 0x12, 0x03, 0x00], index := 4, unescaping := false
        state := WAITING_FOR_HEADER } 0x25 { length := 0, flags := 0, payload := fun _ => 0 }
      rfl (by decide) (Or.inl ⟨rfl, rfl, by decide⟩)).2.2.1.mpr ⟨by decide, by decide⟩⟩

/-- C15, body completion. Take a decoder in WAITING_FOR_BODY whose header gives length
`L` and the call that stores the unescaped byte bringing the cursor to `5 + L + 4`
(either no escape is pending, the cursor is `8 + L` and the byte is not the escape
marker, or an escape is pending behind `8 + L` stored bytes). After the call the
decoder is in WAITING_FOR_PREAMBLE with cursor 0 and no escape pending; the call
returns true if and only if the little-endian value of cells `5 + L` to `8 + L` is
`crc32 (crc32 0 header) payload`, header being cells 0 to 4 and payload cells 5 to
`4 + L`; when it returns false the frame record of the caller is what it was, and when
it returns true the record holds the flags, `L` and the payload cells. -/
theorem C15_body_completion (self : TinyLink) (r : Int) (frame : frame_t) (L : Nat)
    (hs : self.state = WAITING_FOR_BODY) (hcells : ∀ i, i < 8 + L → self.buffer i < 256)
    (hL : self.buffer 2 + 256 * self.buffer 3 = L)
    (hlast : (self.unescaping = false ∧ self.index = 8 + L ∧ (r % 256).toNat ≠ ESCAPE)
      ∨ (self.unescaping = true ∧ self.index = 9 + L)) :
    (readFrame self r frame).self.state = WAITING_FOR_PREAMBLE
      ∧ (readFrame self r frame).self.index = 0
      ∧ (readFrame self r frame).self.unescaping = false
      ∧ (readFrame self r frame).self.buffer
          = Function.update self.buffer (8 + L) (r % 256).toNat
      ∧ ((readFrame self r frame).ret = true
          ↔ leValue (cells (shift (readFrame self r frame).self.buffer (5 + L)) 4)
              = crc32 (crc32 0 (cells (readFrame self r frame).self.buffer 5))
                  (cells (shift (readFrame self r frame).self.buffer 5) L))
      ∧ ((readFrame self r frame).ret = false → (readFrame self r frame).frame = frame)
      ∧ ((readFrame self r frame).ret = true →
          (readFrame self r frame).frame.value
            = (self.buffer 0 + 256 * self.buffer 1, L,
                cells (shift (readFrame self r frame).self.buffer 5) L)) := by
  have hx := byte_lt r
  have hL16 : L < 65536 := by
    have h2 := hcells 2 (by omega)
    have h3 := hcells 3 (by omega)
    omega
  have e := readFrame_stores self r frame (8 + L) (by simp only [SIZE_T_MOD]; omega)
    (Or.inr hs) (by
      rcases hlast with h | ⟨hu, hi⟩
      · exact Or.inl h
      · exact Or.inr ⟨hu, by omega⟩)
  have hb : ∀ i, i < 8 + L + 1 → Function.update self.buffer (8 + L) (r % 256).toNat i < 256 :=
    update_lt self.buffer (8 + L) _ hx hcells
  have hlen : headerLength (Function.update self.buffer (8 + L) (r % 256).toNat) = L := by
    rw [headerLength_update _ _ _ (by omega), headerLength_eq _ (hcells 2 (by omega))
      (hcells 3 (by omega)), hL]
  have hfl : _read_uint16_t (shift (Function.update self.buffer (8 + L) (r % 256).toNat) 0)
      = self.buffer 0 + 256 * self.buffer 1 := by
    have := headerFlags_update self.buffer (8 + L) (r % 256).toNat (by omega)
    unfold headerFlags at this
    rw [this]
    exact headerFlags_eq _ (hcells 0 (by omega)) (hcells 1 (by omega))
  have sw := body_switch
    { self with buffer := Function.update self.buffer (8 + L) (r % 256).toNat
                index := 8 + L + 1
                unescaping := false } frame L hs hlen (by simp only; omega)
  have hcrc : _read_uint32_t (shift (Function.update self.buffer (8 + L) (r % 256).toNat) (5 + L))
      = leValue (cells (shift (Function.update self.buffer (8 + L) (r % 256).toNat) (5 + L)) 4) := by
    rw [leValue_four]
    exact _read_uint32_t_eq _ (hb _ (by omega)) (hb _ (by omega)) (hb _ (by omega))
      (hb _ (by omega))
  simp only [hfl] at sw
  simp only [hcrc, checksumFrame_eq, shift_zero] at sw
  rw [e, sw]
  by_cases hc : leValue (cells (shift (Function.update self.buffer (8 + L) (r % 256).toNat)
      (5 + L)) 4)
    = crc32 (crc32 0 (cells (Function.update self.buffer (8 + L) (r % 256).toNat) 5))
        (cells (shift (Function.update self.buffer (8 + L) (r % 256).toNat) 5) L)
  · rw [if_pos hc]
    refine ⟨rfl, rfl, rfl, rfl, ?_, ?_, ?_⟩
    · constructor
      · intro _
        exact hc
      · intro _
        rfl
    · intro h
      exact absurd h (by simp)
    · intro _
      rfl
  · rw [if_neg hc]
    refine ⟨rfl, rfl, rfl, rfl, ?_, ?_, ?_⟩
    · constructor
      · intro h
        exact absurd h (by simp)
      · intro h
        exact absurd h hc
    · intro _
      rfl
    · intro h
      exact absurd h (by simp)

set_option maxRecDepth 100000 in
/-- Witness of C15: the last CRC byte of the empty frame with flags 0, whose header is
00 00 00 00 00 and whose CRC is 0. -/
theorem C15_body_completion_witness :
    (({ length := 64, buffer := fun _ => 0, index := 8, unescaping := false
        state := WAITING_FOR_BODY } : TinyLink).state = WAITING_FOR_BODY
        ∧ (∀ i, i < 8 + 0 → (fun _ => 0 : Nat → Nat) i < 256))
      ∧ (readFrame { length := 64, buffer := fun _ => 0, index := 8, unescaping := false
                     state := WAITING_FOR_BODY } 0
            { length := 7, flags := 7, payload := fun _ => 7 }).ret = true :=
  ⟨⟨rfl, by decide⟩,
    (C15_body_completion
      { length := 64, buffer := fun _ => 0, index := 8, unescaping := false
        state := WAITING_FOR_BODY } 0 { length := 7, flags := 7, payload := fun _ => 7 } 0
      rfl (by decide) rfl (Or.inl ⟨rfl, rfl, by decide⟩)).2.2.2.2.1.mpr (by decide)⟩

/-- C16, stored bytes are the unstuffed bytes. Let a decoder enter WAITING_FOR_HEADER (a
call on a decoder in WAITING_FOR_PREAMBLE leaves it in WAITING_FOR_HEADER, with cursor
0) and then receive the wire bytes `w`, no call leaving it in WAITING_FOR_PREAMBLE. If
the unescaping flag is clear afterwards, the cursor is the length of `unstuff w` and
the cells below the cursor are `unstuff w`; if the flag is set, the cells below
`cursor - 1` are `unstuff` of `w` without its last byte, cell `cursor - 1` holds 0x1B,
the last byte of `w` is 0x1B, and the last call returned false. -/
theorem C16_stored_unstuffed (prev : TinyLink) (r0 : Int) (f0 : frame_t) (self : TinyLink)
    (frame : frame_t) (w : List Nat) (hprev : prev.state = WAITING_FOR_PREAMBLE)
    (hself : (readFrame prev r0 f0).self = self) (henter : self.state = WAITING_FOR_HEADER)
    (hbytes : ∀ b ∈ w, b < 256)
    (hnoreset : ∀ k, k < w.length →
      (feedState self frame (w.take (k + 1))).1.state ≠ WAITING_FOR_PREAMBLE) :
    self.index = 0
      ∧ ((feedState self frame w).1.unescaping = false →
          (feedState self frame w).1.index = (unstuff w).length
            ∧ cells (feedState self frame w).1.buffer (feedState self frame w).1.index
                = unstuff w)
      ∧ ((feedState self frame w).1.unescaping = true →
          1 ≤ (feedState self frame w).1.index
            ∧ cells (feedState self frame w).1.buffer ((feedState self frame w).1.index - 1)
                = unstuff w.dropLast
            ∧ (feedState self frame w).1.buffer ((feedState self frame w).1.index - 1) = 0x1B
            ∧ w.getLast? = some 0x1B
            ∧ (feedOut self frame w).getLast? = some none) := by
  subst hself
  obtain ⟨e1, e2⟩ := enter_header prev r0 f0 hprev henter
  have h0 : Holds (readFrame prev r0 f0).self [] false :=
    ⟨e2, by simp [e1], rfl, fun h => absurd h (by simp), Or.inl ⟨henter, by simp⟩⟩
  have hfeed := holds_feed w _ frame [] false h0 hbytes hnoreset
  rw [List.nil_append] at hfeed
  obtain ⟨a1, a2, a3, a4, -⟩ := hfeed
  refine ⟨e1, fun hu => ?_, fun hu => ?_⟩
  · rw [a1] at hu
    rw [hu] at a2
    have a2 : (feedState (readFrame prev r0 f0).self frame w).1.index
        = (unstuffFrom false w).length := a2
    unfold unstuff
    rw [a2]
    exact ⟨rfl, a3⟩
  · rw [a1] at hu
    rw [hu] at a2
    have a2 : (feedState (readFrame prev r0 f0).self frame w).1.index
        = (unstuffFrom false w).length + 1 := a2
    have hw : w ≠ [] := by
      intro h
      rw [h] at hu
      simp [escapePending] at hu
    have hidx : (feedState (readFrame prev r0 f0).self frame w).1.index - 1
        = (unstuffFrom false w).length := by omega
    rw [hidx]
    unfold unstuff
    rw [unstuffFrom_dropLast w false hu]
    exact ⟨by omega, a3, a4 hu, escapePending_last w false hu hw,
      feed_pending_last w _ frame hw (by rw [a1]; exact hu)⟩

set_option maxRecDepth 100000 in
/-- Witness of C16: after the preamble, the wire bytes 34 1B AA 1B leave the bytes
34 AA stored and an escape pending. -/
theorem C16_stored_unstuffed_witness :
    (({ length := 64, buffer := ptr [0x55, 0xAA, 0x55], index := 3, unescaping := false
        state := WAITING_FOR_PREAMBLE } : TinyLink).state = WAITING_FOR_PREAMBLE
      ∧ (readFrame { length := 64, buffer := ptr [0x55, 0xAA, 0x55], index := 3
                     unescaping := false, state := WAITING_FOR_PREAMBLE } 0xAA
            { length := 0, flags := 0, payload := fun _ => 0 }).self.state = WAITING_FOR_HEADER
      ∧ (∀ b ∈ [0x34, 0x1B, 0xAA, 0x1B], b < 256)
      ∧ unstuff [0x34, 0x1B, 0xAA] = [0x34, 0xAA])
      ∧ cells (feedState (readFrame { length := 64, buffer := ptr [0x55, 0xAA, 0x55], index := 3
                                      unescaping := false, state := WAITING_FOR_PREAMBLE } 0xAA
                  { length := 0, flags := 0, payload := fun _ => 0 }).self
                { length := 0, flags := 0, payload := fun _ => 0 }
                [0x34, 0x1B, 0xAA, 0x1B]).1.buffer
            ((feedState (readFrame { length := 64, buffer := ptr [0x55, 0xAA, 0x55], index := 3
                                     unescaping := false, state := WAITING_FOR_PREAMBLE } 0xAA
                  { length := 0, flags := 0, payload := fun _ => 0 }).self
                { length := 0, flags := 0, payload := fun _ => 0 }
                [0x34, 0x1B, 0xAA, 0x1B]).1.index - 1)
          = unstuff [0x34, 0x1B, 0xAA, 0x1B].dropLast :=
  ⟨⟨rfl, by decide, by decide, by decide⟩,
    ((C16_stored_unstuffed
      { length := 64, buffer := ptr [0x55, 0xAA, 0x55], index := 3, unescaping := false
        state := WAITING_FOR_PREAMBLE } 0xAA { length := 0, flags := 0, payload := fun _ => 0 }
      _ { length := 0, flags := 0, payload := fun _ => 0 } [0x34, 0x1B, 0xAA, 0x1B]
      rfl rfl (by decide) (by decide) (by decide)).2.2 (by decide)).2.1⟩

/-- C17, the checksum is the plain bit-serial CRC. For every 32-bit seed and sequence
of bytes, `CRC32 seed data` is the left fold over the bytes of the full-register
update: XOR the byte into the register, then eight times shift the register right by
one, XORing in 0xEDB88320 when it was odd; no initial and no final XOR. The split
computation of `CRC32Value` (high 24 bits XOR the eight-round remainder of the low
byte) equals this update. -/
theorem C17_bit_serial (seed : Nat) (data : List Nat) (hseed : seed < 2 ^ 32)
    (hbytes : ∀ b ∈ data, b < 256) :
    CRC32 seed (ptr data) data.length = crcBitSerial seed data
      ∧ ∀ b, b < 256 → CRC32Value seed b = bitSerialUpdate seed b :=
  ⟨CRC32_eq_bitSerial seed data hseed hbytes,
    fun b hb => CRC32Value_eq_bitSerial seed b hseed hb⟩

/-- Witness of C17: the header of the unit tests under seed 0. -/
theorem C17_bit_serial_witness :
    ((0 : Nat) < 2 ^ 32 ∧ (∀ b ∈ [0x34, 0x12, 0x03, 0x00, 0x25], b < 256))
      ∧ (CRC32 0 (ptr [0x34, 0x12, 0x03, 0x00, 0x25]) [0x34, 0x12, 0x03, 0x00, 0x25].length
            = crcBitSerial 0 [0x34, 0x12, 0x03, 0x00, 0x25]
          ∧ ∀ b, b < 256 → CRC32Value 0 b = bitSerialUpdate 0 b) :=
  ⟨⟨by decide, by decide⟩,
    C17_bit_serial 0 [0x34, 0x12, 0x03, 0x00, 0x25] (by decide) (by decide)⟩

/-- C18 as stated fails: the checksum of the single byte 01 under seed 0 is 0x77073096,
while the register shifted left, taking the bits of the byte from bit 7 down to bit 0,
gives 0xEDB88320. -/
theorem C18_msb_first_counterexample :
    CRC32 0 (ptr [0x01]) [0x01].length = 0x77073096
      ∧ crcMsbFirst 0 [0x01] = 0xEDB88320
      ∧ CRC32 0 (ptr [0x01]) [0x01].length ≠ crcMsbFirst 0 [0x01] := by
  decide

/-- C18, amended: the checksum processes the bits of each byte least-significant bit
first, in the reflected form. For every 32-bit seed and sequence of bytes,
`CRC32 seed data` is the bit-serial CRC that, for each byte, takes its bits from bit 0
up to bit 7, and for each bit shifts the 32-bit register right by one and XORs in
0xEDB88320 when the bit shifted out of the register differs from the data bit; no
initial and no final XOR. -/
theorem C18_lsb_first (seed : Nat) (data : List Nat) (hseed : seed < 2 ^ 32)
    (hbytes : ∀ b ∈ data, b < 256) :
    CRC32 seed (ptr data) data.length = crcLsbFirst seed data := by
  rw [CRC32_eq_bitSerial seed data hseed hbytes, crcLsbFirst_eq data seed hbytes]

/-- Witness of C18: the payload of the unit tests under seed 0. -/
theorem C18_lsb_first_witness :
    ((0 : Nat) < 2 ^ 32 ∧ (∀ b ∈ [0x10, 0xAA, 0x1B], b < 256))
      ∧ CRC32 0 (ptr [0x10, 0xAA, 0x1B]) [0x10, 0xAA, 0x1B].length
          = crcLsbFirst 0 [0x10, 0xAA, 0x1B] :=
  ⟨⟨by decide, by decide⟩, C18_lsb_first 0 [0x10, 0xAA, 0x1B] (by decide) (by decide)⟩

/-- C19, the preamble cannot occur inside a frame. For every frame that `writeFrame`
accepts (payload cells being bytes), in the emitted byte sequence every byte 0xAA at
offset at least 4 is immediately preceded by a byte 0x1B that is also at offset at
least 4; the sequence starts with 55 AA 55 AA and these four consecutive bytes occur
at no other offset; and a decoder of any capacity that is in WAITING_FOR_PREAMBLE with
cursor 0 and is fed the first `m` bytes, for any `m`, of the suffix of the output
starting at an offset `k ≥ 1` is in WAITING_FOR_PREAMBLE afterwards, every call having
returned false. -/
theorem C19_no_preamble_inside (_buffer : Nat → Nat) (_length : Nat) (tx : frame_t)
    (dec : TinyLink) (frame : frame_t) (k m : Nat)
    (haccept : (writeFrame (ctor _buffer _length) tx []).1 = true)
    (hpayload : ∀ i, i < tx.length → tx.payload i < 256)
    (hdec : dec.state = WAITING_FOR_PREAMBLE) (hidx : dec.index = 0) (hk : 1 ≤ k) :
    (∀ i, 4 ≤ i → (writeFrame (ctor _buffer _length) tx []).2[i]? = some 0xAA →
        5 ≤ i ∧ (writeFrame (ctor _buffer _length) tx []).2[i - 1]? = some 0x1B)
      ∧ (writeFrame (ctor _buffer _length) tx []).2.take 4 = preambleBytes
      ∧ (∀ s t, (writeFrame (ctor _buffer _length) tx []).2 = s ++ preambleBytes ++ t → s = [])
      ∧ (feedState dec frame
            (((writeFrame (ctor _buffer _length) tx []).2.drop k).take m)).1.state
          = WAITING_FOR_PREAMBLE
      ∧ feedOut dec frame (((writeFrame (ctor _buffer _length) tx []).2.drop k).take m)
          = List.replicate
              (((writeFrame (ctor _buffer _length) tx []).2.drop k).take m).length none := by
  have hle : tx.length ≤ (ctor _buffer _length).length := by
    by_contra hgt
    have := (writeFrame_false_iff (ctor _buffer _length) tx []).mpr (by omega)
    rw [this] at haccept
    exact absurd haccept (by simp)
  have hC := ctor_length_lt _buffer _length
  have hbytes : ∀ b ∈ cells tx.payload tx.length, b < 256 := by
    intro b hb
    simp only [cells, List.mem_map, List.mem_range] at hb
    obtain ⟨i, hi, rfl⟩ := hb
    exact hpayload i hi
  rw [writeFrame_eq_wire _ tx [] hle]
  simp only [List.nil_append]
  obtain ⟨a, b⟩ := scan_inside_wire dec frame tx.flags (cells tx.payload tx.length) k m hdec hidx
    hbytes (by rw [cells_length]; omega) hk
  exact ⟨fun i h4 h => wire_guarded _ _ i h4 h, by simp [wire, preambleBytes],
    fun s t h => wire_preamble_once _ _ s t h, a, b⟩

set_option maxRecDepth 100000 in
/-- Witness of C19: the frame of the unit tests, flags 0x1234 and payload 10 AA 1B, and
a fresh decoder of capacity 8 fed the output from offset 1 on. -/
theorem C19_no_preamble_inside_witness :
    ((writeFrame (ctor (fun _ => 0) 64)
          { length := 3, flags := 0x1234, payload := ptr [0x10, 0xAA, 0x1B] } []).1 = true
        ∧ (∀ i, i < 3 → ptr [0x10, 0xAA, 0x1B] i < 256)
        ∧ (ctor (fun _ => 0) 8).state = WAITING_FOR_PREAMBLE
        ∧ (ctor (fun _ => 0) 8).index = 0)
      ∧ (feedState (ctor (fun _ => 0) 8) { length := 0, flags := 0, payload := fun _ => 0 }
            (((writeFrame (ctor (fun _ => 0) 64)
                { length := 3, flags := 0x1234, payload := ptr [0x10, 0xAA, 0x1B] } []).2.drop
              1).take 100)).1.state
          = WAITING_FOR_PREAMBLE :=
  ⟨⟨by decide, by decide, rfl, rfl⟩,
    (C19_no_preamble_inside (fun _ => 0) 64
      { length := 3, flags := 0x1234, payload := ptr [0x10, 0xAA, 0x1B] } (ctor (fun _ => 0) 8)
      { length := 0, flags := 0, payload := fun _ => 0 } 1 100 (by decide) (by decide) rfl rfl
      (by decide)).2.2.2.1⟩

/-- C20, decoder buffer safety. For every capacity `C` with `5 ≤ C ≤ 65535`, a decoder
started in its initial state, every sequence of input bytes received so far and every
value delivered to the next `readFrame` call: every index of the scratch buffer the
call writes (the store at the cursor and the destination of the copy of the last four
bytes) is below `C`; every index it reads (the preamble window and the source of the
copy, the five header bytes, the flags and length in the body state, the CRC window
and the cells `0` to `4 + length` of the CRC recomputation) is below `C`; and the
cursor decrement taken when an escape is pending is never applied to cursor 0. -/
theorem C20_buffer_safety (_buffer : Nat → Nat) (_length : Nat) (frame : frame_t)
    (bs : List Nat) (r : Int) (h5 : 5 ≤ _length) (h16 : _length ≤ 65535) :
    (∀ i ∈ readFrame_writes (feedState (ctor _buffer _length) frame bs).1 r, i < _length)
      ∧ (∀ i ∈ readFrame_reads (feedState (ctor _buffer _length) frame bs).1 r, i < _length)
      ∧ (∀ i ∈ readFrame_decrements (feedState (ctor _buffer _length) frame bs).1, i ≠ 0) := by
  have hl : (ctor _buffer _length).length = _length := by
    rw [ctor_length]
    exact Nat.mod_eq_of_lt (by omega)
  obtain ⟨i1, i2⟩ := feed_in_bounds bs (ctor _buffer _length) frame
    (in_bounds_ctor _buffer _length (by omega)) (by omega) (ctor_length_lt _buffer _length)
  have := access_in_bounds (feedState (ctor _buffer _length) frame bs).1 r i1
    (by rw [i2]; omega) (by rw [i2]; exact ctor_length_lt _buffer _length)
  rw [i2, hl] at this
  exact this

/-- Witness of C20: capacity 5, the call that fills the buffer and copies its last four
bytes to the front. -/
theorem C20_buffer_safety_witness :
    (5 ≤ 5 ∧ 5 ≤ 65535)
      ∧ readFrame_writes (feedState (ctor (fun _ => 0) 5)
            { length := 0, flags := 0, payload := fun _ => 0 } [0, 0, 0, 0]).1 0 = [4, 0, 1, 2, 3]
      ∧ readFrame_reads (feedState (ctor (fun _ => 0) 5)
            { length := 0, flags := 0, payload := fun _ => 0 } [0, 0, 0, 0]).1 0
          = [1, 2, 3, 4, 1, 2, 3, 4]
      ∧ ((∀ i ∈ readFrame_writes (feedState (ctor (fun _ => 0) 5)
              { length := 0, flags := 0, payload := fun _ => 0 } [0, 0, 0, 0]).1 0, i < 5)
        ∧ (∀ i ∈ readFrame_reads (feedState (ctor (fun _ => 0) 5)
              { length := 0, flags := 0, payload := fun _ => 0 } [0, 0, 0, 0]).1 0, i < 5)
        ∧ (∀ i ∈ readFrame_decrements (feedState (ctor (fun _ => 0) 5)
              { length := 0, flags := 0, payload := fun _ => 0 } [0, 0, 0, 0]).1, i ≠ 0)) :=
  ⟨⟨by decide, by decide⟩, by decide, by decide,
    C20_buffer_safety (fun _ => 0) 5 { length := 0, flags := 0, payload := fun _ => 0 }
      [0, 0, 0, 0] 0 (by decide) (by decide)⟩

/-- C21, encode accepts frames its own decoder cannot receive. For every capacity `C`
with `5 ≤ C ≤ 65535` and every frame with `C - 10 < length ≤ C` (in the integers,
payload cells being bytes): `writeFrame` returns true and emits the full wire image
of the frame; a fresh decoder of the same capacity fed the emitted bytes returns
false on every call; right after the stuffed header it is back in
WAITING_FOR_PREAMBLE with cursor 0, the header being rejected on its length. -/
theorem C21_unreceivable_frames (_buffer _buffer2 : Nat → Nat) (_length : Nat)
    (frame0 tx : frame_t) (h5 : 5 ≤ _length) (h16 : _length ≤ 65535)
    (hlo : (_length : Int) - 10 < (tx.length : Int)) (hhi : tx.length ≤ _length)
    (hpayload : ∀ i, i < tx.length → tx.payload i < 256) :
    (writeFrame (ctor _buffer2 _length) tx []).1 = true
      ∧ (writeFrame (ctor _buffer2 _length) tx []).2
          = wire tx.flags (cells tx.payload tx.length)
      ∧ feedOut (ctor _buffer _length) frame0 (writeFrame (ctor _buffer2 _length) tx []).2
          = List.replicate (writeFrame (ctor _buffer2 _length) tx []).2.length none
      ∧ (feedState (ctor _buffer _length) frame0
            (preambleBytes ++ stuff (headerBytes tx.flags tx.length))).1.state
          = WAITING_FOR_PREAMBLE
      ∧ (feedState (ctor _buffer _length) frame0
            (preambleBytes ++ stuff (headerBytes tx.flags tx.length))).1.index = 0 := by
  have hl : (ctor _buffer _length).length = _length := by
    rw [ctor_length]
    exact Nat.mod_eq_of_lt (by omega)
  have hl2 : (ctor _buffer2 _length).length = _length := hl
  have hbytes : ∀ b ∈ cells tx.payload tx.length, b < 256 := by
    intro b hb
    simp only [cells, List.mem_map, List.mem_range] at hb
    obtain ⟨i, hi, rfl⟩ := hb
    exact hpayload i hi
  have hw := writeFrame_eq_wire (ctor _buffer2 _length) tx [] (by rw [hl2]; exact hhi)
  simp only [List.nil_append] at hw
  obtain ⟨buf1, s1, o1⟩ := sync_after_noise (ctor _buffer _length) frame0 []
    (ctor_seeking _ _ (by omega)) (by omega) (by omega) (by simp) no_preamble_in_three
  simp only [List.nil_append] at s1 o1
  obtain ⟨a1, a2⟩ := long_frame_lost (ctor _buffer _length).length buf1 frame0 tx.flags
    tx.length
    (cells tx.payload tx.length
      ++ LE32 (crc32 (crc32 0 (headerBytes tx.flags tx.length)) (cells tx.payload tx.length)))
    (by omega) (by omega) (by omega) (by omega)
    (fun x hx => by
      rcases List.mem_append.mp hx with h | h
      · exact hbytes x h
      · exact LE32_lt _ x h)
  have hwire : wire tx.flags (cells tx.payload tx.length)
      = preambleBytes ++ stuff (headerBytes tx.flags tx.length
          ++ (cells tx.payload tx.length
            ++ LE32 (crc32 (crc32 0 (headerBytes tx.flags tx.length))
                (cells tx.payload tx.length)))) := by
    simp only [wire, cells_length, preambleBytes, List.append_assoc]
  refine ⟨by rw [hw], by rw [hw], ?_, ?_, ?_⟩
  · rw [hw, hwire, feedOut_append, o1, s1, List.length_append]
    simp only
    rw [a2, ← List.replicate_add]
  · rw [feedState_append, s1]
    simp only
    rw [a1]
  · rw [feedState_append, s1]
    simp only
    rw [a1]

set_option maxRecDepth 100000 in
/-- Witness of C21: capacity 12 and the three-byte payload of the unit tests. -/
theorem C21_unreceivable_frames_witness :
    ((5 : Nat) ≤ 12 ∧ (12 : Nat) ≤ 65535 ∧ ((12 : Nat) : Int) - 10 < ((3 : Nat) : Int)
        ∧ (3 : Nat) ≤ 12 ∧ (∀ i, i < 3 → ptr [0x10, 0xAA, 0x1B] i < 256))
      ∧ (writeFrame (ctor (fun _ => 0) 12)
            { length := 3, flags := 0x1234, payload := ptr [0x10, 0xAA, 0x1B] } []).1 = true
      ∧ feedOut (ctor (fun _ => 0) 12) { length := 0, flags := 0, payload := fun _ => 0 }
            (writeFrame (ctor (fun _ => 0) 12)
              { length := 3, flags := 0x1234, payload := ptr [0x10, 0xAA, 0x1B] } []).2
          = List.replicate (writeFrame (ctor (fun _ => 0) 12)
              { length := 3, flags := 0x1234, payload := ptr [0x10, 0xAA, 0x1B] } []).2.length
              none :=
  ⟨⟨by decide, by decide, by decide, by decide, by decide⟩,
    (C21_unreceivable_frames (fun _ => 0) (fun _ => 0) 12
      { length := 0, flags := 0, payload := fun _ => 0 }
      { length := 3, flags := 0x1234, payload := ptr [0x10, 0xAA, 0x1B] }
      (by decide) (by decide) (by decide) (by decide) (by decide)).1,
    (C21_unreceivable_frames (fun _ => 0) (fun _ => 0) 12
      { length := 0, flags := 0, payload := fun _ => 0 }
      { length := 3, flags := 0x1234, payload := ptr [0x10, 0xAA, 0x1B] }
      (by decide) (by decide) (by decide) (by decide) (by decide)).2.2.1⟩

/-- C22, the CRC detects every corruption confined to one byte. For a fixed byte the
update `CRC32Value` is injective in the 32-bit register, and for a fixed 32-bit
register it is injective in the byte; hence for every 32-bit seed and all byte
sequences `A` and `A'` of equal length that differ in exactly one position,
`CRC32 seed A ≠ CRC32 seed A'`. Consequently, for a frame with header
`headerBytes flags P.length` and payload `P`, and a sequence `X'` of as many bytes that
differs from header-plus-payload in exactly one position: `checksumFrame` of the
altered header and payload differs from that of the frame; and a fresh decoder of
capacity at least 5 fed the preamble and then, stuffed, `X'` followed by the CRC field
of the unaltered frame returns false on every call. -/
theorem C22_crc_single_byte (_buffer : Nat → Nat) (_length : Nat) (frame0 : frame_t)
    (flags : Nat) (P X' : List Nat) (i : Nat) (h5 : 5 ≤ (ctor _buffer _length).length)
    (hP : ∀ b ∈ P, b < 256) (hPlen : P.length < 65536) (hX' : ∀ b ∈ X', b < 256)
    (hlen : X'.length = (headerBytes flags P.length ++ P).length) (hi : i < X'.length)
    (hne : X'.getD i 0 ≠ (headerBytes flags P.length ++ P).getD i 0)
    (hrest : ∀ j, j < X'.length → j ≠ i →
      X'.getD j 0 = (headerBytes flags P.length ++ P).getD j 0) :
    (∀ r s b, r < 2 ^ 32 → s < 2 ^ 32 → b < 256 → CRC32Value r b = CRC32Value s b → r = s)
      ∧ (∀ r b c, r < 2 ^ 32 → b < 256 → c < 256 → CRC32Value r b = CRC32Value r c → b = c)
      ∧ (∀ (seed : Nat) (A A' : List Nat) (k : Nat), seed < 2 ^ 32 → A.length = A'.length →
          (∀ b ∈ A, b < 256) → (∀ b ∈ A', b < 256) → k < A.length →
          A.getD k 0 ≠ A'.getD k 0 →
          (∀ j, j < A.length → j ≠ k → A.getD j 0 = A'.getD j 0) →
          CRC32 seed (ptr A) A.length ≠ CRC32 seed (ptr A') A'.length)
      ∧ checksumFrame (ptr (X'.take 5)) (ptr (X'.drop 5)) P.length
          ≠ checksumFrame (ptr (headerBytes flags P.length)) (ptr P) P.length
      ∧ feedOut (ctor _buffer _length) frame0
            (preambleBytes ++ stuff (X'
              ++ LE32 (checksumFrame (ptr (headerBytes flags P.length)) (ptr P) P.length)))
          = List.replicate (preambleBytes ++ stuff (X'
              ++ LE32 (checksumFrame (ptr (headerBytes flags P.length)) (ptr P)
                P.length))).length none := by
  have hXb : ∀ b ∈ headerBytes flags P.length ++ P, b < 256 := by
    intro x hx
    rcases List.mem_append.mp hx with h | h
    · exact headerBytes_lt _ _ x h
    · exact hP x h
  have hck : checksumFrame (ptr (headerBytes flags P.length)) (ptr P) P.length
      = crc32 0 (headerBytes flags P.length ++ P) := by
    rw [checksumFrame_eq, cells_ptr,
      show (5 : Nat) = (headerBytes flags P.length).length from rfl, cells_ptr, crc32_append]
  have hdiff : crc32 0 X' ≠ crc32 0 (headerBytes flags P.length ++ P) :=
    crc32_differ X' _ 0 i (by decide) hlen hX' hXb hi hne hrest
  have hH5 : (headerBytes flags P.length ++ P).length = 5 + P.length := by
    simp [headerBytes]
    omega
  have htake : (X'.take 5).length = 5 := by
    rw [List.length_take]
    omega
  have hdrop : (X'.drop 5).length = P.length := by
    rw [List.length_drop]
    omega
  have hck2 : checksumFrame (ptr (X'.take 5)) (ptr (X'.drop 5)) P.length = crc32 0 X' := by
    have c1 : cells (ptr (X'.take 5)) 5 = X'.take 5 := by
      have := cells_ptr (X'.take 5)
      rw [htake] at this
      exact this
    have c2 : cells (ptr (X'.drop 5)) P.length = X'.drop 5 := by
      have := cells_ptr (X'.drop 5)
      rw [hdrop] at this
      exact this
    rw [checksumFrame_eq, c1, c2, crc32_append, List.take_append_drop]
  refine ⟨fun r s b hr hs hb h => CRC32Value_inj_register r s b hr hs hb h,
    fun r b c hr hb hc h => CRC32Value_inj_byte r b c hr hb hc h, ?_, ?_, ?_⟩
  · intro seed A A' k hseed hl hA hA' hk hnk hrk
    rw [CRC32_eq_crc32, CRC32_eq_crc32, cells_ptr, cells_ptr]
    exact crc32_differ A A' seed k hseed hl hA hA' hk hnk hrk
  · rw [hck, hck2]
    exact hdiff
  · rw [hck]
    obtain ⟨buf1, s1, o1⟩ := sync_after_noise (ctor _buffer _length) frame0 []
      (ctor_seeking _ _ (by omega)) (ctor_length_lt _buffer _length) h5 (by simp)
      no_preamble_in_three
    simp only [List.nil_append] at s1 o1
    match X', hlen, hX', hi, hne, hrest with
    | a :: b :: c :: d :: e :: Q, hlen, hX', hi, hne, hrest =>
      have := altered_frame_lost (ctor _buffer _length).length buf1 frame0 flags P a b c d e Q
        i h5 (ctor_length_lt _buffer _length) hP hPlen hX' hlen hi hne hrest
      rw [feedOut_append, o1, s1, List.length_append]
      simp only
      rw [this, ← List.replicate_add]
    | [], hlen, _, _, _, _ => rw [hH5] at hlen; simp at hlen; omega
    | [_], hlen, _, _, _, _ => rw [hH5] at hlen; simp at hlen; omega
    | [_, _], hlen, _, _, _, _ => rw [hH5] at hlen; simp at hlen; omega
    | [_, _, _], hlen, _, _, _, _ => rw [hH5] at hlen; simp at hlen; omega
    | [_, _, _, _], hlen, _, _, _, _ => rw [hH5] at hlen; simp at hlen; omega

set_option maxRecDepth 100000 in
/-- Witness of C22: the frame of the unit tests with the payload byte AA received as
AB, at capacity 64. -/
theorem C22_crc_single_byte_witness :
    (5 ≤ (ctor (fun _ => 0) 64).length
        ∧ (∀ b ∈ [0x10, 0xAA, 0x1B], b < 256)
        ∧ (∀ b ∈ [0x34, 0x12, 0x03, 0x00, 0x25, 0x10, 0xAB, 0x1B], b < 256)
        ∧ [0x34, 0x12, 0x03, 0x00, 0x25, 0x10, 0xAB, 0x1B].length
            = (headerBytes 0x1234 [0x10, 0xAA, 0x1B].length ++ [0x10, 0xAA, 0x1B]).length
        ∧ [0x34, 0x12, 0x03, 0x00, 0x25, 0x10, 0xAB, 0x1B].getD 6 0
            ≠ (headerBytes 0x1234 [0x10, 0xAA, 0x1B].length ++ [0x10, 0xAA, 0x1B]).getD 6 0)
      ∧ feedOut (ctor (fun _ => 0) 64) { length := 0, flags := 0, payload := fun _ => 0 }
            (preambleBytes ++ stuff ([0x34, 0x12, 0x03, 0x00, 0x25, 0x10, 0xAB, 0x1B]
              ++ LE32 (checksumFrame (ptr (headerBytes 0x1234 [0x10, 0xAA, 0x1B].length))
                  (ptr [0x10, 0xAA, 0x1B]) [0x10, 0xAA, 0x1B].length)))
          = List.replicate (preambleBytes ++ stuff ([0x34, 0x12, 0x03, 0x00, 0x25, 0x10, 0xAB, 0x1B]
              ++ LE32 (checksumFrame (ptr (headerBytes 0x1234 [0x10, 0xAA, 0x1B].length))
                  (ptr [0x10, 0xAA, 0x1B]) [0x10, 0xAA, 0x1B].length))).length none :=
  ⟨⟨by decide, by decide, by decide, by decide, by decide⟩,
    (C22_crc_single_byte (fun _ => 0) 64 { length := 0, flags := 0, payload := fun _ => 0 }
      0x1234 [0x10, 0xAA, 0x1B] [0x34, 0x12, 0x03, 0x00, 0x25, 0x10, 0xAB, 0x1B] 6
      (by decide) (by decide) (by decide) (by decide) (by decide) (by decide) (by decide)
      (by decide)).2.2.2.2⟩

set_option maxRecDepth 100000 in
/-- C23, a partial preamble in front of a frame can make the decoder lose it. There
are a capacity, a noise prefix `J` without the four consecutive bytes 55 AA 55 AA and
a frame with `length ≤ capacity - 10` such that a fresh decoder fed `J` followed by
the complete `writeFrame` encoding of the frame returns false on every call: capacity
64, `J` = 55 AA, flags 0x1234 and payload 10 AA 1B. The decoder is in
WAITING_FOR_HEADER two bytes before the end of the encoded preamble, and in
WAITING_FOR_PREAMBLE with cursor 0 five bytes later, the misaligned header 55 AA 34 12
03 being rejected. -/
theorem C23_partial_preamble_loses_frame :
    ∃ (_length : Nat) (J : List Nat) (flags : Nat) (payload : List Nat),
      _length = 64 ∧ J = [0x55, 0xAA] ∧ flags = 0x1234 ∧ payload = [0x10, 0xAA, 0x1B]
        ∧ ¬ preambleBytes <:+: J
        ∧ payload.length + 10 ≤ (ctor (fun _ => 0) _length).length
        ∧ (writeFrame (ctor (fun _ => 0) _length)
              { length := payload.length, flags := flags, payload := ptr payload } []).1 = true
        ∧ feedOut (ctor (fun _ => 0) _length) { length := 0, flags := 0, payload := fun _ => 0 }
              (J ++ (writeFrame (ctor (fun _ => 0) _length)
                { length := payload.length, flags := flags, payload := ptr payload } []).2)
            = List.replicate (J ++ (writeFrame (ctor (fun _ => 0) _length)
                { length := payload.length, flags := flags, payload := ptr payload }
                []).2).length none
        ∧ (feedState (ctor (fun _ => 0) _length)
              { length := 0, flags := 0, payload := fun _ => 0 }
              (J ++ [0x55, 0xAA])).1.state = WAITING_FOR_HEADER
        ∧ (feedState (ctor (fun _ => 0) _length)
              { length := 0, flags := 0, payload := fun _ => 0 }
              (J ++ [0x55, 0xAA] ++ [0x55, 0xAA, 0x34, 0x12, 0x03])).1.state
            = WAITING_FOR_PREAMBLE
        ∧ (feedState (ctor (fun _ => 0) _length)
              { length := 0, flags := 0, payload := fun _ => 0 }
              (J ++ [0x55, 0xAA] ++ [0x55, 0xAA, 0x34, 0x12, 0x03])).1.index = 0 :=
  ⟨64, [0x55, 0xAA], 0x1234, [0x10, 0xAA, 0x1B], rfl, rfl, rfl, rfl, by decide, by decide,
    by decide, by decide, by decide, by decide, by decide⟩

end TinyLink
